import Mathlib

/-!
Verification of the network computation engine of a neural-network
visualizer/simulator.

The development shallowly embeds the data model (`Neuron`, `Connection`,
`Layer`, `NeuralNetwork`), the activation library, the propagation engine
(`runForwardPropagation`, `runTrainingStep`) and the graph-editor operations
(`addLayer`, `removeLayer`, `addNeuronToLayer`, `removeNeuron`,
`createConnection`, `deleteConnection`).

Modelling conventions:
* JavaScript numbers are idealized as real numbers (`ℝ`).
* Opaque string identifiers (uuids) are modelled as natural numbers; the id
  generator is an external collaborator that is collision-free, so fresh ids
  are passed in as parameters with freshness hypotheses where needed.
* `Math.random()` outputs are passed in as explicit real parameters `r` with
  the hypothesis `0 ≤ r ∧ r < 1`; the code's weight expression `r * 2 - 1`
  is kept literally.
* Optional JS fields (`target?`, `error?`, `delta?`, `gradient?`) become
  `Option ℝ`.  JS truthiness tests on them (`if (neuron.delta)`) are embedded
  by a case split that treats `none` and `some 0` as falsy.
* `JSON.parse(JSON.stringify(x))` is a deep copy; in a pure embedding it is
  the identity.
* Where the source would throw a `TypeError` (indexing a missing layer), the
  embedded top-level operation returns `none`.
-/

/-- Indexed map: the embedding of a JavaScript `forEach`/`map` whose callback
receives the element index.  Written recursively so that its basic laws are
available by straightforward induction. -/
def idxMapFrom (f : Nat → α → β) (k : Nat) : List α → List β
  | [] => []
  | a :: as => f k a :: idxMapFrom f (k + 1) as

/-- `idxMap f l` applies `f i a` to each element `a` of `l` at its index `i`. -/
def idxMap (f : Nat → α → β) (l : List α) : List β :=
  idxMapFrom f 0 l

theorem idxMapFrom_length (f : Nat → α → β) (k : Nat) (l : List α) :
    (idxMapFrom f k l).length = l.length := by
  induction l generalizing k with
  | nil => rfl
  | cons a as ih => simp [idxMapFrom, ih]

theorem idxMap_length (f : Nat → α → β) (l : List α) :
    (idxMap f l).length = l.length :=
  idxMapFrom_length f 0 l

theorem idxMapFrom_getElem? (f : Nat → α → β) (k : Nat) (l : List α) (i : Nat) :
    (idxMapFrom f k l)[i]? = (l[i]?).map (f (k + i)) := by
  induction l generalizing k i with
  | nil => simp [idxMapFrom]
  | cons a as ih =>
    cases i with
    | zero => simp [idxMapFrom]
    | succ n =>
      simp only [idxMapFrom, List.getElem?_cons_succ]
      rw [ih (k + 1) n, show k + (n + 1) = k + 1 + n from by omega]

theorem idxMap_getElem? (f : Nat → α → β) (l : List α) (i : Nat) :
    (idxMap f l)[i]? = (l[i]?).map (f i) := by
  simpa using idxMapFrom_getElem? f 0 l i

/-- The three supported activation kinds (`src/types.ts`). -/
inductive ActivationFunction where
  | sigmoid
  | relu
  | tanh
deriving DecidableEq, Repr

/-- A neuron (`src/types.ts`).  Coordinates `x`, `y` are presentational but
kept because the editor operations compute them. -/
structure Neuron where
  id : Nat
  layerIndex : Nat
  neuronIndex : Nat
  x : ℝ
  y : ℝ
  bias : ℝ
  activation : ℝ
  target : Option ℝ
  error : Option ℝ
  delta : Option ℝ

/-- A directed weighted edge between two neurons (`src/types.ts`). -/
structure Connection where
  id : Nat
  fromNeuronId : Nat
  toNeuronId : Nat
  weight : ℝ
  gradient : Option ℝ

/-- An ordered group of neurons (`src/types.ts`). -/
structure Layer where
  id : Nat
  neurons : List Neuron

/-- The root aggregate (`src/types.ts`). -/
structure NeuralNetwork where
  layers : List Layer
  connections : List Connection
  activationFunction : ActivationFunction

noncomputable section

/-- `sigmoid` from `src/utils/network.ts`. -/
def sigmoid (x : ℝ) : ℝ := 1 / (1 + Real.exp (-x))

/-- `relu` from `src/utils/network.ts`. -/
def relu (x : ℝ) : ℝ := max 0 x

/-- `tanh` from `src/utils/network.ts`. -/
def tanh (x : ℝ) : ℝ := Real.tanh x

/-- The table `activationFunctions` from `src/utils/network.ts`. -/
def activationFunctions : ActivationFunction → ℝ → ℝ
  | .sigmoid => sigmoid
  | .relu => relu
  | .tanh => tanh

/-- `sigmoidDerivative` (takes the already-computed output `y`). -/
def sigmoidDerivative (y : ℝ) : ℝ := y * (1 - y)

/-- `reluDerivative` (takes the already-computed output `y`). -/
def reluDerivative (y : ℝ) : ℝ := if 0 < y then 1 else 0

/-- `tanhDerivative` (takes the already-computed output `y`). -/
def tanhDerivative (y : ℝ) : ℝ := 1 - y * y

/-- The table `activationDerivatives` from `src/utils/network.ts`. -/
def activationDerivatives : ActivationFunction → ℝ → ℝ
  | .sigmoid => sigmoidDerivative
  | .relu => reluDerivative
  | .tanh => tanhDerivative

/-- All neurons of the network in layer order: the embedding of
`network.layers.flatMap(l => l.neurons)`. -/
def allNeurons (net : NeuralNetwork) : List Neuron :=
  (net.layers.map Layer.neurons).flatten

/-- Look a neuron up by id among all neurons of the network: the embedding
of `network.layers.flatMap(l => l.neurons).find(n => n.id === id)`. -/
def idLookup (net : NeuralNetwork) (i : Nat) : Option Neuron :=
  (allNeurons net).find? (fun n => n.id == i)

/-- The weighted input sum of one neuron during forward propagation
(`src/utils/network.ts`, inner `reduce` of `runForwardPropagation`): filter
the connections whose destination is this neuron, then add
`fromNeuron.activation * conn.weight` for every connection whose source id is
found in `prevLayer` (the layer at index `i-1`); connections whose source is
not found there contribute nothing. -/
def weightedInput (prevLayer : Layer) (conns : List Connection) (neuron : Neuron) : ℝ :=
  (conns.filter (fun c => c.toNeuronId == neuron.id)).foldl
    (fun sum conn =>
      match prevLayer.neurons.find? (fun n => n.id == conn.fromNeuronId) with
      | some fromNeuron => sum + fromNeuron.activation * conn.weight
      | none => sum) 0

/-- The body of the `forEach` of `runForwardPropagation`: store
`activationFunc(weightedSum + neuron.bias)` as the neuron's new activation. -/
def fwdNeuron (af : ActivationFunction) (conns : List Connection) (prevLayer : Layer)
    (neuron : Neuron) : Neuron :=
  { neuron with activation :=
      (activationFunctions af (weightedInput prevLayer conns neuron + neuron.bias)) }

/-- One iteration of the `for (let i = 1; i <= maxLayer; i++)` loop of
`runForwardPropagation`: recompute every activation of layer `i` from the
current state of layer `i-1`.  The source indexes `layers[i]` and
`layers[i-1]` directly; the match guard is vacuous on the in-range indices the
loop is actually run with. -/
def stepLayer (net : NeuralNetwork) (i : Nat) : NeuralNetwork :=
  match net.layers[i]?, net.layers[i - 1]? with
  | some currentLayer, some prevLayer =>
      let updatedLayer : Layer :=
        { currentLayer with neurons :=
            currentLayer.neurons.map (fwdNeuron net.activationFunction net.connections prevLayer) }
      { net with layers := net.layers.set i updatedLayer }
  | _, _ => net

/-- The forward-propagation loop run for layers `1, 2, ..., m` in strictly
increasing order (`runForwardPropagation`, `src/utils/network.ts`). -/
def forwardUpTo (net : NeuralNetwork) : Nat → NeuralNetwork
  | 0 => net
  | m + 1 => stepLayer (forwardUpTo net m) (m + 1)

/-- `runForwardPropagation(network, untilLayer?)` from `src/utils/network.ts`.
The deep copy of the argument is the identity in this pure embedding.
`maxLayer` defaults to the index of the last layer.  When the loop would
access a nonexistent layer (an `untilLayer` beyond the last index), the
source throws a `TypeError`; that is modelled by returning `none`. -/
def runForwardPropagation (network : NeuralNetwork) (untilLayer : Option Nat) :
    Option NeuralNetwork :=
  let maxLayer := untilLayer.getD (network.layers.length - 1)
  if maxLayer = 0 ∨ maxLayer < network.layers.length then
    some (forwardUpTo network maxLayer)
  else
    none

end

noncomputable section

/-- The error/delta computation for one output-layer neuron in step 2 of
`runTrainingStep` (`src/utils/network.ts`): `target` defaults to `0` when
unset, `error = target - activation`, `delta = error * derivative(activation)`. -/
def outputNeuronUpdate (d : ℝ → ℝ) (neuron : Neuron) : Neuron :=
  let target := neuron.target.getD 0
  let error := target - neuron.activation
  { neuron with error := some error, delta := some (error * d neuron.activation) }

/-- Replace the layer at index `k` by `f` applied to it (helper for embedding
in-place mutation of one layer of the `layers` array). -/
def modifyLayer (net : NeuralNetwork) (k : Nat) (f : Layer → Layer) : NeuralNetwork :=
  match net.layers[k]? with
  | some l => { net with layers := net.layers.set k (f l) }
  | none => net

/-- The backpropagated error sum of one hidden neuron in step 3 of
`runTrainingStep`: over every outgoing connection of the neuron, look the
destination up in the next layer only, and accumulate `weight * delta`
when the destination was found and its `delta` is truthy (set and nonzero —
the source tests JS truthiness of `nextNeuron.delta`). -/
def hiddenErrorSum (conns : List Connection) (nextLayer : Layer) (neuron : Neuron) : ℝ :=
  (conns.filter (fun c => c.fromNeuronId == neuron.id)).foldl
    (fun error conn =>
      match nextLayer.neurons.find? (fun n => n.id == conn.toNeuronId) with
      | some nextNeuron =>
          match nextNeuron.delta with
          | some dv => if dv = 0 then error else error + conn.weight * dv
          | none => error
      | none => error) 0

/-- The per-neuron body of the backward loop: set
`delta = errorSum * derivative(activation)`. -/
def backNeuron (conns : List Connection) (nextLayer : Layer) (d : ℝ → ℝ)
    (neuron : Neuron) : Neuron :=
  { neuron with delta :=
      (some (hiddenErrorSum conns nextLayer neuron * d neuron.activation)) }

/-- One iteration of the backward loop of step 3 of `runTrainingStep`:
set `delta = errorSum * derivative(activation)` for every neuron of layer `i`,
reading deltas from layer `i+1`. -/
def backstepLayer (net : NeuralNetwork) (i : Nat) : NeuralNetwork :=
  match net.layers[i]?, net.layers[i + 1]? with
  | some currentLayer, some nextLayer =>
      let updatedLayer : Layer :=
        { currentLayer with neurons := (currentLayer.neurons.map
            (backNeuron net.connections nextLayer
              (activationDerivatives net.activationFunction))) }
      { net with layers := net.layers.set i updatedLayer }
  | _, _ => net

/-- The backward loop `for (let i = layers.length - 2; i >= 1; i--)` of
`runTrainingStep`, processing layers `k, k-1, ..., 1` in decreasing order. -/
def backpropFrom (net : NeuralNetwork) : Nat → NeuralNetwork
  | 0 => net
  | i + 1 => backpropFrom (backstepLayer net (i + 1)) i

/-- Step 4 of `runTrainingStep` for a single connection: look up both
endpoints among all neurons; if both are found and the destination's `delta`
is truthy (set and nonzero), store `gradient = fromNeuron.activation * delta`
on the connection and add `learningRate * gradient` to its weight; otherwise
leave the connection untouched. -/
def applyWeightUpdate (net : NeuralNetwork) (learningRate : ℝ) (conn : Connection) : Connection :=
  match idLookup net conn.fromNeuronId, idLookup net conn.toNeuronId with
  | some fromNeuron, some toNeuron =>
      match toNeuron.delta with
      | some dv =>
          if dv = 0 then conn
          else
            let gradient := fromNeuron.activation * dv
            { conn with gradient := some gradient, weight := conn.weight + learningRate * gradient }
      | none => conn
  | _, _ => conn

/-- Step 4 of `runTrainingStep` over the whole connection list. -/
def updateWeights (net : NeuralNetwork) (learningRate : ℝ) : NeuralNetwork :=
  { net with connections := net.connections.map (applyWeightUpdate net learningRate) }

/-- Step 5 of `runTrainingStep` for a single neuron: add
`learningRate * delta` to the bias when `delta` is truthy (set and nonzero). -/
def biasUpdate (learningRate : ℝ) (neuron : Neuron) : Neuron :=
  match neuron.delta with
  | some dv =>
      if dv = 0 then neuron
      else { neuron with bias := neuron.bias + learningRate * dv }
  | none => neuron

/-- Step 5 of `runTrainingStep`: the loop `for (let i = 1; i < layers.length; i++)`
updating biases in every non-input layer. -/
def updateBiases (net : NeuralNetwork) (learningRate : ℝ) : NeuralNetwork :=
  { net with layers := idxMap (fun i layer =>
      if i = 0 then layer
      else { layer with neurons := layer.neurons.map (biasUpdate learningRate) }) net.layers }

/-- Step 2 of `runTrainingStep` on the last layer: set every output
neuron's error and delta. -/
def outputPass (net : NeuralNetwork) : NeuralNetwork :=
  modifyLayer net (net.layers.length - 1) (fun l =>
    { l with neurons := (l.neurons.map
        (outputNeuronUpdate (activationDerivatives net.activationFunction))) })

/-- Step 3 of `runTrainingStep`: the backward loop started at the
second-to-last layer. -/
def backwardPass (net : NeuralNetwork) : NeuralNetwork :=
  backpropFrom net (net.layers.length - 2)

/-- The running `finalLoss` of step 2: sum of squared output errors divided by
the output-neuron count (mean squared error; `target` defaults to 0). -/
def lossOf (outputLayer : Layer) : ℝ :=
  ((outputLayer.neurons.map
      (fun n => (n.target.getD 0 - n.activation) ^ 2)).sum) /
    (outputLayer.neurons.length : ℝ)

/-- `runTrainingStep(network, learningRate)` from `src/utils/network.ts`:
forward pass, output error/delta and mean-squared-error loss, backward delta
propagation, weight updates, bias updates.  On a network with no layers the
source throws (`layers[-1]` is `undefined`); that is modelled by `none`. -/
def runTrainingStep (network : NeuralNetwork) (learningRate : ℝ) :
    Option (NeuralNetwork × ℝ) :=
  match runForwardPropagation network none with
  | none => none
  | some propagatedNetwork =>
    match propagatedNetwork.layers[propagatedNetwork.layers.length - 1]? with
    | none => none
    | some outputLayer =>
      some (updateBiases (updateWeights (backwardPass (outputPass propagatedNetwork))
          learningRate) learningRate,
        lossOf outputLayer)

end
noncomputable section

/-- `getInitialNetwork` from `src/utils/network.ts`.  The uuids of the five
neurons are modelled as the opaque tokens `0..4` and the uuids of the six
connections as `100..105`; `'layer-0'`, `'layer-1'`, `'layer-2'` become the
layer ids `0`, `1`, `2`. -/
def getInitialNetwork : NeuralNetwork :=
  let inputNeuron1 : Neuron :=
    { id := 0, layerIndex := 0, neuronIndex := 0, x := 100, y := 150, bias := 0,
      activation := 1, target := none, error := none, delta := none }
  let inputNeuron2 : Neuron :=
    { id := 1, layerIndex := 0, neuronIndex := 1, x := 100, y := 250, bias := 0,
      activation := 0, target := none, error := none, delta := none }
  let hiddenNeuron1 : Neuron :=
    { id := 2, layerIndex := 1, neuronIndex := 0, x := 250, y := 150, bias := 0,
      activation := 0, target := none, error := none, delta := none }
  let hiddenNeuron2 : Neuron :=
    { id := 3, layerIndex := 1, neuronIndex := 1, x := 250, y := 250, bias := 0,
      activation := 0, target := none, error := none, delta := none }
  let outputNeuron : Neuron :=
    { id := 4, layerIndex := 2, neuronIndex := 0, x := 400, y := 200, bias := 0,
      activation := 0, target := some 1, error := none, delta := none }
  { layers :=
      [ { id := 0, neurons := [inputNeuron1, inputNeuron2] },
        { id := 1, neurons := [hiddenNeuron1, hiddenNeuron2] },
        { id := 2, neurons := [outputNeuron] } ],
    connections :=
      [ { id := 100, fromNeuronId := 0, toNeuronId := 2, weight := 0.5, gradient := none },
        { id := 101, fromNeuronId := 0, toNeuronId := 3, weight := -0.3, gradient := none },
        { id := 102, fromNeuronId := 1, toNeuronId := 2, weight := 0.8, gradient := none },
        { id := 103, fromNeuronId := 1, toNeuronId := 3, weight := 0.2, gradient := none },
        { id := 104, fromNeuronId := 2, toNeuronId := 4, weight := 0.7, gradient := none },
        { id := 105, fromNeuronId := 3, toNeuronId := 4, weight := -0.4, gradient := none } ],
    activationFunction := .sigmoid }

/-- The embedding of the JS expression `neurons[0]?.x || fallback`: `fallback`
when the list is empty or the first x coordinate is falsy (zero). -/
def headXOr (neurons : List Neuron) (fallback : ℝ) : ℝ :=
  match neurons.head? with
  | some n => if n.x = 0 then fallback else n.x
  | none => fallback

/-- `addLayer` from `src/App.tsx`: insert one hidden layer directly before the
output layer, with as many neurons as the previously-last hidden layer; drop
every connection jumping from that layer to the output layer and fully connect
last-hidden → new and new → output.  `newLayerId` stands for the fresh layer
uuid, `nid k` for the uuid of the `k`-th new neuron, `cid k` for the uuid of
the `k`-th new connection and `rand k` for the `Math.random()` draw of the
`k`-th new connection.  No-op when there are already 10 layers.  (The source
throws on networks with fewer than 2 layers, which the model's invariants
exclude; the match fallback returns the input there.) -/
def addLayer (prev : NeuralNetwork) (newLayerId : Nat) (nid : Nat → Nat)
    (cid : Nat → Nat) (rand : Nat → ℝ) : NeuralNetwork :=
  if 10 ≤ prev.layers.length then prev
  else
    match prev.layers[prev.layers.length - 2]?, prev.layers[prev.layers.length - 1]? with
    | some lastHiddenLayer, some outputLayer =>
        let insertionIndex := prev.layers.length - 1
        let newLayerX := headXOr lastHiddenLayer.neurons 100 + 150
        let numNeurons := lastHiddenLayer.neurons.length
        let totalHeight := ((numNeurons : ℝ) - 1) * 100
        let startY := 200 - totalHeight / 2
        let newNeurons := (List.range numNeurons).map (fun i =>
          { id := nid i, layerIndex := insertionIndex, neuronIndex := i,
            x := newLayerX, y := startY + (i : ℝ) * 100, bias := 0, activation := 0,
            target := none, error := none, delta := none : Neuron })
        let newLayer : Layer := { id := newLayerId, neurons := newNeurons }
        let updatedOutputLayer : Layer :=
          { outputLayer with neurons := outputLayer.neurons.map (fun n => { n with x := n.x + 150 }) }
        let stacked := prev.layers.take insertionIndex ++ [newLayer, updatedOutputLayer]
        let newLayers := idxMap (fun lIndex layer =>
          { layer with neurons := layer.neurons.map (fun n => { n with layerIndex := lIndex }) })
          stacked
        let lastHiddenNeuronIds := lastHiddenLayer.neurons.map Neuron.id
        let outputNeuronIds := outputLayer.neurons.map Neuron.id
        let connectionsToKeep := prev.connections.filter (fun c =>
          !(lastHiddenNeuronIds.contains c.fromNeuronId && outputNeuronIds.contains c.toNeuronId))
        let pairsA := lastHiddenLayer.neurons.flatMap (fun prevNeuron =>
          newLayer.neurons.map (fun newNeuron => (prevNeuron.id, newNeuron.id)))
        let pairsB := newLayer.neurons.flatMap (fun newNeuron =>
          updatedOutputLayer.neurons.map (fun outNeuron => (newNeuron.id, outNeuron.id)))
        let newConnections := idxMap (fun k pr =>
          { id := cid k, fromNeuronId := pr.1, toNeuronId := pr.2,
            weight := rand k * 2 - 1, gradient := none : Connection }) (pairsA ++ pairsB)
        { layers := newLayers, connections := connectionsToKeep ++ newConnections,
          activationFunction := prev.activationFunction }
    | _, _ => prev

/-- `removeLayer` from `src/App.tsx`: remove the last hidden layer, drop every
connection touching it, shift the output layer back, re-index, and reconnect
the layer before the removed one to the output layer with a fresh random
connection for every pair.  No-op when only 2 layers remain. -/
def removeLayer (prev : NeuralNetwork) (cid : Nat → Nat) (rand : Nat → ℝ) : NeuralNetwork :=
  if prev.layers.length ≤ 2 then prev
  else
    match prev.layers[prev.layers.length - 2]?, prev.layers[prev.layers.length - 3]?,
          prev.layers[prev.layers.length - 1]? with
    | some layerToRemove, some layerBefore, some outputLayer =>
        let droppedLayers := prev.layers.filter (fun l => l.id != layerToRemove.id)
        let newLayers := idxMap (fun index layer =>
          { layer with neurons := layer.neurons.map (fun n =>
              let n1 := { n with layerIndex := index }
              if index = droppedLayers.length - 1 then { n1 with x := n1.x - 150 } else n1) })
          droppedLayers
        let neuronIdsToRemove := layerToRemove.neurons.map Neuron.id
        let connectionsToKeep := prev.connections.filter (fun c =>
          !(neuronIdsToRemove.contains c.fromNeuronId) &&
          !(neuronIdsToRemove.contains c.toNeuronId))
        let pairs := layerBefore.neurons.flatMap (fun prevNeuron =>
          outputLayer.neurons.map (fun outNeuron => (prevNeuron.id, outNeuron.id)))
        let newConnections := idxMap (fun k pr =>
          { id := cid k, fromNeuronId := pr.1, toNeuronId := pr.2,
            weight := rand k * 2 - 1, gradient := none : Connection }) pairs
        { layers := newLayers, connections := connectionsToKeep ++ newConnections,
          activationFunction := prev.activationFunction }
    | _, _, _ => prev

/-- `addNeuronToLayer(layerIndex)` from `src/App.tsx`: append one neuron to
the named layer with the next sequential `neuronIndex`, connect every neuron
of the previous layer to it and it to every neuron of the next layer.  No-op
when `layerIndex` names no layer. -/
def addNeuronToLayer (prev : NeuralNetwork) (layerIndex : Nat) (newId : Nat)
    (cid : Nat → Nat) (rand : Nat → ℝ) : NeuralNetwork :=
  match prev.layers[layerIndex]? with
  | none => prev
  | some layer =>
      let newNeuronIndex := layer.neurons.length
      let newNeuron : Neuron :=
        { id := newId, layerIndex := layerIndex, neuronIndex := newNeuronIndex,
          x := headXOr layer.neurons (150 * (layerIndex : ℝ) + 100),
          y := 200 + (newNeuronIndex : ℝ) * 100, bias := 0, activation := 0,
          target := none, error := none, delta := none }
      let newLayers := prev.layers.set layerIndex
        { layer with neurons := layer.neurons ++ [newNeuron] }
      let pairsIn :=
        if 0 < layerIndex then
          match prev.layers[layerIndex - 1]? with
          | some previousLayer => previousLayer.neurons.map (fun p => (p.id, newId))
          | none => []
        else []
      let pairsOut :=
        if layerIndex < prev.layers.length - 1 then
          match prev.layers[layerIndex + 1]? with
          | some nextLayer => nextLayer.neurons.map (fun nx => (newId, nx.id))
          | none => []
        else []
      let newConnections := idxMap (fun k pr =>
        { id := cid k, fromNeuronId := pr.1, toNeuronId := pr.2,
          weight := rand k * 2 - 1, gradient := none : Connection }) (pairsIn ++ pairsOut)
      { layers := newLayers, connections := prev.connections ++ newConnections,
        activationFunction := prev.activationFunction }

/-- `removeNeuron(neuronId)` from `src/App.tsx`: layers containing the neuron
keep it when they would become empty, otherwise drop it and re-index the
remaining neurons; independently of that, every connection whose source or
destination is the neuron is filtered out. -/
def removeNeuron (prev : NeuralNetwork) (neuronId : Nat) : NeuralNetwork :=
  let newLayers := prev.layers.map (fun layer =>
    if layer.neurons.any (fun n => n.id == neuronId) then
      if layer.neurons.length = 1 then layer
      else
        { layer with neurons := (idxMap (fun nIndex n => { n with neuronIndex := nIndex })
            (layer.neurons.filter (fun n => n.id != neuronId))) }
    else layer)
  let newConnections := prev.connections.filter (fun c =>
    c.fromNeuronId != neuronId && c.toNeuronId != neuronId)
  { layers := newLayers, connections := newConnections,
    activationFunction := prev.activationFunction }

/-- `createConnection(fromNeuronId, toNeuronId)` from `src/App.tsx`: no-op
when either endpoint id is not found among all neurons, when the source's
`layerIndex` is not strictly below the destination's, or when a connection
with the same (from, to) pair already exists; otherwise append one connection
with weight `Math.random() * 2 - 1`. -/
def createConnection (prev : NeuralNetwork) (fromNeuronId toNeuronId : Nat)
    (newId : Nat) (r : ℝ) : NeuralNetwork :=
  match idLookup prev fromNeuronId, idLookup prev toNeuronId with
  | some fromNeuron, some toNeuron =>
      if toNeuron.layerIndex ≤ fromNeuron.layerIndex then prev
      else if prev.connections.any (fun c =>
          c.fromNeuronId == fromNeuronId && c.toNeuronId == toNeuronId) then prev
      else
        { prev with connections := prev.connections ++
            [{ id := newId, fromNeuronId := fromNeuronId, toNeuronId := toNeuronId,
               weight := r * 2 - 1, gradient := none }] }
  | _, _ => prev

/-- `deleteConnection(connectionId)` from `src/App.tsx`. -/
def deleteConnection (prev : NeuralNetwork) (connectionId : Nat) : NeuralNetwork :=
  { prev with connections := prev.connections.filter (fun c => c.id != connectionId) }

end
/-- The index of the first layer containing a neuron with the given id
(the layer "owning" the id; unique when neuron ids are globally unique). -/
def layerIdxOf (net : NeuralNetwork) (i : Nat) : Option Nat :=
  net.layers.findIdx? (fun l => l.neurons.any (fun n => n.id == i))

/-- Every layer has at least one neuron. -/
def NonemptyLayers (net : NeuralNetwork) : Prop :=
  ∀ l ∈ net.layers, l.neurons ≠ []

/-- The layer count is between 2 and 10 inclusive. -/
def LayerCountOK (net : NeuralNetwork) : Prop :=
  2 ≤ net.layers.length ∧ net.layers.length ≤ 10

/-- Every neuron's `layerIndex` field equals the position of its layer in the
layer sequence. -/
def LayerIndexOK (net : NeuralNetwork) : Prop :=
  ∀ i, ∀ (h : i < net.layers.length), ∀ n ∈ net.layers[i].neurons, n.layerIndex = i

/-- Within each layer the `neuronIndex` fields form the contiguous sequence
`0..n-1` in order. -/
def NeuronIndexOK (net : NeuralNetwork) : Prop :=
  ∀ l ∈ net.layers, l.neurons.map Neuron.neuronIndex = List.range l.neurons.length

/-- Every connection's endpoints exist and the source's layer position is
strictly below the destination's layer position. -/
def ConnLayersOK (net : NeuralNetwork) : Prop :=
  ∀ c ∈ net.connections, ∃ li lj, layerIdxOf net c.fromNeuronId = some li ∧
    layerIdxOf net c.toNeuronId = some lj ∧ li < lj

/-- The five structural invariants named by the specification's "testable
properties" section. -/
def ClaimedInvariant (net : NeuralNetwork) : Prop :=
  NonemptyLayers net ∧ LayerCountOK net ∧ LayerIndexOK net ∧ NeuronIndexOK net ∧
    ConnLayersOK net

/-- Neuron ids are globally unique across the network. -/
def UniqueNeuronIds (net : NeuralNetwork) : Prop :=
  ((allNeurons net).map Neuron.id).Nodup

/-- Layer ids are unique. -/
def UniqueLayerIds (net : NeuralNetwork) : Prop :=
  (net.layers.map Layer.id).Nodup

/-- The ordered (from, to) pairs of the connections. -/
def connPairs (net : NeuralNetwork) : List (Nat × Nat) :=
  net.connections.map (fun c => (c.fromNeuronId, c.toNeuronId))

/-- No two connections share the same ordered (from, to) pair. -/
def NoDupPairs (net : NeuralNetwork) : Prop :=
  (connPairs net).Nodup

/-- The full data-model invariant of the specification: the five claimed
structural properties plus unique identities and pair-uniqueness of
connections. -/
def DMInvariant (net : NeuralNetwork) : Prop :=
  ClaimedInvariant net ∧ UniqueNeuronIds net ∧ UniqueLayerIds net ∧ NoDupPairs net

/-- `i` is fresh for the network: no neuron carries it and no connection
references it.  This models the collision-freedom of the uuid generator. -/
def FreshId (net : NeuralNetwork) (i : Nat) : Prop :=
  (∀ n ∈ allNeurons net, n.id ≠ i) ∧
    (∀ c ∈ net.connections, c.fromNeuronId ≠ i ∧ c.toNeuronId ≠ i)

/-- Modelled from the spec's wording of the forward rule (used only to state
a refutation): the net input of a neuron is its bias plus the sum, over
every connection whose destination is the neuron, of the connection's weight
times the current activation of its source neuron, the source being located
anywhere in the network ("the engine ... simply follows connection
references"). -/
def specNetInput (state : NeuralNetwork) (neuron : Neuron) : ℝ :=
  neuron.bias +
    ((state.connections.filter (fun c => c.toNeuronId == neuron.id)).map (fun c =>
      match (allNeurons state).find? (fun n => n.id == c.fromNeuronId) with
      | some src => c.weight * src.activation
      | none => 0)).sum

theorem stepLayer_connections (net : NeuralNetwork) (i : Nat) :
    (stepLayer net i).connections = net.connections := by
  unfold stepLayer
  split <;> rfl

theorem stepLayer_activationFunction (net : NeuralNetwork) (i : Nat) :
    (stepLayer net i).activationFunction = net.activationFunction := by
  unfold stepLayer
  split <;> rfl

theorem stepLayer_layers_length (net : NeuralNetwork) (i : Nat) :
    (stepLayer net i).layers.length = net.layers.length := by
  unfold stepLayer
  split
  · simp
  · rfl

theorem stepLayer_getElem?_ne (net : NeuralNetwork) (i j : Nat) (h : i ≠ j) :
    (stepLayer net i).layers[j]? = net.layers[j]? := by
  unfold stepLayer
  split
  · exact List.getElem?_set_ne h
  · rfl

theorem stepLayer_getElem?_eq (net : NeuralNetwork) (i : Nat) (cur prev : Layer)
    (hc : net.layers[i]? = some cur) (hp : net.layers[i - 1]? = some prev) :
    (stepLayer net i).layers[i]? = some
      ({ cur with neurons :=
          cur.neurons.map (fwdNeuron net.activationFunction net.connections prev) }) := by
  have hlt : i < net.layers.length := by
    rcases List.getElem?_eq_some.1 hc with ⟨h, _⟩
    exact h
  unfold stepLayer
  rw [hc, hp]
  exact List.getElem?_set_eq_of_lt _ hlt

theorem forwardUpTo_connections (net : NeuralNetwork) : ∀ m,
    (forwardUpTo net m).connections = net.connections
  | 0 => rfl
  | m + 1 => by
      rw [forwardUpTo, stepLayer_connections, forwardUpTo_connections net m]

theorem forwardUpTo_activationFunction (net : NeuralNetwork) : ∀ m,
    (forwardUpTo net m).activationFunction = net.activationFunction
  | 0 => rfl
  | m + 1 => by
      rw [forwardUpTo, stepLayer_activationFunction, forwardUpTo_activationFunction net m]

theorem forwardUpTo_layers_length (net : NeuralNetwork) : ∀ m,
    (forwardUpTo net m).layers.length = net.layers.length
  | 0 => rfl
  | m + 1 => by
      rw [forwardUpTo, stepLayer_layers_length, forwardUpTo_layers_length net m]

theorem forwardUpTo_getElem?_zero (net : NeuralNetwork) : ∀ m,
    (forwardUpTo net m).layers[0]? = net.layers[0]?
  | 0 => rfl
  | m + 1 => by
      rw [forwardUpTo, stepLayer_getElem?_ne _ _ _ (Nat.succ_ne_zero m),
        forwardUpTo_getElem?_zero net m]

theorem forwardUpTo_getElem?_of_lt (net : NeuralNetwork) (j : Nat) : ∀ m, m < j →
    (forwardUpTo net m).layers[j]? = net.layers[j]?
  | 0, _ => rfl
  | m + 1, h => by
      rw [forwardUpTo, stepLayer_getElem?_ne _ _ _ (by omega),
        forwardUpTo_getElem?_of_lt net j m (by omega)]

theorem forwardUpTo_stable (net : NeuralNetwork) (i : Nat) : ∀ m, i ≤ m →
    (forwardUpTo net m).layers[i]? = (forwardUpTo net i).layers[i]?
  | 0, h => by
      have : i = 0 := Nat.le_zero.1 h
      rw [this]
  | m + 1, h => by
      rcases Nat.lt_or_ge i (m + 1) with hlt | hge
      · rw [forwardUpTo, stepLayer_getElem?_ne _ _ _ (by omega),
          forwardUpTo_stable net i m (by omega)]
      · have : i = m + 1 := by omega
        rw [this]

/-- The characterizing formula of forward propagation: for every layer
`1 ≤ i ≤ m` within range, the state after processing layers `1..m` holds, at
position `i`, the original layer with every neuron's activation recomputed
from the state of layer `i-1` as it was after processing layers `1..i-1`. -/
theorem forwardUpTo_layer_formula (net : NeuralNetwork) (m i : Nat) (h1 : 1 ≤ i)
    (h2 : i ≤ m) (hi : i < net.layers.length) :
    ∃ curL prevL, net.layers[i]? = some curL ∧
      (forwardUpTo net (i - 1)).layers[i - 1]? = some prevL ∧
      (forwardUpTo net m).layers[i]? = some
        ({ curL with neurons :=
            curL.neurons.map (fwdNeuron net.activationFunction net.connections prevL) }) := by
  obtain ⟨k, rfl⟩ : ∃ k, i = k + 1 := ⟨i - 1, by omega⟩
  have hcur : net.layers[k + 1]? = some net.layers[k + 1] := List.getElem?_eq_getElem hi
  have hprevlt : k < (forwardUpTo net k).layers.length := by
    rw [forwardUpTo_layers_length]
    omega
  have hprev : (forwardUpTo net k).layers[k]? = some (forwardUpTo net k).layers[k] :=
    List.getElem?_eq_getElem hprevlt
  refine ⟨net.layers[k + 1], (forwardUpTo net k).layers[k], hcur, by simpa using hprev, ?_⟩
  rw [forwardUpTo_stable net (k + 1) m h2, forwardUpTo]
  have hc' : (forwardUpTo net k).layers[k + 1]? = some net.layers[k + 1] := by
    rw [forwardUpTo_getElem?_of_lt net (k + 1) k (by omega)]
    exact hcur
  have := stepLayer_getElem?_eq (forwardUpTo net k) (k + 1) net.layers[k + 1]
    (forwardUpTo net k).layers[k] hc' (by simpa using hprev)
  rw [this, forwardUpTo_connections, forwardUpTo_activationFunction]

theorem foldl_contrib (prevLayer : Layer) (l : List Connection) : ∀ s : ℝ,
    l.foldl (fun sum conn =>
      match prevLayer.neurons.find? (fun n => n.id == conn.fromNeuronId) with
      | some fromNeuron => sum + fromNeuron.activation * conn.weight
      | none => sum) s
    = s + (l.map (fun c =>
        match prevLayer.neurons.find? (fun n => n.id == c.fromNeuronId) with
        | some src => c.weight * src.activation
        | none => 0)).sum := by
  induction l with
  | nil => intro s; simp
  | cons c cs ih =>
      intro s
      simp only [List.foldl_cons, List.map_cons, List.sum_cons]
      cases h : prevLayer.neurons.find? (fun n => n.id == c.fromNeuronId) with
      | none => simp only [h, ih]; ring
      | some src => simp only [h, ih]; ring

/-- `weightedInput` rewritten as a plain sum over the incoming connections:
each connection whose source id is found in the previous layer contributes
`weight * activation`, any other contributes `0`. -/
theorem weightedInput_eq_sum (prevLayer : Layer) (conns : List Connection) (neuron : Neuron) :
    weightedInput prevLayer conns neuron =
      ((conns.filter (fun c => c.toNeuronId == neuron.id)).map (fun c =>
        match prevLayer.neurons.find? (fun n => n.id == c.fromNeuronId) with
        | some src => c.weight * src.activation
        | none => 0)).sum := by
  rw [weightedInput, foldl_contrib]
  ring

/-- A bare neuron literal used to build concrete example networks. -/
def mkNeuron (i li ni : Nat) : Neuron :=
  { id := i, layerIndex := li, neuronIndex := ni, x := 0, y := 0, bias := 0,
    activation := 0, target := none, error := none, delta := none }

/-- A bare connection literal used to build concrete example networks. -/
def mkConn (i f t : Nat) (w : ℝ) : Connection :=
  { id := i, fromNeuronId := f, toNeuronId := t, weight := w, gradient := none }

/-- Three single-neuron layers (ids 0, 1, 2), relu activation, connections
0→1, 1→2 and a skip connection 0→2, input activation 1. -/
def skipNet : NeuralNetwork :=
  { layers :=
      [ { id := 0, neurons := [{ mkNeuron 0 0 0 with activation := 1 }] },
        { id := 1, neurons := [mkNeuron 1 1 0] },
        { id := 2, neurons := [mkNeuron 2 2 0] } ],
    connections := [mkConn 10 0 1 1, mkConn 11 1 2 1, mkConn 12 0 2 1],
    activationFunction := .relu }

/-- Ten singleton layers, no connections. -/
def tenLayerNet : NeuralNetwork :=
  { layers := (List.range 10).map (fun k => { id := k, neurons := [mkNeuron k k 0] }),
    connections := [],
    activationFunction := .sigmoid }

/-- Two singleton layers (ids 0 and 1) joined by one connection. -/
def twoLayerNet : NeuralNetwork :=
  { layers :=
      [ { id := 0, neurons := [{ mkNeuron 0 0 0 with activation := 1 }] },
        { id := 1, neurons := [mkNeuron 1 1 0] } ],
    connections := [mkConn 10 0 1 1],
    activationFunction := .relu }

/-- C10: `runForwardPropagation` is deterministic — two calls on equal
networks with the same `untilLayer` argument return identical results; the
embedded numeric path takes no source of randomness at all. -/
theorem claimC10_forward_determinism (n1 n2 : NeuralNetwork) (untilLayer : Option Nat)
    (h : n1 = n2) :
    runForwardPropagation n1 untilLayer = runForwardPropagation n2 untilLayer := by
  rw [h]

theorem claimC10_forward_determinism_witness :
    getInitialNetwork = getInitialNetwork ∧
      runForwardPropagation getInitialNetwork none =
        runForwardPropagation getInitialNetwork none :=
  ⟨rfl, claimC10_forward_determinism getInitialNetwork getInitialNetwork none rfl⟩

/-- C8: with exactly 10 layers `addLayer` returns its input unchanged, and
with exactly 2 layers `removeLayer` returns its input unchanged. -/
theorem claimC8_layer_bound_noops (net1 net2 : NeuralNetwork) (newLayerId : Nat)
    (nid cid : Nat → Nat) (r1 r2 : Nat → ℝ) (cid2 : Nat → Nat)
    (h10 : net1.layers.length = 10) (h2 : net2.layers.length = 2) :
    addLayer net1 newLayerId nid cid r1 = net1 ∧ removeLayer net2 cid2 r2 = net2 := by
  constructor
  · rw [addLayer, if_pos (by omega)]
  · rw [removeLayer, if_pos (by omega)]

theorem claimC8_layer_bound_noops_witness :
    tenLayerNet.layers.length = 10 ∧ twoLayerNet.layers.length = 2 ∧
      (addLayer tenLayerNet 99 (fun k => 200 + k) (fun k => 300 + k) (fun _ => 0) =
          tenLayerNet ∧
        removeLayer twoLayerNet (fun k => 300 + k) (fun _ => 0) = twoLayerNet) := by
  refine ⟨by rfl, by rfl, ?_⟩
  exact claimC8_layer_bound_noops tenLayerNet twoLayerNet 99 (fun k => 200 + k)
    (fun k => 300 + k) (fun _ => 0) (fun _ => 0) (fun k => 300 + k)
    (by rfl) (by rfl)

/-- C1 (amended): for every network, every `m`, and every layer `1 ≤ i ≤ m`
in range, forward propagation up to layer `m` computes, for each neuron of
layer `i`, the activation `f(bias + Σ w·a)` where the sum ranges over every
connection whose destination is that neuron AND whose source id is found in
the immediately preceding layer (in its state after layers `1..i-1` were
processed, so sources hold their current activations); connections whose
source lies anywhere else are silently ignored, contributing 0.  Layers are
processed in strictly increasing order, reflected in the recursion
`forwardUpTo net (i) = stepLayer (forwardUpTo net (i-1)) i`. -/
theorem claimC1_forward_rule (net : NeuralNetwork) (m i : Nat) (h1 : 1 ≤ i)
    (h2 : i ≤ m) (hi : i < net.layers.length) :
    ∃ curL prevL, net.layers[i]? = some curL ∧
      (forwardUpTo net (i - 1)).layers[i - 1]? = some prevL ∧
      (forwardUpTo net m).layers[i]? = some
        ({ curL with neurons := curL.neurons.map (fun neuron =>
            { neuron with activation :=
                (activationFunctions net.activationFunction
                  (neuron.bias +
                    ((net.connections.filter (fun c => c.toNeuronId == neuron.id)).map
                      (fun c =>
                        match prevL.neurons.find? (fun src => src.id == c.fromNeuronId) with
                        | some src => c.weight * src.activation
                        | none => 0)).sum)) }) }) := by
  obtain ⟨curL, prevL, hc, hp, hm⟩ := forwardUpTo_layer_formula net m i h1 h2 hi
  refine ⟨curL, prevL, hc, hp, ?_⟩
  rw [hm]
  congr 2
  apply List.map_congr_left
  intro n _
  rw [fwdNeuron]
  congr 1
  congr 1
  rw [weightedInput_eq_sum]
  ring

/-- C1, refutation of the unamended claim: in `skipNet` the skip connection
0→2 has the output neuron as destination, so by the claim (the contribution
of a connection depends only on the connection references) the output
activation would be `relu(0 + 1·a₁ + 1·a₀) = 2` — values taken in the state
current when layer 2 is processed, i.e. after layer 1 was updated.  The code
instead looks sources up only in layer 1, ignores the skip connection, and
produces activation `1`. -/
theorem claimC1_counterexample :
    ((forwardUpTo skipNet 2).layers[2]?.map (fun l => l.neurons.map Neuron.activation))
        = some [1] ∧
      (skipNet.layers[2]?.map (fun l => l.neurons.map (fun n =>
          activationFunctions skipNet.activationFunction
            (specNetInput (forwardUpTo skipNet 1) n)))) = some [2] ∧
      (1 : ℝ) ≠ 2 := by
  refine ⟨?_, ?_, by norm_num⟩
  · simp [forwardUpTo, stepLayer, fwdNeuron, weightedInput, skipNet, mkNeuron, mkConn,
      activationFunctions, relu]
  · simp [forwardUpTo, stepLayer, fwdNeuron, weightedInput, skipNet, mkNeuron, mkConn,
      activationFunctions, relu, specNetInput, allNeurons]
    norm_num

theorem claimC1_forward_rule_witness :
    1 ≤ 1 ∧ 1 ≤ 2 ∧ 1 < getInitialNetwork.layers.length ∧
      (∃ curL prevL, getInitialNetwork.layers[1]? = some curL ∧
        (forwardUpTo getInitialNetwork 0).layers[0]? = some prevL ∧
        (forwardUpTo getInitialNetwork 2).layers[1]? = some
          ({ curL with neurons := curL.neurons.map (fun neuron =>
              { neuron with activation :=
                  (activationFunctions getInitialNetwork.activationFunction
                    (neuron.bias +
                      ((getInitialNetwork.connections.filter
                          (fun c => c.toNeuronId == neuron.id)).map (fun c =>
                        match prevL.neurons.find? (fun src => src.id == c.fromNeuronId) with
                        | some src => c.weight * src.activation
                        | none => 0)).sum)) }) })) :=
  ⟨le_refl 1, by omega, by simp [getInitialNetwork],
    claimC1_forward_rule getInitialNetwork 2 1 (by omega) (by omega)
      (by simp [getInitialNetwork])⟩

/-- Agreement of two neurons on every field except `activation`. -/
def agreesExceptActivation (a b : Neuron) : Prop :=
  a.id = b.id ∧ a.layerIndex = b.layerIndex ∧ a.neuronIndex = b.neuronIndex ∧
    a.x = b.x ∧ a.y = b.y ∧ a.bias = b.bias ∧ a.target = b.target ∧
    a.error = b.error ∧ a.delta = b.delta

/-- C7 (amended: `untilLayer` restricted to the loop's valid range — the
default, `0`, or any value below the layer count; outside it the source
throws, see the counterexample): forward propagation returns a network that
preserves the connection list, the activation kind, the number and identity
of layers, every per-neuron field except `activation`, and additionally the
exact activations of layer 0 and of every layer beyond `untilLayer`.  In the
pure embedding the input network itself is of course untouched. -/
theorem claimC7_forward_frame (net : NeuralNetwork) (untilLayer : Option Nat)
    (h : untilLayer.getD (net.layers.length - 1) = 0 ∨
      untilLayer.getD (net.layers.length - 1) < net.layers.length) :
    ∃ out, runForwardPropagation net untilLayer = some out ∧
      out.connections = net.connections ∧
      out.activationFunction = net.activationFunction ∧
      out.layers.length = net.layers.length ∧
      (∀ i L, net.layers[i]? = some L → ∃ L2, out.layers[i]? = some L2 ∧
        L2.id = L.id ∧ L2.neurons.length = L.neurons.length ∧
        (∀ (j : Nat) a b, L.neurons[j]? = some a → L2.neurons[j]? = some b →
          agreesExceptActivation b a) ∧
        ((i = 0 ∨ untilLayer.getD (net.layers.length - 1) < i) → L2 = L)) := by
  set maxLayer := untilLayer.getD (net.layers.length - 1) with hmax
  refine ⟨forwardUpTo net maxLayer, ?_, forwardUpTo_connections net maxLayer,
    forwardUpTo_activationFunction net maxLayer, forwardUpTo_layers_length net maxLayer, ?_⟩
  · rw [runForwardPropagation]
    simp only [← hmax]
    rw [if_pos h]
  · intro i L hL
    by_cases hfr : i = 0 ∨ maxLayer < i
    · refine ⟨L, ?_, rfl, rfl, ?_, fun _ => rfl⟩
      · rcases hfr with h0 | hgt
        · rw [h0] at hL ⊢
          rw [forwardUpTo_getElem?_zero net maxLayer]
          exact hL
        · rw [forwardUpTo_getElem?_of_lt net i maxLayer hgt]
          exact hL
      · intro j a b ha hb
        rw [ha] at hb
        cases hb
        exact ⟨rfl, rfl, rfl, rfl, rfl, rfl, rfl, rfl, rfl⟩
    · push_neg at hfr
      obtain ⟨h0, hle⟩ := hfr
      have h1 : 1 ≤ i := by omega
      have hi : i < net.layers.length := by
        rcases List.getElem?_eq_some.1 hL with ⟨hlt, _⟩
        exact hlt
      obtain ⟨curL, prevL, hc, _, hm⟩ := forwardUpTo_layer_formula net maxLayer i h1 hle hi
      rw [hL] at hc
      cases hc
      refine ⟨_, hm, rfl, by simp, ?_, ?_⟩
      · intro j a b ha hb
        simp only [List.getElem?_map, ha, Option.map_some'] at hb
        cases hb
        simp [fwdNeuron, agreesExceptActivation]
      · intro hcon
        rcases hcon with h0' | hgt'
        · omega
        · omega

/-- C7, refutation of the unamended claim ("for every untilLayer argument"):
with `untilLayer = 5` on the three-layer `skipNet` the source dereferences
`layers[3].neurons` of `undefined` and throws, returning no copy at all;
the embedding yields `none`. -/
theorem claimC7_counterexample :
    runForwardPropagation skipNet (some 5) = none ∧
      ¬ ∃ out, runForwardPropagation skipNet (some 5) = some out := by
  have h : runForwardPropagation skipNet (some 5) = none := by
    simp [runForwardPropagation, skipNet]
  exact ⟨h, by simp [h]⟩

theorem claimC7_forward_frame_witness :
    ((some 2 : Option Nat).getD (getInitialNetwork.layers.length - 1) = 0 ∨
      (some 2 : Option Nat).getD (getInitialNetwork.layers.length - 1) <
        getInitialNetwork.layers.length) ∧
    (∃ out, runForwardPropagation getInitialNetwork (some 2) = some out ∧
      out.connections = getInitialNetwork.connections ∧
      out.activationFunction = getInitialNetwork.activationFunction ∧
      out.layers.length = getInitialNetwork.layers.length ∧
      (∀ i L, getInitialNetwork.layers[i]? = some L → ∃ L2, out.layers[i]? = some L2 ∧
        L2.id = L.id ∧ L2.neurons.length = L.neurons.length ∧
        (∀ (j : Nat) a b, L.neurons[j]? = some a → L2.neurons[j]? = some b →
          agreesExceptActivation b a) ∧
        ((i = 0 ∨ (some 2 : Option Nat).getD (getInitialNetwork.layers.length - 1) < i) →
          L2 = L))) :=
  ⟨by simp [getInitialNetwork],
    claimC7_forward_frame getInitialNetwork (some 2) (by simp [getInitialNetwork])⟩

/-- C2 (amended): when every layer containing the neuron has exactly one
neuron, `removeNeuron` leaves the layer structure (and activation kind)
unchanged, but — contrary to a full no-op — still removes every connection
whose source or destination is that neuron, because the connection filter
runs unconditionally. -/
theorem claimC2_removeNeuron_singleton (net : NeuralNetwork) (neuronId : Nat)
    (h : ∀ l ∈ net.layers, l.neurons.any (fun n => n.id == neuronId) →
      l.neurons.length = 1) :
    (removeNeuron net neuronId).layers = net.layers ∧
      (removeNeuron net neuronId).activationFunction = net.activationFunction ∧
      (removeNeuron net neuronId).connections =
        net.connections.filter (fun c =>
          c.fromNeuronId != neuronId && c.toNeuronId != neuronId) := by
  refine ⟨?_, rfl, rfl⟩
  show net.layers.map _ = net.layers
  conv_rhs => rw [← List.map_id net.layers]
  apply List.map_congr_left
  intro l hl
  by_cases hany : l.neurons.any (fun n => n.id == neuronId)
  · simp [hany, h l hl hany]
  · simp [hany]

/-- C2, refutation of the claim as stated: in `twoLayerNet` the output layer
holds exactly one neuron (id 1), yet `removeNeuron 1` is not a no-op — the
layer survives but its incoming connection is deleted. -/
theorem claimC2_counterexample :
    (removeNeuron twoLayerNet 1).connections = [] ∧
      twoLayerNet.connections ≠ [] ∧
      removeNeuron twoLayerNet 1 ≠ twoLayerNet := by
  refine ⟨?_, by simp [twoLayerNet], ?_⟩
  · simp [removeNeuron, twoLayerNet, mkConn, mkNeuron]
  · intro hEq
    have := congrArg (fun n => n.connections.length) hEq
    simp [removeNeuron, twoLayerNet, mkConn, mkNeuron] at this

theorem claimC2_removeNeuron_singleton_witness :
    (∀ l ∈ twoLayerNet.layers, l.neurons.any (fun n => n.id == 1) →
        l.neurons.length = 1) ∧
      ((removeNeuron twoLayerNet 1).layers = twoLayerNet.layers ∧
        (removeNeuron twoLayerNet 1).activationFunction = twoLayerNet.activationFunction ∧
        (removeNeuron twoLayerNet 1).connections =
          twoLayerNet.connections.filter (fun c =>
            c.fromNeuronId != 1 && c.toNeuronId != 1)) :=
  ⟨by decide, claimC2_removeNeuron_singleton twoLayerNet 1 (by decide)⟩

/-- C6: `createConnection` is a no-op when either id is unknown, when the
source's layer index is not strictly below the destination's, or when the
ordered (from, to) pair is already connected; otherwise it appends exactly
one new connection with weight `r * 2 - 1 ∈ [-1, 1]` (for the `Math.random()`
draw `r ∈ [0, 1)`) and changes nothing else. -/
theorem claimC6_createConnection (net : NeuralNetwork) (fromId toId newId : Nat)
    (r : ℝ) (hr : 0 ≤ r ∧ r < 1) :
    ((idLookup net fromId = none ∨ idLookup net toId = none) →
      createConnection net fromId toId newId r = net) ∧
    (∀ nf nt, idLookup net fromId = some nf → idLookup net toId = some nt →
      nt.layerIndex ≤ nf.layerIndex →
      createConnection net fromId toId newId r = net) ∧
    ((∃ c ∈ net.connections, c.fromNeuronId = fromId ∧ c.toNeuronId = toId) →
      createConnection net fromId toId newId r = net) ∧
    (∀ nf nt, idLookup net fromId = some nf → idLookup net toId = some nt →
      nf.layerIndex < nt.layerIndex →
      (¬ ∃ c ∈ net.connections, c.fromNeuronId = fromId ∧ c.toNeuronId = toId) →
      ((createConnection net fromId toId newId r).layers = net.layers ∧
        (createConnection net fromId toId newId r).activationFunction =
          net.activationFunction ∧
        (createConnection net fromId toId newId r).connections =
          net.connections ++
            [{ id := newId, fromNeuronId := fromId, toNeuronId := toId,
               weight := r * 2 - 1, gradient := none }] ∧
        -1 ≤ r * 2 - 1 ∧ r * 2 - 1 ≤ 1)) := by
  have hany : ∀ b : Bool,
      (net.connections.any (fun c => c.fromNeuronId == fromId && c.toNeuronId == toId)) = b →
      (b = true ↔ ∃ c ∈ net.connections, c.fromNeuronId = fromId ∧ c.toNeuronId = toId) := by
    rintro b rfl
    simp [List.any_eq_true]
  refine ⟨?_, ?_, ?_, ?_⟩
  · rintro (hf | ht)
    · unfold createConnection
      rw [hf]
    · unfold createConnection
      cases hfind : idLookup net fromId with
      | none => rfl
      | some nf => rw [ht]
  · intro nf nt hf ht hle
    unfold createConnection
    rw [hf, ht]
    simp only [if_pos hle]
  · intro hdup
    unfold createConnection
    cases hfind : idLookup net fromId with
    | none => rfl
    | some nf =>
      cases htind : idLookup net toId with
      | none => rfl
      | some nt =>
        dsimp only
        by_cases hle : nt.layerIndex ≤ nf.layerIndex
        · rw [if_pos hle]
        · rw [if_neg hle, if_pos (((hany _ rfl).2 hdup))]
  · intro nf nt hf ht hlt hnodup
    unfold createConnection
    rw [hf, ht]
    dsimp only
    rw [if_neg (by omega),
      if_neg (by
        intro hcon
        exact hnodup ((hany _ rfl).1 hcon))]
    exact ⟨rfl, rfl, rfl, by nlinarith [hr.1, hr.2], by nlinarith [hr.1, hr.2]⟩

theorem claimC6_createConnection_witness :
    (0 ≤ (1/2 : ℝ) ∧ (1/2 : ℝ) < 1) ∧
    (idLookup twoLayerNet 0 = some ({ mkNeuron 0 0 0 with activation := 1 })) ∧
    (idLookup twoLayerNet 5 = none) ∧
    (createConnection twoLayerNet 0 5 77 (1/2) = twoLayerNet) := by
  have h := claimC6_createConnection twoLayerNet 0 5 77 (1/2) (by norm_num)
  refine ⟨by norm_num, by rfl, by rfl, h.1 (Or.inr (by rfl))⟩

theorem exp_taylor_window (x S B : ℝ) (hx : |x| ≤ 1)
    (hS : S = 1 + x + x ^ 2 / 2 + x ^ 3 / 6 + x ^ 4 / 24) (hB : |x| ^ 5 / 100 ≤ B) :
    S - B ≤ Real.exp x ∧ Real.exp x ≤ S + B := by
  have h := Real.exp_bound hx (n := 5) (by norm_num)
  have hsum : (∑ m ∈ Finset.range 5, x ^ m / (Nat.factorial m)) = S := by
    rw [hS]
    rw [Finset.sum_range_succ, Finset.sum_range_succ, Finset.sum_range_succ,
      Finset.sum_range_succ, Finset.sum_range_one]
    norm_num [Nat.factorial]
  rw [hsum] at h
  norm_num [Nat.factorial] at h
  have habs := abs_le.1 h
  constructor <;> linarith [habs.1, habs.2, hB]

theorem sigmoid_window (x lo hi : ℝ) (h0 : 0 ≤ lo) (hlo : lo ≤ Real.exp (-x))
    (hhi : Real.exp (-x) ≤ hi) :
    1 / (1 + hi) ≤ sigmoid x ∧ sigmoid x ≤ 1 / (1 + lo) := by
  have hpos : 0 < 1 + Real.exp (-x) := by positivity
  have hpos2 : 0 < 1 + lo := by linarith
  have hpos3 : 0 < 1 + hi := by linarith [Real.exp_pos (-x)]
  rw [sigmoid]
  constructor
  · exact one_div_le_one_div_of_le hpos (by linarith)
  · exact one_div_le_one_div_of_le hpos2 (by linarith)

theorem sigmoid_mono {a b : ℝ} (h : a ≤ b) : sigmoid a ≤ sigmoid b := by
  rw [sigmoid, sigmoid]
  have h1 : Real.exp (-b) ≤ Real.exp (-a) := Real.exp_le_exp.2 (by linarith)
  have h2 : 0 < 1 + Real.exp (-b) := by positivity
  exact one_div_le_one_div_of_le h2 (by linarith)

set_option maxHeartbeats 1000000 in
theorem trainLoss_seed : ∀ lr : ℝ, (runTrainingStep getInitialNetwork lr).map Prod.snd
    = some ((1 - sigmoid (0.7 * sigmoid 0.5 + -0.4 * sigmoid (-0.3))) ^ 2) := by
  intro lr
  simp [runTrainingStep, runForwardPropagation, forwardUpTo, stepLayer, fwdNeuron,
    weightedInput, getInitialNetwork, activationFunctions, activationDerivatives,
    modifyLayer, outputNeuronUpdate, backpropFrom, backstepLayer, hiddenErrorSum,
    updateWeights, applyWeightUpdate, allNeurons, idLookup, updateBiases, idxMap,
    idxMapFrom, biasUpdate, sigmoidDerivative, outputPass, backwardPass, lossOf,
    backNeuron]
  norm_num
  congr 1
  ring_nf

set_option maxHeartbeats 1600000 in
/-- C9: on the seed network, full forward propagation yields hidden
activations `sigmoid 0.5 ≈ 0.6225` and `sigmoid (-0.3) ≈ 0.4256`, an output
pre-activation `≈ 0.2658` and output activation `≈ 0.5661`, and a training
step reports loss `(1 - out)² ≈ 0.1883` (each `≈` formalized as a distance
below `0.001`). -/
theorem claimC9_seed_numerics :
    ∃ h1 h2 out loss : ℝ,
      (∃ n, runForwardPropagation getInitialNetwork none = some n ∧
        n.layers[1]?.map (fun l => l.neurons.map Neuron.activation) = some [h1, h2] ∧
        n.layers[2]?.map (fun l => l.neurons.map Neuron.activation) = some [out]) ∧
      h1 = sigmoid 0.5 ∧ h2 = sigmoid (-0.3) ∧
      out = sigmoid (0.7 * h1 + -0.4 * h2) ∧
      |h1 - 0.6225| < 0.001 ∧ |h2 - 0.4256| < 0.001 ∧
      |(0.7 * h1 + -0.4 * h2) - 0.2658| < 0.001 ∧
      |out - 0.5661| < 0.001 ∧
      (∀ lr : ℝ, (runTrainingStep getInitialNetwork lr).map Prod.snd = some loss) ∧
      loss = (1 - out) ^ 2 ∧ |loss - 0.1883| < 0.001 := by
  have hfwd : runForwardPropagation getInitialNetwork none =
      some (forwardUpTo getInitialNetwork 2) := by
    rw [runForwardPropagation]
    norm_num [getInitialNetwork]
  have hL1 : (forwardUpTo getInitialNetwork 2).layers[1]?.map
      (fun l => l.neurons.map Neuron.activation) = some [sigmoid 0.5, sigmoid (-0.3)] := by
    simp [forwardUpTo, stepLayer, fwdNeuron, weightedInput, getInitialNetwork,
      activationFunctions]
  have hL2 : (forwardUpTo getInitialNetwork 2).layers[2]?.map
      (fun l => l.neurons.map Neuron.activation) =
      some [sigmoid (0.7 * sigmoid 0.5 + -0.4 * sigmoid (-0.3))] := by
    simp [forwardUpTo, stepLayer, fwdNeuron, weightedInput, getInitialNetwork,
      activationFunctions]
    norm_num
    congr 1
    ring
  -- numeric windows for the exponentials involved
  have habs05 : |(-(0.5 : ℝ))| = 0.5 := by
    rw [abs_neg]
    exact abs_of_nonneg (by norm_num)
  have habs03 : |(0.3 : ℝ)| = 0.3 := abs_of_nonneg (by norm_num)
  have habsA : |(-(0.2653 : ℝ))| = 0.2653 := by
    rw [abs_neg]
    exact abs_of_nonneg (by norm_num)
  have habsB : |(-(0.2656 : ℝ))| = 0.2656 := by
    rw [abs_neg]
    exact abs_of_nonneg (by norm_num)
  have he05 := exp_taylor_window (-(0.5 : ℝ))
    (1 + (-(0.5 : ℝ)) + (-(0.5 : ℝ)) ^ 2 / 2 + (-(0.5 : ℝ)) ^ 3 / 6 + (-(0.5 : ℝ)) ^ 4 / 24)
    (1 / 3200) (by rw [habs05]; norm_num) rfl (by rw [habs05]; norm_num)
  have he03 := exp_taylor_window ((0.3 : ℝ))
    (1 + (0.3 : ℝ) + (0.3 : ℝ) ^ 2 / 2 + (0.3 : ℝ) ^ 3 / 6 + (0.3 : ℝ) ^ 4 / 24)
    (243 / 10000000) (by rw [habs03]; norm_num) rfl (by rw [habs03]; norm_num)
  have heA := exp_taylor_window (-(0.2653 : ℝ))
    (1 + (-(0.2653 : ℝ)) + (-(0.2653 : ℝ)) ^ 2 / 2 + (-(0.2653 : ℝ)) ^ 3 / 6 +
      (-(0.2653 : ℝ)) ^ 4 / 24)
    ((0.2653 : ℝ) ^ 5 / 100) (by rw [habsA]; norm_num) rfl (by rw [habsA])
  have heB := exp_taylor_window (-(0.2656 : ℝ))
    (1 + (-(0.2656 : ℝ)) + (-(0.2656 : ℝ)) ^ 2 / 2 + (-(0.2656 : ℝ)) ^ 3 / 6 +
      (-(0.2656 : ℝ)) ^ 4 / 24)
    ((0.2656 : ℝ) ^ 5 / 100) (by rw [habsB]; norm_num) rfl (by rw [habsB])
  -- sigmoid windows
  have hs1 := sigmoid_window (0.5 : ℝ) _ _ (by norm_num) he05.1 he05.2
  have hs2 := sigmoid_window (-(0.3) : ℝ)
    (1 + (0.3 : ℝ) + (0.3 : ℝ) ^ 2 / 2 + (0.3 : ℝ) ^ 3 / 6 + (0.3 : ℝ) ^ 4 / 24 -
      243 / 10000000)
    (1 + (0.3 : ℝ) + (0.3 : ℝ) ^ 2 / 2 + (0.3 : ℝ) ^ 3 / 6 + (0.3 : ℝ) ^ 4 / 24 +
      243 / 10000000)
    (by norm_num) (by rw [neg_neg]; exact he03.1) (by rw [neg_neg]; exact he03.2)
  have hsA := sigmoid_window (0.2653 : ℝ) _ _ (by norm_num) heA.1 heA.2
  have hsB := sigmoid_window (0.2656 : ℝ) _ _ (by norm_num) heB.1 heB.2
  have hh1 : (0.6222 : ℝ) < sigmoid 0.5 ∧ sigmoid 0.5 < 0.6225 :=
    ⟨lt_of_lt_of_le (by norm_num) hs1.1, lt_of_le_of_lt hs1.2 (by norm_num)⟩
  have hh2 : (0.4255 : ℝ) < sigmoid (-0.3) ∧ sigmoid (-0.3) < 0.4256 :=
    ⟨lt_of_lt_of_le (by norm_num) hs2.1, lt_of_le_of_lt hs2.2 (by norm_num)⟩
  have hz : (0.2653 : ℝ) < 0.7 * sigmoid 0.5 + -0.4 * sigmoid (-0.3) ∧
      0.7 * sigmoid 0.5 + -0.4 * sigmoid (-0.3) < 0.2656 := by
    constructor <;> linarith [hh1.1, hh1.2, hh2.1, hh2.2]
  have hA : (0.5658 : ℝ) < sigmoid 0.2653 := lt_of_lt_of_le (by norm_num) hsA.1
  have hB2 : sigmoid 0.2656 < 0.5661 := lt_of_le_of_lt hsB.2 (by norm_num)
  have houtw : (0.5658 : ℝ) < sigmoid (0.7 * sigmoid 0.5 + -0.4 * sigmoid (-0.3)) ∧
      sigmoid (0.7 * sigmoid 0.5 + -0.4 * sigmoid (-0.3)) < 0.5661 :=
    ⟨lt_of_lt_of_le hA (sigmoid_mono hz.1.le),
      lt_of_le_of_lt (sigmoid_mono hz.2.le) hB2⟩
  have hloss := trainLoss_seed
  refine ⟨sigmoid 0.5, sigmoid (-0.3), sigmoid (0.7 * sigmoid 0.5 + -0.4 * sigmoid (-0.3)),
    (1 - sigmoid (0.7 * sigmoid 0.5 + -0.4 * sigmoid (-0.3))) ^ 2,
    ⟨forwardUpTo getInitialNetwork 2, hfwd, hL1, hL2⟩, rfl, rfl, rfl, ?_, ?_, ?_, ?_,
    hloss, rfl, ?_⟩
  · rw [abs_lt]
    constructor <;> linarith [hh1.1, hh1.2]
  · rw [abs_lt]
    constructor <;> linarith [hh2.1, hh2.2]
  · rw [abs_lt]
    constructor <;> linarith [hz.1, hz.2]
  · rw [abs_lt]
    constructor <;> linarith [houtw.1, houtw.2]
  · rw [abs_lt]
    constructor <;> nlinarith [houtw.1, houtw.2]

theorem modifyLayer_connections (net : NeuralNetwork) (k : Nat) (f : Layer → Layer) :
    (modifyLayer net k f).connections = net.connections := by
  unfold modifyLayer
  split <;> rfl

theorem modifyLayer_activationFunction (net : NeuralNetwork) (k : Nat) (f : Layer → Layer) :
    (modifyLayer net k f).activationFunction = net.activationFunction := by
  unfold modifyLayer
  split <;> rfl

theorem modifyLayer_layers_length (net : NeuralNetwork) (k : Nat) (f : Layer → Layer) :
    (modifyLayer net k f).layers.length = net.layers.length := by
  unfold modifyLayer
  split
  · simp
  · rfl

theorem modifyLayer_getElem?_ne (net : NeuralNetwork) (k : Nat) (f : Layer → Layer)
    (j : Nat) (h : k ≠ j) :
    (modifyLayer net k f).layers[j]? = net.layers[j]? := by
  unfold modifyLayer
  split
  · exact List.getElem?_set_ne h
  · rfl

theorem modifyLayer_getElem?_eq (net : NeuralNetwork) (k : Nat) (f : Layer → Layer)
    (L : Layer) (h : net.layers[k]? = some L) :
    (modifyLayer net k f).layers[k]? = some (f L) := by
  have hlt : k < net.layers.length := by
    rcases List.getElem?_eq_some.1 h with ⟨hlt, _⟩
    exact hlt
  unfold modifyLayer
  rw [h]
  exact List.getElem?_set_eq_of_lt _ hlt

theorem backstepLayer_connections (net : NeuralNetwork) (i : Nat) :
    (backstepLayer net i).connections = net.connections := by
  unfold backstepLayer
  split <;> rfl

theorem backstepLayer_activationFunction (net : NeuralNetwork) (i : Nat) :
    (backstepLayer net i).activationFunction = net.activationFunction := by
  unfold backstepLayer
  split <;> rfl

theorem backstepLayer_layers_length (net : NeuralNetwork) (i : Nat) :
    (backstepLayer net i).layers.length = net.layers.length := by
  unfold backstepLayer
  split
  · simp
  · rfl

theorem backstepLayer_getElem?_ne (net : NeuralNetwork) (i j : Nat) (h : i ≠ j) :
    (backstepLayer net i).layers[j]? = net.layers[j]? := by
  unfold backstepLayer
  split
  · exact List.getElem?_set_ne h
  · rfl

theorem backstepLayer_getElem?_eq (net : NeuralNetwork) (i : Nat) (cur nxt : Layer)
    (hc : net.layers[i]? = some cur) (hn : net.layers[i + 1]? = some nxt) :
    (backstepLayer net i).layers[i]? = some
      ({ cur with neurons := (cur.neurons.map
          (backNeuron net.connections nxt (activationDerivatives net.activationFunction))) }) := by
  have hlt : i < net.layers.length := by
    rcases List.getElem?_eq_some.1 hc with ⟨hlt, _⟩
    exact hlt
  unfold backstepLayer
  rw [hc, hn]
  exact List.getElem?_set_eq_of_lt _ hlt

theorem backpropFrom_connections (net : NeuralNetwork) : ∀ k,
    (backpropFrom net k).connections = net.connections
  | 0 => rfl
  | k + 1 => by
      rw [backpropFrom, backpropFrom_connections (backstepLayer net (k + 1)) k,
        backstepLayer_connections]

theorem backpropFrom_activationFunction (net : NeuralNetwork) : ∀ k,
    (backpropFrom net k).activationFunction = net.activationFunction
  | 0 => rfl
  | k + 1 => by
      rw [backpropFrom, backpropFrom_activationFunction (backstepLayer net (k + 1)) k,
        backstepLayer_activationFunction]

theorem backpropFrom_layers_length (net : NeuralNetwork) : ∀ k,
    (backpropFrom net k).layers.length = net.layers.length
  | 0 => rfl
  | k + 1 => by
      rw [backpropFrom, backpropFrom_layers_length (backstepLayer net (k + 1)) k,
        backstepLayer_layers_length]

theorem backpropFrom_getElem?_untouched (net : NeuralNetwork) (j : Nat) : ∀ k,
    (j = 0 ∨ k < j) → (backpropFrom net k).layers[j]? = net.layers[j]?
  | 0, _ => rfl
  | k + 1, h => by
      rw [backpropFrom,
        backpropFrom_getElem?_untouched (backstepLayer net (k + 1)) j k (by omega),
        backstepLayer_getElem?_ne net (k + 1) j (by omega)]

/-- The per-layer characterization of the backward loop: when layer `i` (with
`1 ≤ i ≤ k`) and layer `i+1` both exist, the loop's result holds at position
`i` the original layer with every neuron's delta recomputed from the LOOP
RESULT's layer `i+1` (which, being processed earlier — the loop descends — has
already received its final deltas). -/
theorem backpropFrom_formula (i : Nat) (h1 : 1 ≤ i) : ∀ (k : Nat) (net : NeuralNetwork)
    (curL : Layer), i ≤ k → i + 1 < net.layers.length → net.layers[i]? = some curL →
    ∃ nxtL, (backpropFrom net k).layers[i + 1]? = some nxtL ∧
      (backpropFrom net k).layers[i]? = some
        ({ curL with neurons := (curL.neurons.map
            (backNeuron net.connections nxtL
              (activationDerivatives net.activationFunction))) })
  | 0, net, curL, hik, _, _ => by omega
  | k + 1, net, curL, hik, hi1, hcur => by
      rcases Nat.lt_or_ge i (k + 1) with hlt | hge
      · -- layer i is processed strictly later (the loop descends); recurse
        obtain ⟨nxtL, hn, hf⟩ := backpropFrom_formula i h1 k (backstepLayer net (k + 1))
          curL (by omega) (by rw [backstepLayer_layers_length]; omega)
          (by rw [backstepLayer_getElem?_ne net (k + 1) i (by omega)]; exact hcur)
        refine ⟨nxtL, ?_, ?_⟩
        · rw [backpropFrom]
          exact hn
        · rw [backpropFrom, hf, backstepLayer_connections,
            backstepLayer_activationFunction]
      · -- i = k + 1: layer i is processed first, from the untouched layer i+1
        have hik1 : i = k + 1 := by omega
        subst hik1
        have hnext : ∃ nxt0, net.layers[k + 1 + 1]? = some nxt0 :=
          ⟨net.layers[k + 1 + 1], List.getElem?_eq_getElem hi1⟩
        obtain ⟨nxt0, hn0⟩ := hnext
        refine ⟨nxt0, ?_, ?_⟩
        · rw [backpropFrom,
            backpropFrom_getElem?_untouched (backstepLayer net (k + 1)) (k + 1 + 1) k
              (by omega),
            backstepLayer_getElem?_ne net (k + 1) (k + 1 + 1) (by omega)]
          exact hn0
        · rw [backpropFrom,
            backpropFrom_getElem?_untouched (backstepLayer net (k + 1)) (k + 1) k
              (by omega)]
          exact backstepLayer_getElem?_eq net (k + 1) curL nxt0 hcur hn0

theorem updateWeights_layers (net : NeuralNetwork) (lr : ℝ) :
    (updateWeights net lr).layers = net.layers := rfl

theorem updateWeights_activationFunction (net : NeuralNetwork) (lr : ℝ) :
    (updateWeights net lr).activationFunction = net.activationFunction := rfl

theorem updateWeights_connections_getElem? (net : NeuralNetwork) (lr : ℝ) (k : Nat) :
    (updateWeights net lr).connections[k]? =
      (net.connections[k]?).map (applyWeightUpdate net lr) := by
  unfold updateWeights
  exact List.getElem?_map _ _ _

theorem updateBiases_connections (net : NeuralNetwork) (lr : ℝ) :
    (updateBiases net lr).connections = net.connections := rfl

theorem updateBiases_activationFunction (net : NeuralNetwork) (lr : ℝ) :
    (updateBiases net lr).activationFunction = net.activationFunction := rfl

theorem updateBiases_getElem? (net : NeuralNetwork) (lr : ℝ) (i : Nat) :
    (updateBiases net lr).layers[i]? = (net.layers[i]?).map (fun layer =>
      if i = 0 then layer
      else { layer with neurons := layer.neurons.map (biasUpdate lr) }) := by
  unfold updateBiases
  exact idxMap_getElem? _ _ _

theorem updateBiases_layers_length (net : NeuralNetwork) (lr : ℝ) :
    (updateBiases net lr).layers.length = net.layers.length := by
  unfold updateBiases
  exact idxMap_length _ _

/-- Every per-neuron field except the bias (the only field the final stage of
a training step modifies). -/
def noBiasView (n : Neuron) : Nat × ℝ × Option ℝ × Option ℝ × Option ℝ :=
  (n.id, n.activation, n.target, n.error, n.delta)

theorem noBiasView_biasUpdate (lr : ℝ) (n : Neuron) :
    noBiasView (biasUpdate lr n) = noBiasView n := by
  unfold biasUpdate
  cases hd : n.delta with
  | none => rfl
  | some dv =>
      dsimp only
      by_cases h : dv = 0
      · rw [if_pos h]
      · rw [if_neg h]
        simp [noBiasView, hd]

theorem find?_noBiasView_congr (l1 : List Neuron) : ∀ (l2 : List Neuron),
    l1.map noBiasView = l2.map noBiasView → ∀ (i : Nat),
    ((l1.find? (fun n => n.id == i)).map noBiasView) =
      ((l2.find? (fun n => n.id == i)).map noBiasView) := by
  induction l1 with
  | nil =>
      intro l2 h i
      cases l2 with
      | nil => rfl
      | cons b bs => simp at h
  | cons a as ih =>
      intro l2 h i
      cases l2 with
      | nil => simp at h
      | cons b bs =>
          simp only [List.map_cons, List.cons.injEq] at h
          obtain ⟨hab, hrest⟩ := h
          have hid : a.id = b.id := congrArg Prod.fst hab
          by_cases hp : (a.id == i) = true
          · rw [@List.find?_cons_of_pos _ (fun n => n.id == i) a as hp,
              @List.find?_cons_of_pos _ (fun n => n.id == i) b bs
                (show (b.id == i) = true from by rw [← hid]; exact hp)]
            simpa using hab
          · rw [@List.find?_cons_of_neg _ (fun n => n.id == i) a as hp,
              @List.find?_cons_of_neg _ (fun n => n.id == i) b bs
                (show ¬ (b.id == i) = true from by rw [← hid]; exact hp)]
            exact ih bs hrest i

theorem updateBiases_flatten_view (lr : ℝ) : ∀ (ls : List Layer) (k : Nat),
    (((idxMapFrom (fun i layer =>
        if i = 0 then layer
        else { layer with neurons := layer.neurons.map (biasUpdate lr) }) k ls).map
          Layer.neurons).flatten.map noBiasView)
      = ((ls.map Layer.neurons).flatten.map noBiasView)
  | [], _ => rfl
  | l :: ls, k => by
      simp only [idxMapFrom, List.map_cons, List.flatten_cons, List.map_append]
      rw [updateBiases_flatten_view lr ls (k + 1)]
      by_cases hk : k = 0
      · rw [if_pos hk]
      · rw [if_neg hk]
        simp only [List.map_map]
        congr 1
        apply List.map_congr_left
        intro n _
        exact noBiasView_biasUpdate lr n

theorem idLookup_updateBiases_view (X : NeuralNetwork) (lr : ℝ) (i : Nat) :
    (idLookup (updateBiases X lr) i).map noBiasView = (idLookup X i).map noBiasView := by
  apply find?_noBiasView_congr
  exact updateBiases_flatten_view lr X.layers 0

/-- The specification's formulation of the backpropagated error of a hidden
neuron (step 4 of `runTrainingStep`): the plain sum of `weight * delta` over
the outgoing connections whose destination is found in the next layer.  Used
only to state the claims. -/
def downstreamSum (conns : List Connection) (nextLayer : Layer) (neuron : Neuron) : ℝ :=
  ((conns.filter (fun c => c.fromNeuronId == neuron.id)).map (fun c =>
    match nextLayer.neurons.find? (fun n => n.id == c.toNeuronId) with
    | some nx => c.weight * nx.delta.getD 0
    | none => 0)).sum

theorem downstreamSum_congr (conns : List Connection) (L1 L2 : Layer) (neuron : Neuron)
    (h : L1.neurons.map noBiasView = L2.neurons.map noBiasView) :
    downstreamSum conns L1 neuron = downstreamSum conns L2 neuron := by
  unfold downstreamSum
  congr 1
  apply List.map_congr_left
  intro c _
  have hv := find?_noBiasView_congr L1.neurons L2.neurons h c.toNeuronId
  cases h1 : L1.neurons.find? (fun n => n.id == c.toNeuronId) with
  | none =>
      rw [h1] at hv
      cases h2 : L2.neurons.find? (fun n => n.id == c.toNeuronId) with
      | none => rfl
      | some nx2 => rw [h2] at hv; simp at hv
  | some nx =>
      rw [h1] at hv
      cases h2 : L2.neurons.find? (fun n => n.id == c.toNeuronId) with
      | none => rw [h2] at hv; simp at hv
      | some nx2 =>
          rw [h2] at hv
          simp only [Option.map_some'] at hv
          have hview : noBiasView nx = noBiasView nx2 := by
            simpa using hv
          have hdelta : nx.delta = nx2.delta := congrArg (fun v => v.2.2.2.2) hview
          dsimp only
          rw [hdelta]

/-- When every neuron of the next layer carries a delta, the source's
truthiness-guarded error accumulation agrees with the specification's plain
sum (a zero delta is skipped by the guard but contributes zero anyway). -/
theorem hiddenErrorSum_eq_downstreamSum (conns : List Connection) (nextLayer : Layer)
    (neuron : Neuron) (hall : ∀ n ∈ nextLayer.neurons, n.delta.isSome) :
    hiddenErrorSum conns nextLayer neuron = downstreamSum conns nextLayer neuron := by
  unfold hiddenErrorSum downstreamSum
  generalize conns.filter (fun c => c.fromNeuronId == neuron.id) = l
  suffices h : ∀ (s : ℝ), l.foldl (fun error conn =>
      match nextLayer.neurons.find? (fun n => n.id == conn.toNeuronId) with
      | some nextNeuron =>
          match nextNeuron.delta with
          | some dv => if dv = 0 then error else error + conn.weight * dv
          | none => error
      | none => error) s
      = s + (l.map (fun c =>
          match nextLayer.neurons.find? (fun n => n.id == c.toNeuronId) with
          | some nx => c.weight * nx.delta.getD 0
          | none => 0)).sum by
    rw [h 0]
    ring
  induction l with
  | nil => intro s; simp
  | cons c cs ih =>
      intro s
      simp only [List.foldl_cons, List.map_cons, List.sum_cons]
      cases hf : nextLayer.neurons.find? (fun n => n.id == c.toNeuronId) with
      | none =>
          simp only [hf]
          rw [ih]
          ring
      | some nx =>
          simp only [hf]
          cases hd : nx.delta with
          | none =>
              have := hall nx (List.mem_of_find?_eq_some hf)
              rw [hd] at this
              simp at this
          | some dv =>
              simp only [hd]
              by_cases h0 : dv = 0
              · rw [if_pos h0, ih, h0]
                simp
              · rw [if_neg h0, ih]
                simp only [Option.getD_some]
                ring

/-- The per-neuron fields (id, activation, target) that every stage of a
training step after the forward pass leaves untouched. -/
def actView (n : Neuron) : Nat × ℝ × Option ℝ := (n.id, n.activation, n.target)

/-- The per-layer actView rows of a network. -/
def layersActView (X : NeuralNetwork) : List (List (Nat × ℝ × Option ℝ)) :=
  X.layers.map (fun l => l.neurons.map actView)

theorem actView_outputNeuronUpdate (d : ℝ → ℝ) (n : Neuron) :
    actView (outputNeuronUpdate d n) = actView n := rfl

theorem actView_backNeuron (conns : List Connection) (nxt : Layer) (d : ℝ → ℝ)
    (n : Neuron) : actView (backNeuron conns nxt d n) = actView n := rfl

theorem actView_biasUpdate (lr : ℝ) (n : Neuron) :
    actView (biasUpdate lr n) = actView n := by
  unfold biasUpdate
  cases hd : n.delta with
  | none => rfl
  | some dv =>
      dsimp only
      by_cases h : dv = 0
      · rw [if_pos h]
      · rw [if_neg h]
        rfl

theorem layersActView_modifyLayer (X : NeuralNetwork) (k : Nat) (f : Layer → Layer)
    (hrow : ∀ L, (f L).neurons.map actView = L.neurons.map actView) :
    layersActView (modifyLayer X k f) = layersActView X := by
  unfold modifyLayer
  cases hk : X.layers[k]? with
  | none => rfl
  | some L =>
      have hlt : k < X.layers.length := by
        rcases List.getElem?_eq_some.1 hk with ⟨hlt, _⟩
        exact hlt
      unfold layersActView
      dsimp only
      apply List.ext_getElem?
      intro i
      rw [List.getElem?_map, List.getElem?_map]
      by_cases hik : k = i
      · subst hik
        rw [List.getElem?_set_eq_of_lt _ hlt, hk]
        simp only [Option.map_some']
        rw [hrow L]
      · rw [List.getElem?_set_ne hik]

theorem layersActView_outputPass (X : NeuralNetwork) :
    layersActView (outputPass X) = layersActView X := by
  apply layersActView_modifyLayer
  intro L
  dsimp only
  rw [List.map_map]
  rfl

theorem layersActView_backstepLayer (X : NeuralNetwork) (i : Nat) :
    layersActView (backstepLayer X i) = layersActView X := by
  unfold backstepLayer
  cases hc : X.layers[i]? with
  | none => rfl
  | some cur =>
      cases hn : X.layers[i + 1]? with
      | none => rfl
      | some nxt =>
          have hlt : i < X.layers.length := by
            rcases List.getElem?_eq_some.1 hc with ⟨hlt, _⟩
            exact hlt
          dsimp only
          unfold layersActView
          apply List.ext_getElem?
          intro j
          rw [List.getElem?_map, List.getElem?_map]
          by_cases hij : i = j
          · subst hij
            rw [List.getElem?_set_eq_of_lt _ hlt, hc]
            simp only [Option.map_some']
            rw [List.map_map]
            rfl
          · rw [List.getElem?_set_ne hij]

theorem layersActView_backpropFrom (X : NeuralNetwork) : ∀ k,
    layersActView (backpropFrom X k) = layersActView X
  | 0 => rfl
  | k + 1 => by
      rw [backpropFrom, layersActView_backpropFrom (backstepLayer X (k + 1)) k,
        layersActView_backstepLayer]

theorem layersActView_updateBiases_aux (lr : ℝ) : ∀ (ls : List Layer) (k : Nat),
    ((idxMapFrom (fun i layer =>
        if i = 0 then layer
        else { layer with neurons := layer.neurons.map (biasUpdate lr) }) k ls).map
      (fun l => l.neurons.map actView))
      = ls.map (fun l => l.neurons.map actView)
  | [], _ => rfl
  | l :: ls, k => by
      simp only [idxMapFrom, List.map_cons]
      rw [layersActView_updateBiases_aux lr ls (k + 1)]
      by_cases hk : k = 0
      · rw [if_pos hk]
      · rw [if_neg hk]
        dsimp only
        rw [List.map_map]
        have : (actView ∘ biasUpdate lr) = actView := by
          funext n
          exact actView_biasUpdate lr n
        rw [this]

theorem layersActView_updateBiases (X : NeuralNetwork) (lr : ℝ) :
    layersActView (updateBiases X lr) = layersActView X :=
  layersActView_updateBiases_aux lr X.layers 0

theorem layersActView_updateWeights (X : NeuralNetwork) (lr : ℝ) :
    layersActView (updateWeights X lr) = layersActView X := rfl

/-- Equality of actViews transfers per-position neuron data. -/
theorem actView_ext (X Y : NeuralNetwork) (h : layersActView X = layersActView Y)
    (i j : Nat) (a : Neuron)
    (ha : X.layers[i]?.bind (fun l => l.neurons[j]?) = some a) :
    ∃ b, Y.layers[i]?.bind (fun l => l.neurons[j]?) = some b ∧
      b.id = a.id ∧ b.activation = a.activation ∧ b.target = a.target := by
  cases hX : X.layers[i]? with
  | none => rw [hX] at ha; cases ha
  | some LX =>
      rw [hX] at ha
      dsimp only [Option.bind] at ha
      have hrow := congrArg (fun ls => ls[i]?) h
      simp only [layersActView, List.getElem?_map, hX, Option.map_some'] at hrow
      cases hY : Y.layers[i]? with
      | none => rw [hY] at hrow; simp at hrow
      | some LY =>
          rw [hY] at hrow
          simp only [Option.map_some', Option.some.injEq] at hrow
          have hj := congrArg (fun ns => ns[j]?) hrow
          simp only [List.getElem?_map, ha, Option.map_some'] at hj
          cases hb : LY.neurons[j]? with
          | none => rw [hb] at hj; simp at hj
          | some b =>
              rw [hb] at hj
              simp only [Option.map_some', Option.some.injEq] at hj
              refine ⟨b, by dsimp only [Option.bind]; exact hb, ?_, ?_, ?_⟩
              · exact (congrArg (fun v => v.1) hj.symm)
              · exact (congrArg (fun v => v.2.1) hj.symm)
              · exact (congrArg (fun v => v.2.2) hj.symm)

theorem runForwardPropagation_none_eq (net : NeuralNetwork) :
    runForwardPropagation net none =
      some (forwardUpTo net (net.layers.length - 1)) := by
  have h : net.layers.length - 1 = 0 ∨ net.layers.length - 1 < net.layers.length := by
    omega
  simp [runForwardPropagation, h]
  intro h1 h2
  rw [h2] at h1
  simp at h1

theorem runTrainingStep_some (net : NeuralNetwork) (lr : ℝ) (outL : Layer)
    (h : (forwardUpTo net (net.layers.length - 1)).layers[(forwardUpTo
        net (net.layers.length - 1)).layers.length - 1]? = some outL) :
    runTrainingStep net lr = some
      (updateBiases (updateWeights
          (backwardPass (outputPass (forwardUpTo net (net.layers.length - 1)))) lr) lr,
        lossOf outL) := by
  rw [runTrainingStep, runForwardPropagation_none_eq]
  dsimp only
  rw [h]

theorem runTrainingStep_inv (net : NeuralNetwork) (lr : ℝ) (N : NeuralNetwork)
    (loss : ℝ) (hR : runTrainingStep net lr = some (N, loss)) :
    ∃ outL, (forwardUpTo net (net.layers.length - 1)).layers[(forwardUpTo
        net (net.layers.length - 1)).layers.length - 1]? = some outL ∧
      N = updateBiases (updateWeights
        (backwardPass (outputPass (forwardUpTo net (net.layers.length - 1)))) lr) lr ∧
      loss = lossOf outL := by
  rw [runTrainingStep, runForwardPropagation_none_eq] at hR
  dsimp only at hR
  cases ho : (forwardUpTo net (net.layers.length - 1)).layers[(forwardUpTo
      net (net.layers.length - 1)).layers.length - 1]? with
  | none => rw [ho] at hR; cases hR
  | some outL =>
      rw [ho] at hR
      dsimp only at hR
      refine ⟨outL, rfl, ?_, ?_⟩
      · exact (congrArg Prod.fst (Option.some.inj hR)).symm
      · exact (congrArg Prod.snd (Option.some.inj hR)).symm

theorem outputPass_connections (X : NeuralNetwork) :
    (outputPass X).connections = X.connections :=
  modifyLayer_connections X _ _

theorem outputPass_activationFunction (X : NeuralNetwork) :
    (outputPass X).activationFunction = X.activationFunction :=
  modifyLayer_activationFunction X _ _

theorem outputPass_layers_length (X : NeuralNetwork) :
    (outputPass X).layers.length = X.layers.length :=
  modifyLayer_layers_length X _ _

theorem outputPass_getElem?_ne (X : NeuralNetwork) (j : Nat)
    (h : X.layers.length - 1 ≠ j) :
    (outputPass X).layers[j]? = X.layers[j]? :=
  modifyLayer_getElem?_ne X _ _ j h

theorem outputPass_getElem?_eq (X : NeuralNetwork) (L : Layer)
    (h : X.layers[X.layers.length - 1]? = some L) :
    (outputPass X).layers[X.layers.length - 1]? = some
      ({ L with neurons := (L.neurons.map
          (outputNeuronUpdate (activationDerivatives X.activationFunction))) }) :=
  modifyLayer_getElem?_eq X _ _ L h

theorem backwardPass_connections (X : NeuralNetwork) :
    (backwardPass X).connections = X.connections :=
  backpropFrom_connections X _

theorem backwardPass_activationFunction (X : NeuralNetwork) :
    (backwardPass X).activationFunction = X.activationFunction :=
  backpropFrom_activationFunction X _

theorem backwardPass_layers_length (X : NeuralNetwork) :
    (backwardPass X).layers.length = X.layers.length :=
  backpropFrom_layers_length X _

theorem outputNeuronUpdate_error (d : ℝ → ℝ) (n : Neuron) :
    (outputNeuronUpdate d n).error = some (n.target.getD 0 - n.activation) := rfl

theorem outputNeuronUpdate_delta (d : ℝ → ℝ) (n : Neuron) :
    (outputNeuronUpdate d n).delta =
      some ((n.target.getD 0 - n.activation) * d n.activation) := rfl

theorem outputNeuronUpdate_bias (d : ℝ → ℝ) (n : Neuron) :
    (outputNeuronUpdate d n).bias = n.bias := rfl

theorem backNeuron_delta (conns : List Connection) (nxt : Layer) (d : ℝ → ℝ) (n : Neuron) :
    (backNeuron conns nxt d n).delta =
      some (hiddenErrorSum conns nxt n * d n.activation) := rfl

theorem backNeuron_bias (conns : List Connection) (nxt : Layer) (d : ℝ → ℝ) (n : Neuron) :
    (backNeuron conns nxt d n).bias = n.bias := rfl

theorem biasUpdate_delta (lr : ℝ) (n : Neuron) : (biasUpdate lr n).delta = n.delta :=
  congrArg (fun v => v.2.2.2.2) (noBiasView_biasUpdate lr n)

theorem biasUpdate_error (lr : ℝ) (n : Neuron) : (biasUpdate lr n).error = n.error :=
  congrArg (fun v => v.2.2.2.1) (noBiasView_biasUpdate lr n)

theorem biasUpdate_bias (lr : ℝ) (n : Neuron) :
    (biasUpdate lr n).bias = match n.delta with
      | some dv => if dv = 0 then n.bias else n.bias + lr * dv
      | none => n.bias := by
  unfold biasUpdate
  cases hd : n.delta with
  | none => rfl
  | some dv =>
      dsimp only
      by_cases h : dv = 0
      · rw [if_pos h, if_pos h]
      · rw [if_neg h, if_neg h]

theorem map_noBiasView_biasUpdate (lr : ℝ) (ns : List Neuron) :
    (ns.map (biasUpdate lr)).map noBiasView = ns.map noBiasView := by
  rw [List.map_map]
  apply List.map_congr_left
  intro n _
  exact noBiasView_biasUpdate lr n

theorem idLookup_updateWeights (X : NeuralNetwork) (lr : ℝ) (i : Nat) :
    idLookup (updateWeights X lr) i = idLookup X i := rfl

theorem n3_layer_output (P : NeuralNetwork) (L : Layer)
    (hL : P.layers[P.layers.length - 1]? = some L) :
    (backwardPass (outputPass P)).layers[P.layers.length - 1]? = some
      ({ L with neurons := (L.neurons.map
          (outputNeuronUpdate (activationDerivatives P.activationFunction))) }) := by
  rw [backwardPass,
    backpropFrom_getElem?_untouched (outputPass P) (P.layers.length - 1)
      ((outputPass P).layers.length - 2)
      (by rw [outputPass_layers_length]; omega)]
  exact outputPass_getElem?_eq P L hL

theorem n3_layer_zero (P : NeuralNetwork) (h2 : 2 ≤ P.layers.length) :
    (backwardPass (outputPass P)).layers[0]? = P.layers[0]? := by
  rw [backwardPass,
    backpropFrom_getElem?_untouched (outputPass P) 0 ((outputPass P).layers.length - 2)
      (Or.inl rfl),
    outputPass_getElem?_ne P 0 (by omega)]

theorem n3_layer_hidden (P : NeuralNetwork) (i : Nat) (L : Layer) (h1 : 1 ≤ i)
    (h2 : i ≤ P.layers.length - 2) (hL : P.layers[i]? = some L) :
    ∃ nxt, (backwardPass (outputPass P)).layers[i + 1]? = some nxt ∧
      (backwardPass (outputPass P)).layers[i]? = some
        ({ L with neurons := (L.neurons.map
            (backNeuron P.connections nxt (activationDerivatives P.activationFunction))) }) := by
  have hlen3 : 3 ≤ P.layers.length := by
    have := (List.getElem?_eq_some.1 hL).1
    omega
  rw [backwardPass]
  obtain ⟨nxt, hn, hf⟩ := backpropFrom_formula i h1 ((outputPass P).layers.length - 2)
    (outputPass P) L (by rw [outputPass_layers_length]; omega)
    (by rw [outputPass_layers_length]; omega)
    (by rw [outputPass_getElem?_ne P i (by omega)]; exact hL)
  refine ⟨nxt, hn, ?_⟩
  rw [hf, outputPass_connections, outputPass_activationFunction]

theorem n3_deltas_isSome (P : NeuralNetwork) (m : Nat) (Lm : Layer) (h1 : 1 ≤ m)
    (h2 : m ≤ P.layers.length - 1)
    (hm : (backwardPass (outputPass P)).layers[m]? = some Lm) :
    ∀ n ∈ Lm.neurons, n.delta.isSome := by
  rcases Nat.lt_or_ge m (P.layers.length - 1) with hlt | hge
  · have hmlt : m < P.layers.length := by omega
    obtain ⟨L, hL⟩ : ∃ L, P.layers[m]? = some L :=
      ⟨P.layers[m], List.getElem?_eq_getElem hmlt⟩
    obtain ⟨nxt, _, hf⟩ := n3_layer_hidden P m L h1 (by omega) hL
    rw [hf] at hm
    obtain rfl := Option.some.inj hm
    intro n hn
    rw [List.mem_map] at hn
    obtain ⟨x, _, rfl⟩ := hn
    simp [backNeuron]
  · have hm1 : m = P.layers.length - 1 := by omega
    subst hm1
    have hmlt : P.layers.length - 1 < P.layers.length := by omega
    obtain ⟨L, hL⟩ : ∃ L, P.layers[P.layers.length - 1]? = some L :=
      ⟨P.layers[P.layers.length - 1], List.getElem?_eq_getElem hmlt⟩
    have hf := n3_layer_output P L hL
    rw [hf] at hm
    obtain rfl := Option.some.inj hm
    intro n hn
    rw [List.mem_map] at hn
    obtain ⟨x, _, rfl⟩ := hn
    simp [outputNeuronUpdate]

theorem bind_some_neurons (L : Layer) (j : Nat) :
    (some L).bind (fun l => l.neurons[j]?) = L.neurons[j]? := rfl

theorem applyWeightUpdate_ids (net : NeuralNetwork) (lr : ℝ) (c : Connection) :
    (applyWeightUpdate net lr c).id = c.id ∧
      (applyWeightUpdate net lr c).fromNeuronId = c.fromNeuronId ∧
      (applyWeightUpdate net lr c).toNeuronId = c.toNeuronId := by
  unfold applyWeightUpdate
  cases h1 : idLookup net c.fromNeuronId with
  | none => exact ⟨rfl, rfl, rfl⟩
  | some f =>
      cases h2 : idLookup net c.toNeuronId with
      | none => exact ⟨rfl, rfl, rfl⟩
      | some t =>
          dsimp only
          cases h3 : t.delta with
          | none => exact ⟨rfl, rfl, rfl⟩
          | some dv =>
              dsimp only
              by_cases h0 : dv = 0
              · rw [if_pos h0]
                exact ⟨rfl, rfl, rfl⟩
              · rw [if_neg h0]
                exact ⟨rfl, rfl, rfl⟩

theorem applyWeightUpdate_of_found (net : NeuralNetwork) (lr : ℝ) (c : Connection)
    (f t : Neuron) (dv : ℝ) (h1 : idLookup net c.fromNeuronId = some f)
    (h2 : idLookup net c.toNeuronId = some t) (h3 : t.delta = some dv) (h0 : dv ≠ 0) :
    (applyWeightUpdate net lr c).gradient = some (f.activation * dv) ∧
      (applyWeightUpdate net lr c).weight = c.weight + lr * (f.activation * dv) := by
  unfold applyWeightUpdate
  rw [h1, h2]
  dsimp only
  rw [h3]
  dsimp only
  rw [if_neg h0]
  exact ⟨rfl, rfl⟩

theorem applyWeightUpdate_untouched (net : NeuralNetwork) (lr : ℝ) (c : Connection)
    (h : idLookup net c.fromNeuronId = none ∨ idLookup net c.toNeuronId = none ∨
      ∃ t, idLookup net c.toNeuronId = some t ∧ (t.delta = none ∨ t.delta = some 0)) :
    applyWeightUpdate net lr c = c := by
  unfold applyWeightUpdate
  cases h1 : idLookup net c.fromNeuronId with
  | none => rfl
  | some f =>
      cases h2 : idLookup net c.toNeuronId with
      | none => rfl
      | some t =>
          dsimp only
          cases h3 : t.delta with
          | none => rfl
          | some dv =>
              dsimp only
              rcases h with hf | ht | ⟨t2, ht2, hd2⟩
              · rw [h1] at hf; cases hf
              · rw [h2] at ht; cases ht
              · rw [h2] at ht2
                obtain rfl := Option.some.inj ht2
                rcases hd2 with hd2 | hd2
                · rw [h3] at hd2; cases hd2
                · rw [h3] at hd2
                  obtain rfl := Option.some.inj hd2
                  rw [if_pos rfl]

set_option maxHeartbeats 1000000 in
/-- C4 (corrected): for every network on which `runTrainingStep` succeeds,
with `P` the fully forward-propagated network, the result preserves the
topology and every activation; the returned loss is the mean of squared
output errors; every output neuron gets `error = target - activation`
(target defaulting to 0) and `delta = error * derivative(activation)`;
every hidden neuron of layers 1 .. length-2 gets
`delta = (sum of weight * downstream delta over outgoing connections into
the next layer) * derivative(own activation)`; a connection's gradient and
weight are updated (to `source activation * destination delta` and
`weight + learningRate * gradient`) exactly when both endpoints are found
and the destination's delta is set AND nonzero — a computed zero delta is
skipped by the source's truthiness test, leaving the connection untouched,
which refutes the claim's \"whenever the destination has a computed delta\"
clause; every non-input neuron's bias becomes `bias + learningRate * delta`
when its delta is set (numerically also when the delta is zero, since the
skipped update adds zero), and the input layer is untouched. -/
theorem claimC4_training_step (net : NeuralNetwork) (lr : ℝ)
    (P N : NeuralNetwork) (loss : ℝ)
    (hP : runForwardPropagation net none = some P)
    (hR : runTrainingStep net lr = some (N, loss)) :
    N.layers.length = net.layers.length ∧
    N.connections.length = net.connections.length ∧
    N.activationFunction = net.activationFunction ∧
    (∀ (i j : Nat) a, P.layers[i]?.bind (fun l => l.neurons[j]?) = some a →
      ∃ b, N.layers[i]?.bind (fun l => l.neurons[j]?) = some b ∧
        b.id = a.id ∧ b.activation = a.activation ∧ b.target = a.target) ∧
    (∀ outL2, P.layers[P.layers.length - 1]? = some outL2 →
      loss = ((outL2.neurons.map
          (fun n => (n.target.getD 0 - n.activation) ^ 2)).sum) /
        (outL2.neurons.length : ℝ)) ∧
    (∀ (j : Nat) a,
      P.layers[P.layers.length - 1]?.bind (fun l => l.neurons[j]?) = some a →
      ∃ b, N.layers[N.layers.length - 1]?.bind (fun l => l.neurons[j]?) = some b ∧
        b.error = some (a.target.getD 0 - a.activation) ∧
        b.delta = some ((a.target.getD 0 - a.activation) *
          activationDerivatives net.activationFunction a.activation)) ∧
    (∀ (i j : Nat) a, 1 ≤ i → i ≤ net.layers.length - 2 →
      P.layers[i]?.bind (fun l => l.neurons[j]?) = some a →
      ∃ nxt b, N.layers[i + 1]? = some nxt ∧
        N.layers[i]?.bind (fun l => l.neurons[j]?) = some b ∧
        b.delta = some (downstreamSum net.connections nxt a *
          activationDerivatives net.activationFunction a.activation)) ∧
    (∀ (k : Nat) c, net.connections[k]? = some c →
      ∃ c2, N.connections[k]? = some c2 ∧ c2.id = c.id ∧
        c2.fromNeuronId = c.fromNeuronId ∧ c2.toNeuronId = c.toNeuronId ∧
        ((∃ f t dv, idLookup N c.fromNeuronId = some f ∧
            idLookup N c.toNeuronId = some t ∧ t.delta = some dv ∧ dv ≠ 0 ∧
            c2.gradient = some (f.activation * dv) ∧
            c2.weight = c.weight + lr * (f.activation * dv)) ∨
          (c2 = c ∧ (idLookup N c.fromNeuronId = none ∨
            idLookup N c.toNeuronId = none ∨
            ∃ t, idLookup N c.toNeuronId = some t ∧
              (t.delta = none ∨ t.delta = some 0))))) ∧
    (∀ (i j : Nat) a b, 1 ≤ i →
      P.layers[i]?.bind (fun l => l.neurons[j]?) = some a →
      N.layers[i]?.bind (fun l => l.neurons[j]?) = some b →
      ((∀ dv, b.delta = some dv → b.bias = a.bias + lr * dv) ∧
        (b.delta = none → b.bias = a.bias))) ∧
    (2 ≤ net.layers.length → ∀ (j : Nat) a b,
      P.layers[0]?.bind (fun l => l.neurons[j]?) = some a →
      N.layers[0]?.bind (fun l => l.neurons[j]?) = some b →
      b.bias = a.bias ∧ b.delta = a.delta ∧ b.error = a.error ∧
        b.activation = a.activation) := by
  have hPdef : forwardUpTo net (net.layers.length - 1) = P := by
    have h := runForwardPropagation_none_eq net
    rw [hP] at h
    exact (Option.some.inj h).symm
  obtain ⟨outL, houtL, hN, hlossEq⟩ := runTrainingStep_inv net lr N loss hR
  rw [hPdef] at houtL hN
  have hPlen : P.layers.length = net.layers.length := by
    rw [← hPdef]; exact forwardUpTo_layers_length net _
  have hPconn : P.connections = net.connections := by
    rw [← hPdef]; exact forwardUpTo_connections net _
  have hPaf : P.activationFunction = net.activationFunction := by
    rw [← hPdef]; exact forwardUpTo_activationFunction net _
  have hN3c : (backwardPass (outputPass P)).connections = net.connections := by
    rw [backwardPass_connections, outputPass_connections, hPconn]
  have hNlen : N.layers.length = net.layers.length := by
    rw [hN, updateBiases_layers_length, updateWeights_layers,
      backwardPass_layers_length, outputPass_layers_length, hPlen]
  have hNconn : N.connections = net.connections.map
      (applyWeightUpdate (backwardPass (outputPass P)) lr) := by
    rw [hN, updateBiases_connections]
    show (backwardPass (outputPass P)).connections.map _ = _
    rw [hN3c]
  have hNaf : N.activationFunction = net.activationFunction := by
    rw [hN, updateBiases_activationFunction, updateWeights_activationFunction,
      backwardPass_activationFunction, outputPass_activationFunction, hPaf]
  have hview : layersActView P = layersActView N := by
    rw [hN, layersActView_updateBiases, layersActView_updateWeights, backwardPass,
      layersActView_backpropFrom, layersActView_outputPass]
  have hlook : ∀ x, (idLookup N x).map noBiasView =
      (idLookup (backwardPass (outputPass P)) x).map noBiasView := by
    intro x
    rw [hN, idLookup_updateBiases_view, idLookup_updateWeights]
  refine ⟨hNlen, (by rw [hNconn, List.length_map]), hNaf, ?_, ?_, ?_, ?_, ?_, ?_, ?_⟩
  · intro i j a ha
    exact actView_ext P N hview i j a ha
  · intro outL2 h2
    rw [h2] at houtL
    obtain rfl := Option.some.inj houtL
    rw [hlossEq]
    rfl
  · intro j a ha
    have hidx : N.layers.length - 1 = P.layers.length - 1 := by rw [hNlen, hPlen]
    rw [hidx]
    have hf := n3_layer_output P outL houtL
    rw [houtL, bind_some_neurons] at ha
    by_cases h0 : P.layers.length - 1 = 0
    · have hNi : N.layers[P.layers.length - 1]? = some
          ({ outL with neurons := (outL.neurons.map
            (outputNeuronUpdate (activationDerivatives P.activationFunction))) }) := by
        rw [hN, updateBiases_getElem?, updateWeights_layers, hf]
        simp only [Option.map_some']
        rw [if_pos h0]
      rw [hNi, bind_some_neurons]
      rw [List.getElem?_map, ha]
      simp only [Option.map_some']
      refine ⟨_, rfl, ?_, ?_⟩
      · exact outputNeuronUpdate_error _ a
      · rw [outputNeuronUpdate_delta, hPaf]
    · have hNi : N.layers[P.layers.length - 1]? = some
          ({ outL with neurons := ((outL.neurons.map
              (outputNeuronUpdate (activationDerivatives P.activationFunction))).map
              (biasUpdate lr)) }) := by
        rw [hN, updateBiases_getElem?, updateWeights_layers, hf]
        simp only [Option.map_some']
        rw [if_neg h0]
      rw [hNi, bind_some_neurons]
      rw [List.getElem?_map, List.getElem?_map, ha]
      simp only [Option.map_some']
      refine ⟨_, rfl, ?_, ?_⟩
      · rw [biasUpdate_error, outputNeuronUpdate_error]
      · rw [biasUpdate_delta, outputNeuronUpdate_delta, hPaf]
  · intro i j a h1 h2 ha
    cases hPi : P.layers[i]? with
    | none => rw [hPi] at ha; simp at ha
    | some L =>
        rw [hPi, bind_some_neurons] at ha
        have hi : i < P.layers.length := (List.getElem?_eq_some.1 hPi).1
        obtain ⟨nxt3, hn3, hf3⟩ := n3_layer_hidden P i L h1 (by rw [hPlen]; exact h2) hPi
        have hNi1 : N.layers[i + 1]? = some
            ({ nxt3 with neurons := nxt3.neurons.map (biasUpdate lr) }) := by
          rw [hN, updateBiases_getElem?, updateWeights_layers, hn3]
          simp only [Option.map_some']
          rw [if_neg (Nat.succ_ne_zero i)]
        have hNi : N.layers[i]? = some
            ({ L with neurons := ((L.neurons.map
                (backNeuron P.connections nxt3
                  (activationDerivatives P.activationFunction))).map
                (biasUpdate lr)) }) := by
          rw [hN, updateBiases_getElem?, updateWeights_layers, hf3]
          simp only [Option.map_some']
          rw [if_neg (by omega : ¬ i = 0)]
        refine ⟨_, biasUpdate lr (backNeuron P.connections nxt3
            (activationDerivatives P.activationFunction) a), hNi1, ?_, ?_⟩
        · rw [hNi, bind_some_neurons, List.getElem?_map, List.getElem?_map, ha]
          simp only [Option.map_some']
        · rw [biasUpdate_delta, backNeuron_delta, hPconn, hPaf]
          have hds : hiddenErrorSum net.connections nxt3 a =
              downstreamSum net.connections
                ({ nxt3 with neurons := nxt3.neurons.map (biasUpdate lr) }) a := by
            rw [hiddenErrorSum_eq_downstreamSum net.connections nxt3 a
              (n3_deltas_isSome P (i + 1) nxt3 (by omega)
                (by rw [hPlen]; omega) hn3)]
            exact downstreamSum_congr net.connections nxt3 _ a
              ((map_noBiasView_biasUpdate lr nxt3.neurons).symm)
          rw [hds]
  · intro k c hc
    have hck : N.connections[k]? = some
        (applyWeightUpdate (backwardPass (outputPass P)) lr c) := by
      rw [hNconn, List.getElem?_map, hc]
      rfl
    obtain ⟨hid, hfrom, hto⟩ := applyWeightUpdate_ids (backwardPass (outputPass P)) lr c
    refine ⟨_, hck, hid, hfrom, hto, ?_⟩
    cases h1 : idLookup (backwardPass (outputPass P)) c.fromNeuronId with
    | none =>
        refine Or.inr ⟨applyWeightUpdate_untouched _ lr c (Or.inl h1), Or.inl ?_⟩
        have hx := hlook c.fromNeuronId
        rw [h1] at hx
        exact Option.map_eq_none'.mp hx
    | some f3 =>
        cases h2 : idLookup (backwardPass (outputPass P)) c.toNeuronId with
        | none =>
            refine Or.inr ⟨applyWeightUpdate_untouched _ lr c (Or.inr (Or.inl h2)),
              Or.inr (Or.inl ?_)⟩
            have hx := hlook c.toNeuronId
            rw [h2] at hx
            exact Option.map_eq_none'.mp hx
        | some t3 =>
            have hxt := hlook c.toNeuronId
            rw [h2] at hxt
            obtain ⟨t, ht, hvt⟩ := Option.map_eq_some'.mp hxt
            have htd : t.delta = t3.delta := congrArg (fun v => v.2.2.2.2) hvt
            cases h3 : t3.delta with
            | none =>
                refine Or.inr ⟨applyWeightUpdate_untouched _ lr c
                  (Or.inr (Or.inr ⟨t3, h2, Or.inl h3⟩)),
                  Or.inr (Or.inr ⟨t, ht, Or.inl ?_⟩)⟩
                rw [htd, h3]
            | some dv =>
                by_cases h0 : dv = 0
                · subst h0
                  refine Or.inr ⟨applyWeightUpdate_untouched _ lr c
                    (Or.inr (Or.inr ⟨t3, h2, Or.inr h3⟩)),
                    Or.inr (Or.inr ⟨t, ht, Or.inr ?_⟩)⟩
                  rw [htd, h3]
                · have hxf := hlook c.fromNeuronId
                  rw [h1] at hxf
                  obtain ⟨f, hf, hvf⟩ := Option.map_eq_some'.mp hxf
                  have hfa : f.activation = f3.activation :=
                    congrArg (fun v => v.2.1) hvf
                  obtain ⟨hg, hw⟩ :=
                    applyWeightUpdate_of_found _ lr c f3 t3 dv h1 h2 h3 h0
                  refine Or.inl ⟨f, t, dv, hf, ht, ?_, h0, ?_, ?_⟩
                  · rw [htd, h3]
                  · rw [hg, hfa]
                  · rw [hw, hfa]
  · intro i j a b h1 ha hb
    cases hPi : P.layers[i]? with
    | none => rw [hPi] at ha; simp at ha
    | some L =>
        rw [hPi, bind_some_neurons] at ha
        have hi : i < P.layers.length := (List.getElem?_eq_some.1 hPi).1
        have key : ∃ a3 : Neuron, a3.bias = a.bias ∧
            N.layers[i]?.bind (fun l => l.neurons[j]?) = some (biasUpdate lr a3) := by
          rcases Nat.lt_or_ge i (P.layers.length - 1) with hlt | hge
          · obtain ⟨nxt3, hn3, hf3⟩ :=
              n3_layer_hidden P i L h1 (by omega) hPi
            have hNi : N.layers[i]? = some
                ({ L with neurons := ((L.neurons.map
                    (backNeuron P.connections nxt3
                      (activationDerivatives P.activationFunction))).map
                    (biasUpdate lr)) }) := by
              rw [hN, updateBiases_getElem?, updateWeights_layers, hf3]
              simp only [Option.map_some']
              rw [if_neg (by omega : ¬ i = 0)]
            refine ⟨backNeuron P.connections nxt3
                (activationDerivatives P.activationFunction) a,
              backNeuron_bias _ _ _ a, ?_⟩
            rw [hNi, bind_some_neurons, List.getElem?_map, List.getElem?_map, ha]
            simp only [Option.map_some']
          · have hieq : i = P.layers.length - 1 := by omega
            subst hieq
            have hf := n3_layer_output P L hPi
            by_cases h0 : P.layers.length - 1 = 0
            · omega
            · have hNi : N.layers[P.layers.length - 1]? = some
                  ({ L with neurons := ((L.neurons.map (outputNeuronUpdate
                      (activationDerivatives P.activationFunction))).map
                      (biasUpdate lr)) }) := by
                rw [hN, updateBiases_getElem?, updateWeights_layers, hf]
                simp only [Option.map_some']
                rw [if_neg h0]
              refine ⟨outputNeuronUpdate
                  (activationDerivatives P.activationFunction) a,
                outputNeuronUpdate_bias _ a, ?_⟩
              rw [hNi, bind_some_neurons, List.getElem?_map, List.getElem?_map, ha]
              simp only [Option.map_some']
        obtain ⟨a3, hbias3, hkey⟩ := key
        rw [hkey] at hb
        obtain rfl := Option.some.inj hb
        constructor
        · intro dv hdv
          rw [biasUpdate_delta] at hdv
          rw [biasUpdate_bias, hdv]
          dsimp only
          rw [hbias3]
          by_cases h0 : dv = 0
          · rw [if_pos h0, h0]
            ring
          · rw [if_neg h0]
        · intro hdn
          rw [biasUpdate_delta] at hdn
          rw [biasUpdate_bias, hdn]
          exact hbias3
  · intro hlen2 j a b ha hb
    have h0 : N.layers[0]? = P.layers[0]? := by
      rw [hN, updateBiases_getElem?, updateWeights_layers,
        n3_layer_zero P (by rw [hPlen]; exact hlen2)]
      cases hP0 : P.layers[0]? <;> rfl
    rw [h0, ha] at hb
    obtain rfl := Option.some.inj hb
    exact ⟨rfl, rfl, rfl, rfl⟩

/-- Two singleton layers (neuron ids 0 and 1) joined by the single connection
0→1 of weight 1; relu activation, input activation 1, output target 1, all
biases 0.  After the forward pass the output activation is relu(1) = 1, so
the output error is 0 and the computed output delta is 0. -/
def deltaZeroNet : NeuralNetwork :=
  { layers :=
      [ { id := 0, neurons := [{ mkNeuron 0 0 0 with activation := 1 }] },
        { id := 1, neurons := [{ mkNeuron 1 1 0 with target := some 1 }] } ],
    connections := [mkConn 20 0 1 1],
    activationFunction := .relu }

/-- C4 counterexample: on `deltaZeroNet` the training step computes the
output neuron's delta (it equals 0 because target and activation are both 1),
yet the connection into it keeps `gradient = none`: the source guards the
weight update with JavaScript truthiness (`toNeuron.delta`), so a computed
zero delta skips the update, refuting the claim that every connection whose
destination has a computed delta gets `gradient = source activation *
destination delta` (here `some (1 * 0)`). -/
theorem claimC4_counterexample :
    ∃ N loss, runTrainingStep deltaZeroNet 1 = some (N, loss) ∧
      ((N.layers[1]?.bind (fun l => l.neurons[0]?)).map Neuron.delta) =
        some (some 0) ∧
      N.connections.map Connection.gradient = [none] ∧
      ([(none : Option ℝ)] ≠ [some ((1 : ℝ) * 0)]) := by
  refine ⟨_, _, runTrainingStep_some deltaZeroNet 1 _ rfl, ?_, ?_, by simp⟩
  · simp [updateBiases, idxMap, idxMapFrom, updateWeights, backwardPass,
      backpropFrom, outputPass, modifyLayer, forwardUpTo, stepLayer, fwdNeuron,
      weightedInput, deltaZeroNet, biasUpdate, applyWeightUpdate, idLookup,
      allNeurons, outputNeuronUpdate, backNeuron, hiddenErrorSum,
      activationFunctions, activationDerivatives, relu, reluDerivative,
      mkNeuron, mkConn]
  · simp [updateBiases, idxMap, idxMapFrom, updateWeights, backwardPass,
      backpropFrom, outputPass, modifyLayer, forwardUpTo, stepLayer, fwdNeuron,
      weightedInput, deltaZeroNet, biasUpdate, applyWeightUpdate, idLookup,
      allNeurons, outputNeuronUpdate, backNeuron, hiddenErrorSum,
      activationFunctions, activationDerivatives, relu, reluDerivative,
      mkNeuron, mkConn]

/-- Witness for C4: the corrected training-step theorem applied to the seed
network with learning rate 1 (hypotheses discharged by computation). -/
theorem claimC4_training_step_witness :
    (updateBiases (updateWeights (backwardPass (outputPass (forwardUpTo
        getInitialNetwork (getInitialNetwork.layers.length - 1)))) 1) 1).layers.length =
      getInitialNetwork.layers.length :=
  (claimC4_training_step getInitialNetwork 1 _ _ _
    (runForwardPropagation_none_eq getInitialNetwork)
    (runTrainingStep_some getInitialNetwork 1 _ rfl)).1

theorem idxMapFrom_map (f : Nat → α → β) (g : β → γ) :
    ∀ (l : List α) (k : Nat),
      (idxMapFrom f k l).map g = idxMapFrom (fun i a => g (f i a)) k l
  | [], _ => rfl
  | a :: as, k => by
      simp only [idxMapFrom, List.map_cons]
      rw [idxMapFrom_map f g as (k + 1)]

theorem idxMapFrom_proj (f : Nat → α → β) (g : β → α) (hg : ∀ i a, g (f i a) = a) :
    ∀ (l : List α) (k : Nat), (idxMapFrom f k l).map g = l
  | [], _ => rfl
  | a :: as, k => by
      simp only [idxMapFrom, List.map_cons]
      rw [hg, idxMapFrom_proj f g hg as (k + 1)]

theorem mem_idxMapFrom (f : Nat → α → β) :
    ∀ (l : List α) (k : Nat) (b : β), b ∈ idxMapFrom f k l →
      ∃ i a, a ∈ l ∧ b = f i a
  | [], _, b, h => by cases h
  | a :: as, k, b, h => by
      rw [idxMapFrom, List.mem_cons] at h
      rcases h with h | h
      · exact ⟨k, a, List.mem_cons_self a as, h⟩
      · obtain ⟨i, a2, ha2, hb⟩ := mem_idxMapFrom f as (k + 1) b h
        exact ⟨i, a2, List.mem_cons_of_mem a ha2, hb⟩

theorem idxMapFrom_any (f : Nat → α → β) (p : β → Bool) (q : α → Bool)
    (hf : ∀ i a, p (f i a) = q a) :
    ∀ (l : List α) (k : Nat), (idxMapFrom f k l).any p = l.any q
  | [], _ => rfl
  | a :: as, k => by
      simp only [idxMapFrom, List.any_cons]
      rw [hf, idxMapFrom_any f p q hf as (k + 1)]

theorem findIdx?_set_congr (p : α → Bool) :
    ∀ (l : List α) (k : Nat) (a : α),
      (∀ (hk : k < l.length), p a = p (l.get ⟨k, hk⟩)) →
      (l.set k a).findIdx? p = l.findIdx? p
  | [], _, _, _ => rfl
  | x :: xs, 0, a, h => by
      have hx : p a = p x := h (Nat.succ_pos _)
      simp only [List.set_cons_zero, List.findIdx?_cons, hx]
  | x :: xs, k + 1, a, h => by
      simp only [List.set_cons_succ, List.findIdx?_cons, List.findIdx?_succ]
      rw [findIdx?_set_congr p xs k a (fun hk => h (Nat.succ_lt_succ hk))]

/-- The ids of a layer's neurons, in order. -/
def rowIds (l : Layer) : List Nat := l.neurons.map Neuron.id

/-- The per-layer id lists of the whole network. -/
def idRows (net : NeuralNetwork) : List (List Nat) := net.layers.map rowIds

theorem layerIdxOf_rows (net : NeuralNetwork) (x : Nat) :
    layerIdxOf net x = (idRows net).findIdx? (fun r => r.any (fun y => y == x)) := by
  unfold layerIdxOf idRows rowIds
  rw [List.findIdx?_map]
  congr 1
  funext l
  show (l.neurons.any fun n => n.id == x) =
    (l.neurons.map Neuron.id).any (fun y => y == x)
  induction l.neurons with
  | nil => rfl
  | cons a as ih => simp only [List.any_cons, List.map_cons, ih]

theorem uniqueNeuronIds_rows (net : NeuralNetwork) :
    UniqueNeuronIds net ↔ ((idRows net).flatten).Nodup := by
  unfold UniqueNeuronIds allNeurons idRows rowIds
  rw [List.map_flatten, List.map_map]
  exact Iff.rfl

theorem idRows_length (net : NeuralNetwork) :
    (idRows net).length = net.layers.length := List.length_map _ _

theorem idRows_getElem (net : NeuralNetwork) (j : Nat) (hj : j < net.layers.length) :
    (idRows net).get ⟨j, by rw [idRows_length]; exact hj⟩ =
      rowIds (net.layers.get ⟨j, hj⟩) := by
  simp [idRows]

theorem rows_disjoint (net : NeuralNetwork) (hU : UniqueNeuronIds net) (i j : Nat)
    (hij : i < j) (hj : j < net.layers.length) (x : Nat)
    (hxi : x ∈ rowIds (net.layers.get ⟨i, Nat.lt_trans hij hj⟩))
    (hxj : x ∈ rowIds (net.layers.get ⟨j, hj⟩)) : False := by
  have h := (uniqueNeuronIds_rows net).1 hU
  rw [List.nodup_flatten] at h
  have hp := List.pairwise_iff_getElem.1 h.2 i j
    (by rw [idRows_length]; exact Nat.lt_trans hij hj)
    (by rw [idRows_length]; exact hj) hij
  simp only [idRows, List.getElem_map] at hp
  exact hp (by simpa using hxi) (by simpa using hxj)

theorem row_nodup (net : NeuralNetwork) (hU : UniqueNeuronIds net) (j : Nat)
    (hj : j < net.layers.length) : (rowIds (net.layers.get ⟨j, hj⟩)).Nodup := by
  have h := (uniqueNeuronIds_rows net).1 hU
  rw [List.nodup_flatten] at h
  have := h.1 (rowIds (net.layers.get ⟨j, hj⟩)) ?_
  · exact this
  · rw [← idRows_getElem]
    apply List.get_mem

theorem any_beq_iff (r : List Nat) (x : Nat) :
    (r.any (fun y => y == x)) = true ↔ x ∈ r := by
  simp [List.any_eq_true]

theorem layerIdxOf_unique (net : NeuralNetwork) (hU : UniqueNeuronIds net)
    (j : Nat) (hj : j < net.layers.length) (x : Nat)
    (hx : x ∈ rowIds (net.layers.get ⟨j, hj⟩)) : layerIdxOf net x = some j := by
  rw [layerIdxOf_rows, List.findIdx?_eq_some_iff_getElem]
  refine ⟨by rw [idRows_length]; exact hj, ?_, ?_⟩
  · simp only [idRows, List.getElem_map]
    exact (any_beq_iff _ x).2 (by simpa using hx)
  · intro k hk h
    simp only [idRows, List.getElem_map] at h
    exact rows_disjoint net hU k j hk hj x
      (by simpa using (any_beq_iff _ x).1 h) hx

theorem mem_allNeurons_of (net : NeuralNetwork) (j : Nat) (hj : j < net.layers.length)
    (n : Neuron) (hn : n ∈ (net.layers.get ⟨j, hj⟩).neurons) : n ∈ allNeurons net := by
  unfold allNeurons
  rw [List.mem_flatten]
  exact ⟨(net.layers.get ⟨j, hj⟩).neurons,
    List.mem_map.2 ⟨_, by apply List.get_mem, rfl⟩, hn⟩

theorem fresh_not_in_row (net : NeuralNetwork) (y : Nat) (hF : FreshId net y)
    (j : Nat) (hj : j < net.layers.length) :
    y ∉ rowIds (net.layers.get ⟨j, hj⟩) := by
  intro hy
  rw [rowIds, List.mem_map] at hy
  obtain ⟨n, hn, hid⟩ := hy
  exact hF.1 n (mem_allNeurons_of net j hj n hn) hid

theorem idLookup_pos (net : NeuralNetwork) (x : Nat) (n : Neuron)
    (h : idLookup net x = some n) :
    n.id = x ∧ ∃ j, ∃ (hj : j < net.layers.length),
      n ∈ (net.layers.get ⟨j, hj⟩).neurons := by
  unfold idLookup at h
  have hmem := List.mem_of_find?_eq_some h
  have hpred := List.find?_some h
  refine ⟨by simpa using hpred, ?_⟩
  unfold allNeurons at hmem
  rw [List.mem_flatten] at hmem
  obtain ⟨ns, hns, hn⟩ := hmem
  rw [List.mem_map] at hns
  obtain ⟨l, hl, rfl⟩ := hns
  obtain ⟨j, hj, rfl⟩ := List.mem_iff_getElem.1 hl
  exact ⟨j, hj, by simpa using hn⟩

theorem pairs_eq_product (as bs : List Neuron) :
    (as.flatMap (fun p => bs.map (fun q => (p.id, q.id)))) =
      (as.map Neuron.id) ×ˢ (bs.map Neuron.id) := by
  show _ = (as.map Neuron.id).flatMap (fun a => (bs.map Neuron.id).map (Prod.mk a))
  rw [List.flatMap_map]
  congr 1
  funext p
  rw [List.map_map]
  rfl

theorem nodup_all_eq (ids : List Nat) (v : Nat) (h2 : 2 ≤ ids.length)
    (hall : ∀ y ∈ ids, y = v) (hnd : ids.Nodup) : False := by
  cases ids with
  | nil => simp at h2
  | cons a t =>
      cases t with
      | nil => simp at h2
      | cons b t2 =>
          have ha := hall a (by simp)
          have hb := hall b (by simp)
          rw [List.nodup_cons] at hnd
          exact hnd.1 (by rw [ha, ← hb]; simp)

theorem any_filter_ne_id (l : List Neuron) (nid x : Nat) (hx : x ≠ nid) :
    ((l.filter (fun n => n.id != nid)).any (fun n => n.id == x)) =
      (l.any (fun n => n.id == x)) := by
  induction l with
  | nil => rfl
  | cons a as ih =>
      by_cases ha : a.id = nid
      · rw [List.filter_cons_of_neg (by simp [ha])]
        rw [List.any_cons]
        have hax : (a.id == x) = false := by
          rw [beq_eq_false_iff_ne, ha]
          exact Ne.symm hx
        rw [hax, Bool.false_or, ih]
      · rw [List.filter_cons_of_pos (by simpa [bne_iff_ne] using ha)]
        rw [List.any_cons, List.any_cons, ih]

theorem idxMapFrom_reindex_map (ns : List Neuron) : ∀ (k : Nat),
    ((idxMapFrom (fun i n => { n with neuronIndex := i }) k ns).map
      Neuron.neuronIndex) = List.range' k ns.length := by
  induction ns with
  | nil => intro k; rfl
  | cons a as ih =>
      intro k
      simp only [idxMapFrom, List.map_cons, List.length_cons]
      rw [ih (k + 1)]
      rfl

theorem deleteConnection_claimedInvariant (net : NeuralNetwork)
    (hC : ClaimedInvariant net) (cid : Nat) :
    ClaimedInvariant (deleteConnection net cid) := by
  obtain ⟨h1, h2, h3, h4, h5⟩ := hC
  refine ⟨h1, h2, h3, h4, ?_⟩
  intro c hc
  exact h5 c (List.mem_of_mem_filter hc)

theorem deleteConnection_noDupPairs (net : NeuralNetwork) (hN : NoDupPairs net)
    (cid : Nat) : NoDupPairs (deleteConnection net cid) := by
  unfold NoDupPairs connPairs at hN ⊢
  exact List.Nodup.sublist (List.Sublist.map _ (List.filter_sublist _)) hN

/-- The per-layer transform inside `removeNeuron` (named for reuse in the
invariant proofs; definitionally the lambda of the source). -/
def removeNeuronLayer (neuronId : Nat) (layer : Layer) : Layer :=
  if layer.neurons.any (fun n => n.id == neuronId) then
    if layer.neurons.length = 1 then layer
    else
      { layer with neurons := (idxMap (fun nIndex n => { n with neuronIndex := nIndex })
          (layer.neurons.filter (fun n => n.id != neuronId))) }
  else layer

theorem removeNeuron_layers_eq (net : NeuralNetwork) (neuronId : Nat) :
    (removeNeuron net neuronId).layers = net.layers.map (removeNeuronLayer neuronId) := rfl

theorem removeNeuronLayer_cases (neuronId : Nat) (layer : Layer) :
    (removeNeuronLayer neuronId layer) = layer ∨
    ((removeNeuronLayer neuronId layer) = { layer with neurons :=
        (idxMap (fun nIndex n => { n with neuronIndex := nIndex })
          (layer.neurons.filter (fun n => n.id != neuronId))) } ∧
      layer.neurons.length ≠ 1) := by
  unfold removeNeuronLayer
  by_cases h1 : layer.neurons.any (fun n => n.id == neuronId)
  · rw [if_pos h1]
    by_cases h2 : layer.neurons.length = 1
    · rw [if_pos h2]
      exact Or.inl rfl
    · rw [if_neg h2]
      exact Or.inr ⟨rfl, h2⟩
  · rw [if_neg h1]
    exact Or.inl rfl

theorem removeNeuron_layerIdxOf (net : NeuralNetwork) (nid x : Nat) (hx : x ≠ nid) :
    layerIdxOf (removeNeuron net nid) x = layerIdxOf net x := by
  unfold removeNeuron layerIdxOf
  dsimp only
  rw [List.findIdx?_map]
  congr 1
  funext l
  dsimp only [Function.comp]
  by_cases h1 : l.neurons.any (fun n => n.id == nid)
  · rw [if_pos h1]
    by_cases h2 : l.neurons.length = 1
    · rw [if_pos h2]
    · rw [if_neg h2]
      dsimp only
      rw [idxMap, idxMapFrom_any _ _ (fun n => n.id == x) (fun i n => rfl)]
      exact any_filter_ne_id l.neurons nid x hx
  · rw [if_neg h1]

theorem removeNeuron_noDupPairs (net : NeuralNetwork) (hN : NoDupPairs net)
    (nid : Nat) : NoDupPairs (removeNeuron net nid) := by
  unfold NoDupPairs connPairs at hN ⊢
  exact List.Nodup.sublist (List.Sublist.map _ (List.filter_sublist _)) hN

theorem removeNeuron_claimedInvariant (net : NeuralNetwork) (hDM : DMInvariant net)
    (nid : Nat) : ClaimedInvariant (removeNeuron net nid) := by
  obtain ⟨⟨h1, h2, h3, h4, h5⟩, hU, hUL, hND⟩ := hDM
  refine ⟨?_, ?_, ?_, ?_, ?_⟩
  · -- NonemptyLayers
    intro l' hl'
    rw [removeNeuron_layers_eq, List.mem_map] at hl'
    obtain ⟨l, hl, rfl⟩ := hl'
    obtain ⟨j, hj, hlj⟩ := List.mem_iff_getElem.1 hl
    rcases removeNeuronLayer_cases nid l with hcase | ⟨hcase, hlen1⟩
    · rw [hcase]
      exact h1 l hl
    · rw [hcase]
      dsimp only
      intro hnil
      have hlenge : 0 < l.neurons.length := List.length_pos.2 (h1 l hl)
      have hfilnil : (l.neurons.filter (fun n => n.id != nid)) = [] := by
        have hlen := congrArg List.length hnil
        rw [idxMap, idxMapFrom_length] at hlen
        exact List.eq_nil_of_length_eq_zero (by simpa using hlen)
      rw [List.filter_eq_nil_iff] at hfilnil
      refine nodup_all_eq (rowIds l) nid ?_ ?_ ?_
      · rw [rowIds, List.length_map]
        omega
      · intro y hy
        rw [rowIds, List.mem_map] at hy
        obtain ⟨n, hn, rfl⟩ := hy
        simpa [bne_iff_ne] using hfilnil n hn
      · have hrn := row_nodup net hU j hj
        rw [show net.layers.get ⟨j, hj⟩ = l from hlj] at hrn
        exact hrn
  · -- LayerCountOK
    have hlen : (removeNeuron net nid).layers.length = net.layers.length := by
      rw [removeNeuron_layers_eq, List.length_map]
    unfold LayerCountOK
    rw [hlen]
    exact h2
  · -- LayerIndexOK
    intro i hi n hn
    have hi2 : i < net.layers.length := by
      have h := hi
      rw [removeNeuron_layers_eq, List.length_map] at h
      exact h
    have h1q : (removeNeuron net nid).layers[i]? =
        some (removeNeuronLayer nid (net.layers.get ⟨i, hi2⟩)) := by
      rw [removeNeuron_layers_eq, List.getElem?_map,
        List.getElem?_eq_getElem hi2, Option.map_some']
      rfl
    have hv := Option.some.inj (h1q.symm.trans (List.getElem?_eq_getElem hi))
    rw [← hv] at hn
    rcases removeNeuronLayer_cases nid (net.layers.get ⟨i, hi2⟩) with
      hcase | ⟨hcase, hrest⟩
    · rw [hcase] at hn
      exact h3 i hi2 n hn
    · rw [hcase] at hn
      dsimp only at hn
      rw [idxMap] at hn
      obtain ⟨k, n2, hn2, rfl⟩ := mem_idxMapFrom _ _ _ n hn
      exact h3 i hi2 n2 (List.mem_of_mem_filter hn2)
  · -- NeuronIndexOK
    intro l' hl'
    rw [removeNeuron_layers_eq, List.mem_map] at hl'
    obtain ⟨l, hl, rfl⟩ := hl'
    rcases removeNeuronLayer_cases nid l with hcase | ⟨hcase, hrest⟩
    · rw [hcase]
      exact h4 l hl
    · rw [hcase]
      show (idxMap (fun nIndex n => { n with neuronIndex := nIndex })
          (l.neurons.filter (fun n => n.id != nid))).map Neuron.neuronIndex =
        List.range (idxMap (fun nIndex n => { n with neuronIndex := nIndex })
          (l.neurons.filter (fun n => n.id != nid))).length
      rw [idxMap, idxMapFrom_reindex_map, idxMapFrom_length, List.range_eq_range']
  · -- ConnLayersOK
    intro c hc
    have hcm : c ∈ net.connections := List.mem_of_mem_filter hc
    have hpred := List.of_mem_filter hc
    rw [Bool.and_eq_true, bne_iff_ne, bne_iff_ne] at hpred
    obtain ⟨li, lj, hli, hlj, hlt⟩ := h5 c hcm
    exact ⟨li, lj,
      by rw [removeNeuron_layerIdxOf net nid _ hpred.1]; exact hli,
      by rw [removeNeuron_layerIdxOf net nid _ hpred.2]; exact hlj, hlt⟩

theorem createConnection_claimedInvariant (net : NeuralNetwork)
    (hDM : DMInvariant net) (f t newId : Nat) (r : ℝ) :
    ClaimedInvariant (createConnection net f t newId r) := by
  obtain ⟨⟨h1, h2, h3, h4, h5⟩, hU, hUL, hND⟩ := hDM
  unfold createConnection
  cases hf : idLookup net f with
  | none => exact ⟨h1, h2, h3, h4, h5⟩
  | some fn =>
      cases ht : idLookup net t with
      | none => exact ⟨h1, h2, h3, h4, h5⟩
      | some tn =>
          dsimp only
          by_cases hle : tn.layerIndex ≤ fn.layerIndex
          · rw [if_pos hle]
            exact ⟨h1, h2, h3, h4, h5⟩
          · rw [if_neg hle]
            by_cases hdup : (net.connections.any (fun c =>
                c.fromNeuronId == f && c.toNeuronId == t)) = true
            · rw [if_pos hdup]
              exact ⟨h1, h2, h3, h4, h5⟩
            · rw [if_neg hdup]
              refine ⟨h1, h2, h3, h4, ?_⟩
              intro c hc
              rw [List.mem_append] at hc
              rcases hc with hc | hc
              · exact h5 c hc
              · rw [List.mem_singleton] at hc
                subst hc
                obtain ⟨hfid, jf, hjf, hfmem⟩ := idLookup_pos net f fn hf
                obtain ⟨htid, jt, hjt, htmem⟩ := idLookup_pos net t tn ht
                have hlf : fn.layerIndex = jf := h3 jf hjf fn (by simpa using hfmem)
                have hlt2 : tn.layerIndex = jt := h3 jt hjt tn (by simpa using htmem)
                refine ⟨jf, jt, ?_, ?_, by omega⟩
                · exact layerIdxOf_unique net hU jf hjf f
                    (by rw [rowIds]; exact List.mem_map.2 ⟨fn, by simpa using hfmem, hfid⟩)
                · exact layerIdxOf_unique net hU jt hjt t
                    (by rw [rowIds]; exact List.mem_map.2 ⟨tn, by simpa using htmem, htid⟩)

theorem createConnection_noDupPairs (net : NeuralNetwork) (hND : NoDupPairs net)
    (f t newId : Nat) (r : ℝ) :
    NoDupPairs (createConnection net f t newId r) := by
  unfold createConnection
  cases hf : idLookup net f with
  | none => exact hND
  | some fn =>
      cases ht : idLookup net t with
      | none => exact hND
      | some tn =>
          dsimp only
          by_cases hle : tn.layerIndex ≤ fn.layerIndex
          · rw [if_pos hle]
            exact hND
          · rw [if_neg hle]
            by_cases hdup : (net.connections.any (fun c =>
                c.fromNeuronId == f && c.toNeuronId == t)) = true
            · rw [if_pos hdup]
              exact hND
            · rw [if_neg hdup]
              unfold NoDupPairs connPairs at hND ⊢
              dsimp only
              rw [List.map_append, List.nodup_append]
              refine ⟨hND, by simp, ?_⟩
              intro pr hpr hpr2
              simp only [List.map_cons, List.map_nil, List.mem_singleton] at hpr2
              subst hpr2
              rw [List.mem_map] at hpr
              obtain ⟨c, hc, hcp⟩ := hpr
              apply hdup
              rw [List.any_eq_true]
              refine ⟨c, hc, ?_⟩
              have h1 : c.fromNeuronId = f := congrArg Prod.fst hcp
              have h2 : c.toNeuronId = t := congrArg Prod.snd hcp
              rw [Bool.and_eq_true, beq_iff_eq, beq_iff_eq]
              exact ⟨h1, h2⟩

theorem any_id_iff (ns : List Neuron) (x : Nat) :
    (ns.any (fun n => n.id == x)) = true ↔ x ∈ ns.map Neuron.id := by
  simp [List.any_eq_true]

theorem fresh_any_false (net : NeuralNetwork) (y : Nat) (hF : FreshId net y)
    (j : Nat) (hj : j < net.layers.length) :
    (((net.layers.get ⟨j, hj⟩).neurons.any (fun n => n.id == y))) = false := by
  rw [Bool.eq_false_iff]
  intro hcontra
  exact fresh_not_in_row net y hF j hj ((any_id_iff _ y).1 hcontra)

theorem getElem?_get_eq (net : NeuralNetwork) (k : Nat) (L : Layer)
    (hL : net.layers[k]? = some L) (hk : k < net.layers.length) :
    net.layers.get ⟨k, hk⟩ = L := by
  have h2 := List.getElem?_eq_getElem hk
  rw [hL] at h2
  exact (Option.some.inj h2).symm

theorem layerIdxOf_set_append (net : NeuralNetwork) (k : Nat) (L : Layer)
    (hL : net.layers[k]? = some L) (nn : Neuron) (x : Nat) (hx : x ≠ nn.id) :
    (List.findIdx? (fun l => l.neurons.any (fun n => n.id == x))
        (net.layers.set k { L with neurons := L.neurons ++ [nn] })) =
      layerIdxOf net x := by
  unfold layerIdxOf
  apply findIdx?_set_congr
  intro hk
  rw [getElem?_get_eq net k L hL hk]
  show ((L.neurons ++ [nn]).any fun n => n.id == x) = (L.neurons.any fun n => n.id == x)
  rw [List.any_append]
  have hnn : ([nn].any fun n => n.id == x) = false := by
    simp only [List.any_cons, List.any_nil, Bool.or_false]
    rw [beq_eq_false_iff_ne]
    exact fun h => hx h.symm
  rw [hnn, Bool.or_false]

theorem layerIdxOf_set_append_new (net : NeuralNetwork) (k : Nat) (L : Layer)
    (hL : net.layers[k]? = some L) (nn : Neuron) (hF : FreshId net nn.id) :
    (List.findIdx? (fun l => l.neurons.any (fun n => n.id == nn.id))
        (net.layers.set k { L with neurons := L.neurons ++ [nn] })) = some k := by
  have hk : k < net.layers.length := (List.getElem?_eq_some.1 hL).1
  rw [List.findIdx?_eq_some_iff_getElem]
  refine ⟨by rw [List.length_set]; exact hk, ?_, ?_⟩
  · rw [List.getElem_set, if_pos rfl]
    show ((L.neurons ++ [nn]).any fun n => n.id == nn.id) = true
    rw [List.any_append]
    simp
  · intro j hj
    rw [List.getElem_set, if_neg (by omega)]
    intro hcontra
    have hjlt : j < net.layers.length := by omega
    exact fresh_not_in_row net nn.id hF j hjlt
      ((any_id_iff _ nn.id).1 (by simpa using hcontra))

theorem nodup_pairs_left (ids : List Nat) (v : Nat) (hnd : ids.Nodup) :
    (ids.map (fun a => (a, v))).Nodup :=
  hnd.map (fun a b h => congrArg Prod.fst h)

theorem nodup_pairs_right (ids : List Nat) (v : Nat) (hnd : ids.Nodup) :
    (ids.map (fun a => (v, a))).Nodup :=
  hnd.map (fun a b h => congrArg Prod.snd h)

theorem nodup_new_pairs (net : NeuralNetwork) (hND : NoDupPairs net)
    (newId : Nat) (hF : FreshId net newId)
    (pin pout : List (Nat × Nat))
    (hin : ∀ pr ∈ pin, pr.2 = newId ∧ ∃ n ∈ allNeurons net, n.id = pr.1)
    (hout : ∀ pr ∈ pout, pr.1 = newId)
    (hinnd : pin.Nodup) (houtnd : pout.Nodup) :
    (connPairs net ++ (pin ++ pout)).Nodup := by
  rw [List.nodup_append]
  refine ⟨hND, ?_, ?_⟩
  · rw [List.nodup_append]
    refine ⟨hinnd, houtnd, ?_⟩
    intro pr hpin hpout
    obtain ⟨n, hn, hnid⟩ := (hin pr hpin).2
    exact hF.1 n hn (by rw [hnid, hout pr hpout])
  · intro pr hpr hpr2
    rw [List.mem_append] at hpr2
    unfold connPairs at hpr
    rw [List.mem_map] at hpr
    obtain ⟨c, hc, rfl⟩ := hpr
    have hcf := hF.2 c hc
    rcases hpr2 with hp | hp
    · exact hcf.2 (hin _ hp).1
    · exact hcf.1 (hout _ hp)

theorem connPairs_idxMap_conn (cid : Nat → Nat) (rand : Nat → ℝ) :
    ∀ (prs : List (Nat × Nat)) (k0 : Nat),
    ((idxMapFrom (fun k pr =>
        { id := cid k, fromNeuronId := pr.1, toNeuronId := pr.2,
          weight := rand k * 2 - 1, gradient := none : Connection }) k0 prs).map
      (fun c => (c.fromNeuronId, c.toNeuronId))) = prs :=
  idxMapFrom_proj _ _ (fun i a => rfl)

theorem addNeuron_body_invariant (net : NeuralNetwork)
    (h1 : NonemptyLayers net) (h2 : LayerCountOK net) (h3 : LayerIndexOK net)
    (h4 : NeuronIndexOK net) (h5 : ConnLayersOK net) (hU : UniqueNeuronIds net)
    (layerIndex : Nat) (layer : Layer) (hL : net.layers[layerIndex]? = some layer)
    (nn : Neuron) (hnnli : nn.layerIndex = layerIndex)
    (hnnni : nn.neuronIndex = layer.neurons.length) (hF : FreshId net nn.id)
    (cid : Nat → Nat) (rand : Nat → ℝ) (pin pout : List (Nat × Nat))
    (hin : ∀ pr ∈ pin, ∃ j, ∃ (hj : j < net.layers.length), j + 1 = layerIndex ∧
      pr.1 ∈ rowIds (net.layers.get ⟨j, hj⟩) ∧ pr.2 = nn.id)
    (hout : ∀ pr ∈ pout, ∃ j, ∃ (hj : j < net.layers.length), j = layerIndex + 1 ∧
      pr.2 ∈ rowIds (net.layers.get ⟨j, hj⟩) ∧ pr.1 = nn.id) :
    ClaimedInvariant
      { layers := net.layers.set layerIndex { layer with neurons := layer.neurons ++ [nn] },
        connections := net.connections ++ (idxMap (fun k pr =>
          { id := cid k, fromNeuronId := pr.1, toNeuronId := pr.2,
            weight := rand k * 2 - 1, gradient := none : Connection }) (pin ++ pout)),
        activationFunction := net.activationFunction } := by
  have hk : layerIndex < net.layers.length := (List.getElem?_eq_some.1 hL).1
  refine ⟨?_, ?_, ?_, ?_, ?_⟩
  · -- NonemptyLayers
    intro l' hl'
    dsimp only at hl'
    rcases List.mem_or_eq_of_mem_set hl' with hmem | rfl
    · exact h1 l' hmem
    · dsimp only
      intro hcon
      have hlen := congrArg List.length hcon
      simp at hlen
  · -- LayerCountOK
    unfold LayerCountOK
    dsimp only
    rw [List.length_set]
    exact h2
  · -- LayerIndexOK
    intro i hi n hn
    dsimp only at hi hn
    rw [List.length_set] at hi
    rw [List.getElem_set] at hn
    by_cases hip : layerIndex = i
    · rw [if_pos hip] at hn
      dsimp only at hn
      rw [List.mem_append] at hn
      rcases hn with hn | hn
      · subst hip
        have hgl : net.layers.get ⟨layerIndex, hi⟩ = layer :=
          getElem?_get_eq net layerIndex layer hL hi
        refine h3 layerIndex hi n ?_
        rw [← hgl] at hn
        exact hn
      · rw [List.mem_singleton] at hn
        subst hn
        rw [hnnli]
        exact hip
    · rw [if_neg hip] at hn
      exact h3 i hi n hn
  · -- NeuronIndexOK
    intro l' hl'
    dsimp only at hl'
    rcases List.mem_or_eq_of_mem_set hl' with hmem | rfl
    · exact h4 l' hmem
    · show (layer.neurons ++ [nn]).map Neuron.neuronIndex =
        List.range (layer.neurons ++ [nn]).length
      rw [List.map_append, List.length_append]
      have hlmem : layer ∈ net.layers := List.getElem?_mem hL
      rw [h4 layer hlmem]
      simp only [List.map_cons, List.map_nil, List.length_cons, List.length_nil]
      rw [hnnni, ← List.range_succ]
  · -- ConnLayersOK
    intro c hc
    dsimp only at hc
    rw [List.mem_append] at hc
    rcases hc with hc | hc
    · obtain ⟨li, lj, hli, hlj, hlt⟩ := h5 c hc
      have hcf := hF.2 c hc
      refine ⟨li, lj, ?_, ?_, hlt⟩
      · exact (layerIdxOf_set_append net layerIndex layer hL nn
          c.fromNeuronId hcf.1).trans hli
      · exact (layerIdxOf_set_append net layerIndex layer hL nn
          c.toNeuronId hcf.2).trans hlj
    · rw [idxMap] at hc
      obtain ⟨k, pr, hpr, rfl⟩ := mem_idxMapFrom _ _ _ c hc
      rw [List.mem_append] at hpr
      rcases hpr with hpr | hpr
      · obtain ⟨j, hj, hjeq, hmem, hprid⟩ := hin pr hpr
        refine ⟨j, layerIndex, ?_, ?_, by omega⟩
        · have hne : pr.1 ≠ nn.id := by
            intro he
            exact fresh_not_in_row net nn.id hF j hj (he ▸ hmem)
          exact (layerIdxOf_set_append net layerIndex layer hL nn pr.1 hne).trans
            (layerIdxOf_unique net hU j hj pr.1 hmem)
        · show layerIdxOf _ pr.2 = some layerIndex
          rw [hprid]
          exact layerIdxOf_set_append_new net layerIndex layer hL nn hF
      · obtain ⟨j, hj, hjeq, hmem, hprid⟩ := hout pr hpr
        refine ⟨layerIndex, j, ?_, ?_, by omega⟩
        · show layerIdxOf _ pr.1 = some layerIndex
          rw [hprid]
          exact layerIdxOf_set_append_new net layerIndex layer hL nn hF
        · have hne : pr.2 ≠ nn.id := by
            intro he
            exact fresh_not_in_row net nn.id hF j hj (he ▸ hmem)
          exact (layerIdxOf_set_append net layerIndex layer hL nn pr.2 hne).trans
            (layerIdxOf_unique net hU j hj pr.2 hmem)

theorem addNeuronToLayer_claimedInvariant (net : NeuralNetwork) (hDM : DMInvariant net)
    (layerIndex newId : Nat) (cid : Nat → Nat) (rand : Nat → ℝ)
    (hF : FreshId net newId) :
    ClaimedInvariant (addNeuronToLayer net layerIndex newId cid rand) := by
  obtain ⟨⟨h1, h2, h3, h4, h5⟩, hU, hUL, hND⟩ := hDM
  unfold addNeuronToLayer
  cases hL : net.layers[layerIndex]? with
  | none => exact ⟨h1, h2, h3, h4, h5⟩
  | some layer =>
      dsimp only
      refine addNeuron_body_invariant net h1 h2 h3 h4 h5 hU layerIndex layer hL
        _ rfl rfl hF cid rand _ _ ?_ ?_
      · intro pr hpr
        by_cases hpos : 0 < layerIndex
        · rw [if_pos hpos] at hpr
          cases hPL : net.layers[layerIndex - 1]? with
          | none => rw [hPL] at hpr; simp at hpr
          | some prevL =>
              rw [hPL] at hpr
              rw [List.mem_map] at hpr
              obtain ⟨p, hp, rfl⟩ := hpr
              have hj := (List.getElem?_eq_some.1 hPL).1
              refine ⟨layerIndex - 1, hj, by omega, ?_, rfl⟩
              rw [getElem?_get_eq net _ prevL hPL hj, rowIds]
              exact List.mem_map.2 ⟨p, hp, rfl⟩
        · rw [if_neg hpos] at hpr
          simp at hpr
      · intro pr hpr
        by_cases hlt : layerIndex < net.layers.length - 1
        · rw [if_pos hlt] at hpr
          cases hNL : net.layers[layerIndex + 1]? with
          | none => rw [hNL] at hpr; simp at hpr
          | some nextL =>
              rw [hNL] at hpr
              rw [List.mem_map] at hpr
              obtain ⟨q, hq, rfl⟩ := hpr
              have hj := (List.getElem?_eq_some.1 hNL).1
              refine ⟨layerIndex + 1, hj, rfl, ?_, rfl⟩
              rw [getElem?_get_eq net _ nextL hNL hj, rowIds]
              exact List.mem_map.2 ⟨q, hq, rfl⟩
        · rw [if_neg hlt] at hpr
          simp at hpr

theorem addNeuronToLayer_noDupPairs (net : NeuralNetwork) (hDM : DMInvariant net)
    (layerIndex newId : Nat) (cid : Nat → Nat) (rand : Nat → ℝ)
    (hF : FreshId net newId) :
    NoDupPairs (addNeuronToLayer net layerIndex newId cid rand) := by
  obtain ⟨hC, hU, hUL, hND⟩ := hDM
  unfold addNeuronToLayer
  cases hL : net.layers[layerIndex]? with
  | none => exact hND
  | some layer =>
      dsimp only
      unfold NoDupPairs connPairs
      dsimp only
      rw [List.map_append, idxMap, connPairs_idxMap_conn]
      apply nodup_new_pairs net hND newId hF
      · intro pr hpr
        by_cases hpos : 0 < layerIndex
        · rw [if_pos hpos] at hpr
          cases hPL : net.layers[layerIndex - 1]? with
          | none => rw [hPL] at hpr; simp at hpr
          | some prevL =>
              rw [hPL] at hpr
              rw [List.mem_map] at hpr
              obtain ⟨p, hp, rfl⟩ := hpr
              have hj := (List.getElem?_eq_some.1 hPL).1
              exact ⟨rfl, p, mem_allNeurons_of net (layerIndex - 1) hj p
                (by rw [getElem?_get_eq net _ prevL hPL hj]; exact hp), rfl⟩
        · rw [if_neg hpos] at hpr
          simp at hpr
      · intro pr hpr
        by_cases hlt : layerIndex < net.layers.length - 1
        · rw [if_pos hlt] at hpr
          cases hNL : net.layers[layerIndex + 1]? with
          | none => rw [hNL] at hpr; simp at hpr
          | some nextL =>
              rw [hNL] at hpr
              rw [List.mem_map] at hpr
              obtain ⟨q, hq, rfl⟩ := hpr
              rfl
        · rw [if_neg hlt] at hpr
          simp at hpr
      · by_cases hpos : 0 < layerIndex
        · rw [if_pos hpos]
          cases hPL : net.layers[layerIndex - 1]? with
          | none => simp
          | some prevL =>
              have hj := (List.getElem?_eq_some.1 hPL).1
              have hmm : prevL.neurons.map (fun p => (p.id, newId)) =
                  (rowIds prevL).map (fun a => (a, newId)) := by
                rw [rowIds, List.map_map]
                rfl
              dsimp only
              rw [hmm]
              apply nodup_pairs_left
              have hrn := row_nodup net hU (layerIndex - 1) hj
              rw [getElem?_get_eq net _ prevL hPL hj] at hrn
              exact hrn
        · rw [if_neg hpos]
          simp
      · by_cases hlt : layerIndex < net.layers.length - 1
        · rw [if_pos hlt]
          cases hNL : net.layers[layerIndex + 1]? with
          | none => simp
          | some nextL =>
              have hj := (List.getElem?_eq_some.1 hNL).1
              have hmm : nextL.neurons.map (fun nx => (newId, nx.id)) =
                  (rowIds nextL).map (fun a => (newId, a)) := by
                rw [rowIds, List.map_map]
                rfl
              dsimp only
              rw [hmm]
              apply nodup_pairs_right
              have hrn := row_nodup net hU (layerIndex + 1) hj
              rw [getElem?_get_eq net _ nextL hNL hj] at hrn
              exact hrn
        · rw [if_neg hlt]
          simp

theorem any_id_map_preserve (g : Neuron → Neuron) (hg : ∀ n, (g n).id = n.id)
    (ns : List Neuron) (x : Nat) :
    ((ns.map g).any (fun n => n.id == x)) = (ns.any (fun n => n.id == x)) := by
  induction ns with
  | nil => rfl
  | cons a as ih => simp only [List.map_cons, List.any_cons, ih, hg]

theorem map_id_preserve (g : Neuron → Neuron) (hg : ∀ n, (g n).id = n.id)
    (ns : List Neuron) : (ns.map g).map Neuron.id = ns.map Neuron.id := by
  rw [List.map_map]
  exact List.map_congr_left (fun a _ => hg a)

theorem findIdx?_idxMapFrom (f : Nat → α → α) (p : α → Bool)
    (hf : ∀ i a, p (f i a) = p a) :
    ∀ (l : List α) (k : Nat), (idxMapFrom f k l).findIdx? p = l.findIdx? p
  | [], _ => rfl
  | a :: as, k => by
      simp only [idxMapFrom, List.findIdx?_cons, List.findIdx?_succ, hf]
      rw [findIdx?_idxMapFrom f p hf as (k + 1)]

theorem layerIdxOf_mem (net : NeuralNetwork) (x j : Nat)
    (h : layerIdxOf net x = some j) :
    ∃ (hj : j < net.layers.length), x ∈ rowIds (net.layers.get ⟨j, hj⟩) := by
  unfold layerIdxOf at h
  rw [List.findIdx?_eq_some_iff_getElem] at h
  obtain ⟨hj, hp, hlt⟩ := h
  exact ⟨hj, (any_id_iff _ x).1 (by simpa using hp)⟩

theorem findIdx?_take_old (net : NeuralNetwork) (hU : UniqueNeuronIds net)
    (m : Nat) (ss : List Layer) (x j : Nat) (hj : j < net.layers.length)
    (hjm : j < m) (hmem : x ∈ rowIds (net.layers.get ⟨j, hj⟩)) :
    ((net.layers.take m ++ ss).findIdx?
      (fun l => l.neurons.any (fun n => n.id == x))) = some j := by
  rw [List.findIdx?_append]
  have htake : ((net.layers.take m).findIdx?
      (fun l => l.neurons.any (fun n => n.id == x))) = some j := by
    rw [List.findIdx?_eq_some_iff_getElem]
    refine ⟨by rw [List.length_take]; omega, ?_, ?_⟩
    · rw [List.getElem_take]
      exact (any_id_iff _ x).2 hmem
    · intro k hk hcontra
      rw [List.getElem_take] at hcontra
      have hkj : k < net.layers.length := by omega
      exact rows_disjoint net hU k j hk hj x
        ((any_id_iff _ x).1 hcontra) hmem
  rw [htake, Option.or_some]

theorem findIdx?_take_shift (net : NeuralNetwork)
    (m : Nat) (hm : m ≤ net.layers.length) (ss : List Layer) (x : Nat)
    (hnone : ∀ j (hj : j < net.layers.length), j < m →
      x ∉ rowIds (net.layers.get ⟨j, hj⟩))
    (r : Nat)
    (hss : (ss.findIdx? (fun l => l.neurons.any (fun n => n.id == x))) = some r) :
    ((net.layers.take m ++ ss).findIdx?
      (fun l => l.neurons.any (fun n => n.id == x))) = some (r + m) := by
  rw [List.findIdx?_append]
  have htake : ((net.layers.take m).findIdx?
      (fun l => l.neurons.any (fun n => n.id == x))) = none := by
    rw [List.findIdx?_eq_none_iff]
    intro l hl
    obtain ⟨k, hk, hlk⟩ := List.mem_iff_getElem.1 hl
    have hkm : k < m := by
      have := hk
      rw [List.length_take] at this
      omega
    have hklen : k < net.layers.length := by omega
    rw [Bool.eq_false_iff]
    intro hcontra
    refine hnone k hklen hkm ?_
    have hlk2 : net.layers[k] = l := by
      rw [← hlk, List.getElem_take]
    rw [show net.layers.get ⟨k, hklen⟩ = l from hlk2]
    exact (any_id_iff _ x).1 hcontra
  rw [htake, Option.none_or, hss, Option.map_some', List.length_take,
    Nat.min_eq_left hm]

theorem any_eq_map_any (ns : List Neuron) (x : Nat) :
    (ns.any (fun n => n.id == x)) = ((ns.map Neuron.id).any (fun y => y == x)) := by
  induction ns with
  | nil => rfl
  | cons a as ih => simp only [List.map_cons, List.any_cons, ih]

theorem restack_invariant (net : NeuralNetwork)
    (h1 : NonemptyLayers net) (h4 : NeuronIndexOK net)
    (m : Nat) (hm : m ≤ net.layers.length)
    (ss : List Layer) (f : Nat → Layer → Layer)
    (hf_id : ∀ i l, (f i l).neurons.map Neuron.id = l.neurons.map Neuron.id)
    (hf_nidx : ∀ i l, (f i l).neurons.map Neuron.neuronIndex =
      l.neurons.map Neuron.neuronIndex)
    (hf_lidx : ∀ i l n, n ∈ (f i l).neurons → n.layerIndex = i)
    (hcount : 2 ≤ m + ss.length ∧ m + ss.length ≤ 10)
    (ssne : ∀ l ∈ ss, l.neurons ≠ [])
    (ssidx : ∀ l ∈ ss, l.neurons.map Neuron.neuronIndex = List.range l.neurons.length)
    (conns : List Connection) (af : ActivationFunction)
    (hconns : ∀ c ∈ conns, ∃ li lj,
      ((net.layers.take m ++ ss).findIdx?
        (fun l => l.neurons.any (fun n => n.id == c.fromNeuronId))) = some li ∧
      ((net.layers.take m ++ ss).findIdx?
        (fun l => l.neurons.any (fun n => n.id == c.toNeuronId))) = some lj ∧
      li < lj) :
    ClaimedInvariant
      { layers := (idxMap f (net.layers.take m ++ ss)),
        connections := conns, activationFunction := af } := by
  refine ⟨?_, ?_, ?_, ?_, ?_⟩
  · -- NonemptyLayers
    intro l' hl'
    dsimp only at hl'
    rw [idxMap] at hl'
    obtain ⟨i, l, hl, rfl⟩ := mem_idxMapFrom _ _ _ l' hl'
    have hlen : (f i l).neurons.length = l.neurons.length := by
      have hh := congrArg List.length (hf_id i l)
      simpa using hh
    have hlne : l.neurons ≠ [] := by
      rw [List.mem_append] at hl
      rcases hl with hl | hl
      · exact h1 l (List.mem_of_mem_take hl)
      · exact ssne l hl
    intro hcon
    have hz : l.neurons.length = 0 := by
      rw [← hlen, hcon]
      rfl
    exact hlne (List.eq_nil_of_length_eq_zero hz)
  · -- LayerCountOK
    unfold LayerCountOK
    dsimp only
    rw [idxMap, idxMapFrom_length, List.length_append, List.length_take,
      Nat.min_eq_left hm]
    exact hcount
  · -- LayerIndexOK
    intro i hi n hn
    dsimp only at hi hn
    have hi2 : i < (net.layers.take m ++ ss).length := by
      rw [idxMap, idxMapFrom_length] at hi
      exact hi
    have h1q : (idxMap f (net.layers.take m ++ ss))[i]? =
        some (f i ((net.layers.take m ++ ss).get ⟨i, hi2⟩)) := by
      rw [idxMap_getElem?, List.getElem?_eq_getElem hi2, Option.map_some']
      rfl
    have hv := Option.some.inj (h1q.symm.trans (List.getElem?_eq_getElem hi))
    rw [← hv] at hn
    exact hf_lidx i _ n hn
  · -- NeuronIndexOK
    intro l' hl'
    dsimp only at hl'
    rw [idxMap] at hl'
    obtain ⟨i, l, hl, rfl⟩ := mem_idxMapFrom _ _ _ l' hl'
    have hlen : (f i l).neurons.length = l.neurons.length := by
      have hh := congrArg List.length (hf_id i l)
      simpa using hh
    rw [hf_nidx i l, hlen]
    rw [List.mem_append] at hl
    rcases hl with hl | hl
    · exact h4 l (List.mem_of_mem_take hl)
    · exact ssidx l hl
  · -- ConnLayersOK
    intro c hc
    dsimp only at hc
    obtain ⟨li, lj, hli, hlj, hlt⟩ := hconns c hc
    refine ⟨li, lj, ?_, ?_, hlt⟩
    · show (List.findIdx? (fun l => l.neurons.any (fun n => n.id == c.fromNeuronId))
        (idxMap f (net.layers.take m ++ ss))) = some li
      rw [idxMap, findIdx?_idxMapFrom f _ (fun i l => by
        rw [any_eq_map_any, any_eq_map_any l.neurons, hf_id])]
      exact hli
    · show (List.findIdx? (fun l => l.neurons.any (fun n => n.id == c.toNeuronId))
        (idxMap f (net.layers.take m ++ ss))) = some lj
      rw [idxMap, findIdx?_idxMapFrom f _ (fun i l => by
        rw [any_eq_map_any, any_eq_map_any l.neurons, hf_id])]
      exact hlj

theorem map_mk_proj (g : Nat → Neuron) (p : Neuron → Nat) (q : Nat → Nat)
    (hg : ∀ i, p (g i) = q i) (l : List Nat) : (l.map g).map p = l.map q := by
  rw [List.map_map]
  exact List.map_congr_left (fun a _ => hg a)

theorem map_mk_neuronIndex (g : Nat → Neuron) (hg : ∀ i, (g i).neuronIndex = i)
    (l : List Nat) : (l.map g).map Neuron.neuronIndex = l := by
  rw [map_mk_proj g Neuron.neuronIndex (fun i => i) hg]
  exact List.map_id' l

theorem map_nidx_preserve (g : Neuron → Neuron)
    (hg : ∀ n, (g n).neuronIndex = n.neuronIndex) (ns : List Neuron) :
    (ns.map g).map Neuron.neuronIndex = ns.map Neuron.neuronIndex := by
  rw [List.map_map]
  exact List.map_congr_left (fun a _ => hg a)

set_option maxHeartbeats 800000 in
theorem addLayer_claimedInvariant (net : NeuralNetwork) (hDM : DMInvariant net)
    (newLayerId : Nat) (nid : Nat → Nat) (cid : Nat → Nat) (rand : Nat → ℝ)
    (hFnid : ∀ k, FreshId net (nid k)) (hInj : Function.Injective nid) :
    ClaimedInvariant (addLayer net newLayerId nid cid rand) := by
  obtain ⟨⟨h1, h2, h3, h4, h5⟩, hU, hUL, hND⟩ := hDM
  have hl2 : 2 ≤ net.layers.length := h2.1
  unfold addLayer
  by_cases h10 : 10 ≤ net.layers.length
  · rw [if_pos h10]
    exact ⟨h1, h2, h3, h4, h5⟩
  · rw [if_neg h10]
    cases hLH : net.layers[net.layers.length - 2]? with
    | none =>
        exfalso
        rw [List.getElem?_eq_none_iff] at hLH
        omega
    | some lastHiddenLayer =>
        cases hOut : net.layers[net.layers.length - 1]? with
        | none =>
            exfalso
            rw [List.getElem?_eq_none_iff] at hOut
            omega
        | some outputLayer =>
            dsimp only
            have hlenm2 : net.layers.length - 2 < net.layers.length := by omega
            have hlenm1 : net.layers.length - 1 < net.layers.length := by omega
            have hLHget : net.layers.get ⟨net.layers.length - 2, hlenm2⟩ =
                lastHiddenLayer := getElem?_get_eq net _ _ hLH hlenm2
            have hOget : net.layers.get ⟨net.layers.length - 1, hlenm1⟩ =
                outputLayer := getElem?_get_eq net _ _ hOut hlenm1
            refine restack_invariant net h1 h4 _ (by omega) _ _ ?_ ?_ ?_ ?_ ?_ ?_ _ _ ?_
            · -- hf_id
              intro i l
              exact map_id_preserve (fun n => { n with layerIndex := i })
                (fun n => rfl) l.neurons
            · -- hf_nidx
              intro i l
              exact map_nidx_preserve (fun n => { n with layerIndex := i })
                (fun n => rfl) l.neurons
            · -- hf_lidx
              intro i l n hn
              obtain ⟨n2, hn2, rfl⟩ := List.mem_map.1 hn
              rfl
            · -- hcount
              simp only [List.length_cons, List.length_nil]
              omega
            · -- ssne
              intro l hl
              rw [List.mem_cons] at hl
              rcases hl with rfl | hl
              · intro hcon
                have hlen := congrArg List.length hcon
                simp only [List.length_map, List.length_range, List.length_nil] at hlen
                exact h1 lastHiddenLayer (List.getElem?_mem hLH)
                  (List.eq_nil_of_length_eq_zero hlen)
              · rw [List.mem_cons] at hl
                rcases hl with rfl | hl
                · intro hcon
                  have hlen := congrArg List.length hcon
                  simp only [List.length_map, List.length_nil] at hlen
                  exact h1 outputLayer (List.getElem?_mem hOut)
                    (List.eq_nil_of_length_eq_zero hlen)
                · simp at hl
            · -- ssidx
              intro l hl
              rw [List.mem_cons] at hl
              rcases hl with rfl | hl
              · show ((List.range lastHiddenLayer.neurons.length).map _).map
                  Neuron.neuronIndex = _
                rw [map_mk_neuronIndex _ (fun i => rfl), List.length_map,
                  List.length_range]
              · rw [List.mem_cons] at hl
                rcases hl with rfl | hl
                · show (outputLayer.neurons.map _).map Neuron.neuronIndex = _
                  rw [map_nidx_preserve (fun n => { n with x := n.x + 150 })
                    (fun n => rfl), List.length_map]
                  exact h4 outputLayer (List.getElem?_mem hOut)
                · simp at hl
            · -- hconns
              have hpA_of : ∀ x : Nat, x ∈ (List.range
                  lastHiddenLayer.neurons.length).map nid →
                  (((List.range lastHiddenLayer.neurons.length).map (fun i =>
                    ({ id := nid i, layerIndex := net.layers.length - 1,
                       neuronIndex := i,
                       x := headXOr lastHiddenLayer.neurons 100 + 150,
                       y := 200 - ((lastHiddenLayer.neurons.length : ℝ) - 1) *
                         100 / 2 + (i : ℝ) * 100, bias := 0, activation := 0,
                       target := none, error := none, delta := none } : Neuron))).any
                    (fun n => n.id == x)) = true := by
                intro x hx
                apply (any_id_iff _ x).2
                rw [map_mk_proj _ Neuron.id nid (fun i => rfl)]
                exact hx
              intro c hc
              rw [List.mem_append] at hc
              rcases hc with hc | hc
              · -- kept connections
                have hcm : c ∈ net.connections := List.mem_of_mem_filter hc
                obtain ⟨li, lj, hli, hlj, hlt⟩ := h5 c hcm
                obtain ⟨hlival, hlimem⟩ := layerIdxOf_mem net _ li hli
                obtain ⟨hljval, hljmem⟩ := layerIdxOf_mem net _ lj hlj
                by_cases hjtop : lj = net.layers.length - 1
                · subst hjtop
                  refine ⟨li, 1 + (net.layers.length - 1), ?_, ?_, by omega⟩
                  · exact findIdx?_take_old net hU (net.layers.length - 1) _
                      c.fromNeuronId li hlival (by omega) hlimem
                  · refine findIdx?_take_shift net (net.layers.length - 1)
                      (by omega) _ c.toNeuronId ?_ 1 ?_
                    · intro j hj hjm hmem
                      exact rows_disjoint net hU j (net.layers.length - 1) hjm
                        hlenm1 c.toNeuronId hmem hljmem
                    · have hB : ((outputLayer.neurons.map (fun n =>
                          ({ n with x := n.x + 150 } : Neuron))).any
                          (fun n => n.id == c.toNeuronId)) = true := by
                        apply (any_id_iff _ c.toNeuronId).2
                        rw [map_id_preserve (fun n => { n with x := n.x + 150 })
                          (fun n => rfl)]
                        rw [← hOget]
                        exact hljmem
                      have hA : ¬ (((List.range
                          lastHiddenLayer.neurons.length).map (fun i =>
                          ({ id := nid i, layerIndex := net.layers.length - 1,
                             neuronIndex := i,
                             x := headXOr lastHiddenLayer.neurons 100 + 150,
                             y := 200 - ((lastHiddenLayer.neurons.length : ℝ) - 1) *
                               100 / 2 + (i : ℝ) * 100, bias := 0, activation := 0,
                             target := none, error := none,
                             delta := none } : Neuron))).any
                          (fun n => n.id == c.toNeuronId)) = true := by
                        intro hcontra
                        have hxm := (any_id_iff _ c.toNeuronId).1 hcontra
                        rw [map_mk_proj _ Neuron.id nid (fun i => rfl)] at hxm
                        obtain ⟨i2, hi2, hni⟩ := List.mem_map.1 hxm
                        refine fresh_not_in_row net (nid i2) (hFnid i2)
                          (net.layers.length - 1) hlenm1 ?_
                        rw [hni]
                        exact hljmem
                      rw [List.findIdx?_cons, if_neg hA, List.findIdx?_cons,
                        if_pos hB]
                · refine ⟨li, lj, ?_, ?_, hlt⟩
                  · exact findIdx?_take_old net hU (net.layers.length - 1) _
                      c.fromNeuronId li hlival (by omega) hlimem
                  · exact findIdx?_take_old net hU (net.layers.length - 1) _
                      c.toNeuronId lj hljval (by omega) hljmem
              · -- freshly added connections
                rw [idxMap] at hc
                obtain ⟨k, pr, hpr, rfl⟩ := mem_idxMapFrom _ _ _ c hc
                rcases pr with ⟨pa, pb⟩
                rw [List.mem_append] at hpr
                rcases hpr with hpr | hpr
                · rw [pairs_eq_product, List.mem_product] at hpr
                  obtain ⟨hpa, hpb⟩ := hpr
                  rw [map_mk_proj _ Neuron.id nid (fun i => rfl)] at hpb
                  obtain ⟨i2, hi2, rfl⟩ := List.mem_map.1 hpb
                  refine ⟨net.layers.length - 2, 0 + (net.layers.length - 1),
                    ?_, ?_, by omega⟩
                  · refine findIdx?_take_old net hU (net.layers.length - 1) _
                      pa (net.layers.length - 2) hlenm2 (by omega) ?_
                    rw [hLHget]
                    exact hpa
                  · refine findIdx?_take_shift net (net.layers.length - 1)
                      (by omega) _ (nid i2) ?_ 0 ?_
                    · intro j hj hjm hmem
                      exact fresh_not_in_row net (nid i2) (hFnid i2) j hj hmem
                    · rw [List.findIdx?_cons,
                        if_pos (hpA_of (nid i2) (List.mem_map.2 ⟨i2, hi2, rfl⟩))]
                · rw [pairs_eq_product, List.mem_product] at hpr
                  obtain ⟨hpa, hpb⟩ := hpr
                  rw [map_mk_proj _ Neuron.id nid (fun i => rfl)] at hpa
                  obtain ⟨i2, hi2, rfl⟩ := List.mem_map.1 hpa
                  rw [map_id_preserve (fun n => { n with x := n.x + 150 })
                    (fun n => rfl)] at hpb
                  refine ⟨0 + (net.layers.length - 1), 1 + (net.layers.length - 1),
                    ?_, ?_, by omega⟩
                  · refine findIdx?_take_shift net (net.layers.length - 1)
                      (by omega) _ (nid i2) ?_ 0 ?_
                    · intro j hj hjm hmem
                      exact fresh_not_in_row net (nid i2) (hFnid i2) j hj hmem
                    · rw [List.findIdx?_cons,
                        if_pos (hpA_of (nid i2) (List.mem_map.2 ⟨i2, hi2, rfl⟩))]
                  · refine findIdx?_take_shift net (net.layers.length - 1)
                      (by omega) _ pb ?_ 1 ?_
                    · intro j hj hjm hmem
                      refine rows_disjoint net hU j (net.layers.length - 1) hjm
                        hlenm1 pb hmem ?_
                      rw [hOget]
                      exact hpb
                    · have hB : ((outputLayer.neurons.map (fun n =>
                          ({ n with x := n.x + 150 } : Neuron))).any
                          (fun n => n.id == pb)) = true := by
                        apply (any_id_iff _ pb).2
                        rw [map_id_preserve (fun n => { n with x := n.x + 150 })
                          (fun n => rfl)]
                        exact hpb
                      have hA : ¬ (((List.range
                          lastHiddenLayer.neurons.length).map (fun i =>
                          ({ id := nid i, layerIndex := net.layers.length - 1,
                             neuronIndex := i,
                             x := headXOr lastHiddenLayer.neurons 100 + 150,
                             y := 200 - ((lastHiddenLayer.neurons.length : ℝ) - 1) *
                               100 / 2 + (i : ℝ) * 100, bias := 0, activation := 0,
                             target := none, error := none,
                             delta := none } : Neuron))).any
                          (fun n => n.id == pb)) = true := by
                        intro hcontra
                        have hxm := (any_id_iff _ pb).1 hcontra
                        rw [map_mk_proj _ Neuron.id nid (fun i => rfl)] at hxm
                        obtain ⟨i3, hi3, hni⟩ := List.mem_map.1 hxm
                        refine fresh_not_in_row net (nid i3) (hFnid i3)
                          (net.layers.length - 1) hlenm1 ?_
                        rw [hni, hOget]
                        exact hpb
                      rw [List.findIdx?_cons, if_neg hA, List.findIdx?_cons,
                        if_pos hB]

set_option maxHeartbeats 800000 in
theorem addLayer_noDupPairs (net : NeuralNetwork) (hDM : DMInvariant net)
    (newLayerId : Nat) (nid : Nat → Nat) (cid : Nat → Nat) (rand : Nat → ℝ)
    (hFnid : ∀ k, FreshId net (nid k)) (hInj : Function.Injective nid) :
    NoDupPairs (addLayer net newLayerId nid cid rand) := by
  obtain ⟨⟨h1, h2, h3, h4, h5⟩, hU, hUL, hND⟩ := hDM
  have hl2 : 2 ≤ net.layers.length := h2.1
  unfold addLayer
  by_cases h10 : 10 ≤ net.layers.length
  · rw [if_pos h10]
    exact hND
  · rw [if_neg h10]
    cases hLH : net.layers[net.layers.length - 2]? with
    | none =>
        exfalso
        rw [List.getElem?_eq_none_iff] at hLH
        omega
    | some lastHiddenLayer =>
        cases hOut : net.layers[net.layers.length - 1]? with
        | none =>
            exfalso
            rw [List.getElem?_eq_none_iff] at hOut
            omega
        | some outputLayer =>
            dsimp only
            have hlenm2 : net.layers.length - 2 < net.layers.length := by omega
            have hLHget : net.layers.get ⟨net.layers.length - 2, hlenm2⟩ =
                lastHiddenLayer := getElem?_get_eq net _ _ hLH hlenm2
            have hnids : ((List.range lastHiddenLayer.neurons.length).map nid).Nodup :=
              List.Nodup.map hInj (List.nodup_range _)
            have hrowLH : (lastHiddenLayer.neurons.map Neuron.id).Nodup := by
              have hr := row_nodup net hU (net.layers.length - 2) hlenm2
              rw [hLHget] at hr
              exact hr
            have hrowO : (outputLayer.neurons.map Neuron.id).Nodup := by
              have hlenm1 : net.layers.length - 1 < net.layers.length := by omega
              have hr := row_nodup net hU (net.layers.length - 1) hlenm1
              rw [getElem?_get_eq net _ _ hOut hlenm1] at hr
              exact hr
            have hfreshid : ∀ x : Nat,
                x ∈ (List.range lastHiddenLayer.neurons.length).map nid →
                ∀ n ∈ allNeurons net, n.id ≠ x := by
              intro x hx n hn
              obtain ⟨i2, hi2, rfl⟩ := List.mem_map.1 hx
              exact (hFnid i2).1 n hn
            unfold NoDupPairs connPairs
            dsimp only
            rw [List.map_append, idxMap, connPairs_idxMap_conn]
            rw [List.nodup_append]
            refine ⟨List.Nodup.sublist (List.Sublist.map _ (List.filter_sublist _))
              hND, ?_, ?_⟩
            · rw [pairs_eq_product, pairs_eq_product,
                map_mk_proj _ Neuron.id nid (fun i => rfl),
                map_id_preserve (fun n => { n with x := n.x + 150 }) (fun n => rfl)]
              rw [List.nodup_append]
              refine ⟨List.Nodup.product hrowLH hnids,
                List.Nodup.product hnids hrowO, ?_⟩
              intro pr hprA hprB
              rcases pr with ⟨pa, pb⟩
              obtain ⟨hpa, hpb⟩ := List.mem_product.1 hprA
              obtain ⟨hpa2, hpb2⟩ := List.mem_product.1 hprB
              obtain ⟨n2, hn2, hid2⟩ := List.mem_map.1 hpa
              refine hfreshid pa hpa2 n2 ?_ hid2
              exact mem_allNeurons_of net (net.layers.length - 2) hlenm2 n2
                (by rw [hLHget]; exact hn2)
            · intro pr hpr hpr2
              obtain ⟨c, hc, rfl⟩ := List.mem_map.1 hpr
              have hcm := List.mem_of_mem_filter hc
              rw [pairs_eq_product, pairs_eq_product,
                map_mk_proj _ Neuron.id nid (fun i => rfl),
                map_id_preserve (fun n => { n with x := n.x + 150 })
                  (fun n => rfl), List.mem_append] at hpr2
              rcases hpr2 with hp | hp
              · obtain ⟨hp1, hp2⟩ := List.mem_product.1 hp
                obtain ⟨i2, hi2, hni⟩ := List.mem_map.1 hp2
                exact ((hFnid i2).2 c hcm).2 hni.symm
              · obtain ⟨hp1, hp2⟩ := List.mem_product.1 hp
                obtain ⟨i2, hi2, hni⟩ := List.mem_map.1 hp1
                exact ((hFnid i2).2 c hcm).1 hni.symm

theorem not_mem_of_contains_false {ids : List Nat} {x : Nat}
    (h : ids.contains x = false) : x ∉ ids := by
  intro hx
  rw [show ids.contains x = ids.elem x from rfl, List.elem_iff.2 hx] at h
  cases h

theorem dropped_decomp (net : NeuralNetwork) (hUL : UniqueLayerIds net)
    (h3 : 3 ≤ net.layers.length)
    (R O : Layer) (hR : net.layers[net.layers.length - 2]? = some R)
    (hO : net.layers[net.layers.length - 1]? = some O) :
    net.layers.filter (fun l => l.id != R.id) =
      net.layers.take (net.layers.length - 2) ++ [O] := by
  have hlen2 : net.layers.length - 2 < net.layers.length := by omega
  have hlen1 : net.layers.length - 1 < net.layers.length := by omega
  have hmap2 : net.layers.length - 2 < (net.layers.map Layer.id).length := by
    rw [List.length_map]
    omega
  have hmap1 : net.layers.length - 1 < (net.layers.map Layer.id).length := by
    rw [List.length_map]
    omega
  have hRg : net.layers[net.layers.length - 2] = R :=
    getElem?_get_eq net _ R hR hlen2
  have hOg : net.layers[net.layers.length - 1] = O :=
    getElem?_get_eq net _ O hO hlen1
  have hdrop : net.layers.drop (net.layers.length - 2) = [R, O] := by
    rw [List.drop_eq_getElem_cons hlen2,
      show net.layers.length - 2 + 1 = net.layers.length - 1 from by omega,
      List.drop_eq_getElem_cons hlen1,
      show net.layers.length - 1 + 1 = net.layers.length from by omega,
      List.drop_length, hRg, hOg]
  have hsplit : net.layers = net.layers.take (net.layers.length - 2) ++ [R, O] := by
    conv_lhs => rw [← List.take_append_drop (net.layers.length - 2) net.layers]
    rw [hdrop]
  have hfO : (O.id != R.id) = true := by
    rw [bne_iff_ne]
    intro he
    have h12 : (net.layers.map Layer.id)[net.layers.length - 1] =
        (net.layers.map Layer.id)[net.layers.length - 2] := by
      rw [List.getElem_map, List.getElem_map, hRg, hOg]
      exact he
    have := hUL.getElem_inj_iff.1 h12
    omega
  have htake : (net.layers.take (net.layers.length - 2)).filter
      (fun l => l.id != R.id) = net.layers.take (net.layers.length - 2) := by
    rw [List.filter_eq_self]
    intro l hl
    obtain ⟨k, hk, hlk⟩ := List.mem_iff_getElem.1 hl
    have hk2 : k < net.layers.length - 2 := by
      have hh := hk
      rw [List.length_take] at hh
      omega
    rw [bne_iff_ne]
    intro he
    have hmapk : k < (net.layers.map Layer.id).length := by
      rw [List.length_map]
      omega
    have hklen : k < net.layers.length := by omega
    have h12 : (net.layers.map Layer.id)[k] =
        (net.layers.map Layer.id)[net.layers.length - 2] := by
      rw [List.getElem_map, List.getElem_map, hRg]
      rw [show net.layers[k] = l from by rw [← hlk, List.getElem_take]]
      exact he
    have := hUL.getElem_inj_iff.1 h12
    omega
  conv_lhs => rw [hsplit]
  rw [List.filter_append, htake]
  congr 1
  simp only [List.filter_cons, List.filter_nil]
  rw [if_neg (by simp), if_pos hfO]

set_option maxHeartbeats 800000 in
theorem removeLayer_claimedInvariant (net : NeuralNetwork) (hDM : DMInvariant net)
    (cid : Nat → Nat) (rand : Nat → ℝ) :
    ClaimedInvariant (removeLayer net cid rand) := by
  obtain ⟨⟨h1, h2, h3, h4, h5⟩, hU, hUL, hND⟩ := hDM
  unfold removeLayer
  by_cases hle : net.layers.length ≤ 2
  · rw [if_pos hle]
    exact ⟨h1, h2, h3, h4, h5⟩
  · rw [if_neg hle]
    cases hR : net.layers[net.layers.length - 2]? with
    | none =>
        exfalso
        rw [List.getElem?_eq_none_iff] at hR
        omega
    | some layerToRemove =>
      cases hB : net.layers[net.layers.length - 3]? with
      | none =>
          exfalso
          rw [List.getElem?_eq_none_iff] at hB
          omega
      | some layerBefore =>
        cases hO : net.layers[net.layers.length - 1]? with
        | none =>
            exfalso
            rw [List.getElem?_eq_none_iff] at hO
            omega
        | some outputLayer =>
          dsimp only
          have hlenm3 : net.layers.length - 3 < net.layers.length := by omega
          have hlenm2 : net.layers.length - 2 < net.layers.length := by omega
          have hlenm1 : net.layers.length - 1 < net.layers.length := by omega
          have hBget : net.layers.get ⟨net.layers.length - 3, hlenm3⟩ =
              layerBefore := getElem?_get_eq net _ _ hB hlenm3
          have hRget : net.layers.get ⟨net.layers.length - 2, hlenm2⟩ =
              layerToRemove := getElem?_get_eq net _ _ hR hlenm2
          have hOget : net.layers.get ⟨net.layers.length - 1, hlenm1⟩ =
              outputLayer := getElem?_get_eq net _ _ hO hlenm1
          rw [dropped_decomp net hUL (by omega) layerToRemove outputLayer hR hO]
          refine restack_invariant net h1 h4 _ (by omega) _ _ ?_ ?_ ?_ ?_ ?_ ?_ _ _ ?_
          · -- hf_id
            intro i l
            refine map_id_preserve _ ?_ l.neurons
            intro n
            dsimp only
            by_cases hc : i = (net.layers.take (net.layers.length - 2) ++
              [outputLayer]).length - 1
            · rw [if_pos hc]
            · rw [if_neg hc]
          · -- hf_nidx
            intro i l
            refine map_nidx_preserve _ ?_ l.neurons
            intro n
            dsimp only
            by_cases hc : i = (net.layers.take (net.layers.length - 2) ++
              [outputLayer]).length - 1
            · rw [if_pos hc]
            · rw [if_neg hc]
          · -- hf_lidx
            intro i l n hn
            obtain ⟨n2, hn2, rfl⟩ := List.mem_map.1 hn
            by_cases hc : i = (net.layers.take (net.layers.length - 2) ++
              [outputLayer]).length - 1
            · rw [if_pos hc]
            · rw [if_neg hc]
          · -- hcount
            have hl10 : net.layers.length ≤ 10 := h2.2
            simp only [List.length_cons, List.length_nil]
            omega
          · -- ssne
            intro l hl
            rw [List.mem_cons] at hl
            rcases hl with rfl | hl
            · exact h1 l (List.getElem?_mem hO)
            · simp at hl
          · -- ssidx
            intro l hl
            rw [List.mem_cons] at hl
            rcases hl with rfl | hl
            · exact h4 l (List.getElem?_mem hO)
            · simp at hl
          · -- hconns
            intro c hc
            rw [List.mem_append] at hc
            rcases hc with hc | hc
            · -- kept connections
              have hcm : c ∈ net.connections := List.mem_of_mem_filter hc
              have hpred := List.of_mem_filter hc
              rw [Bool.and_eq_true] at hpred
              have hfrom : c.fromNeuronId ∉ layerToRemove.neurons.map Neuron.id := by
                have hx := hpred.1
                rw [Bool.not_eq_true'] at hx
                exact not_mem_of_contains_false hx
              have hto : c.toNeuronId ∉ layerToRemove.neurons.map Neuron.id := by
                have hx := hpred.2
                rw [Bool.not_eq_true'] at hx
                exact not_mem_of_contains_false hx
              obtain ⟨li, lj, hli, hlj, hlt⟩ := h5 c hcm
              obtain ⟨hlival, hlimem⟩ := layerIdxOf_mem net _ li hli
              obtain ⟨hljval, hljmem⟩ := layerIdxOf_mem net _ lj hlj
              have hlin2 : li ≠ net.layers.length - 2 := by
                intro he
                apply hfrom
                have hmm := hlimem
                rw [show net.layers.get ⟨li, hlival⟩ = layerToRemove from by
                  subst he; exact getElem?_get_eq net _ _ hR hlival] at hmm
                exact hmm
              have hljn2 : lj ≠ net.layers.length - 2 := by
                intro he
                apply hto
                have hmm := hljmem
                rw [show net.layers.get ⟨lj, hljval⟩ = layerToRemove from by
                  subst he; exact getElem?_get_eq net _ _ hR hljval] at hmm
                exact hmm
              by_cases hjtop : lj = net.layers.length - 1
              · subst hjtop
                refine ⟨li, 0 + (net.layers.length - 2), ?_, ?_, by omega⟩
                · exact findIdx?_take_old net hU (net.layers.length - 2) _
                    c.fromNeuronId li hlival (by omega) hlimem
                · refine findIdx?_take_shift net (net.layers.length - 2)
                    (by omega) _ c.toNeuronId ?_ 0 ?_
                  · intro j hj hjm hmem
                    exact rows_disjoint net hU j (net.layers.length - 1)
                      (by omega) hlenm1 c.toNeuronId hmem hljmem
                  · rw [List.findIdx?_cons, if_pos ?_]
                    · apply (any_id_iff _ c.toNeuronId).2
                      have hmm := hljmem
                      rw [hOget] at hmm
                      exact hmm
              · refine ⟨li, lj, ?_, ?_, hlt⟩
                · exact findIdx?_take_old net hU (net.layers.length - 2) _
                    c.fromNeuronId li hlival (by omega) hlimem
                · exact findIdx?_take_old net hU (net.layers.length - 2) _
                    c.toNeuronId lj hljval (by omega) hljmem
            · -- reconnecting connections
              rw [idxMap] at hc
              obtain ⟨k, pr, hpr, rfl⟩ := mem_idxMapFrom _ _ _ c hc
              rcases pr with ⟨pa, pb⟩
              rw [pairs_eq_product, List.mem_product] at hpr
              obtain ⟨hpa, hpb⟩ := hpr
              refine ⟨net.layers.length - 3, 0 + (net.layers.length - 2),
                ?_, ?_, by omega⟩
              · refine findIdx?_take_old net hU (net.layers.length - 2) _
                  pa (net.layers.length - 3) hlenm3 (by omega) ?_
                rw [hBget]
                exact hpa
              · refine findIdx?_take_shift net (net.layers.length - 2)
                  (by omega) _ pb ?_ 0 ?_
                · intro j hj hjm hmem
                  refine rows_disjoint net hU j (net.layers.length - 1)
                    (by omega) hlenm1 pb hmem ?_
                  rw [hOget]
                  exact hpb
                · rw [List.findIdx?_cons, if_pos ?_]
                  · apply (any_id_iff _ pb).2
                    exact hpb

theorem removeLayer_noDupPairs (net : NeuralNetwork) (hDM : DMInvariant net)
    (cid : Nat → Nat) (rand : Nat → ℝ)
    (hskip : ∀ c ∈ net.connections, ∀ lB lO,
      net.layers[net.layers.length - 3]? = some lB →
      net.layers[net.layers.length - 1]? = some lO →
      c.fromNeuronId ∈ lB.neurons.map Neuron.id →
      c.toNeuronId ∉ lO.neurons.map Neuron.id) :
    NoDupPairs (removeLayer net cid rand) := by
  obtain ⟨⟨h1, h2, h3, h4, h5⟩, hU, hUL, hND⟩ := hDM
  unfold removeLayer
  by_cases hle : net.layers.length ≤ 2
  · rw [if_pos hle]
    exact hND
  · rw [if_neg hle]
    cases hR : net.layers[net.layers.length - 2]? with
    | none =>
        exfalso
        rw [List.getElem?_eq_none_iff] at hR
        omega
    | some layerToRemove =>
      cases hB : net.layers[net.layers.length - 3]? with
      | none =>
          exfalso
          rw [List.getElem?_eq_none_iff] at hB
          omega
      | some layerBefore =>
        cases hO : net.layers[net.layers.length - 1]? with
        | none =>
            exfalso
            rw [List.getElem?_eq_none_iff] at hO
            omega
        | some outputLayer =>
          dsimp only
          have hlenm3 : net.layers.length - 3 < net.layers.length := by omega
          have hlenm1 : net.layers.length - 1 < net.layers.length := by omega
          have hrowB : (layerBefore.neurons.map Neuron.id).Nodup := by
            have hr := row_nodup net hU (net.layers.length - 3) hlenm3
            rw [getElem?_get_eq net _ _ hB hlenm3] at hr
            exact hr
          have hrowO : (outputLayer.neurons.map Neuron.id).Nodup := by
            have hr := row_nodup net hU (net.layers.length - 1) hlenm1
            rw [getElem?_get_eq net _ _ hO hlenm1] at hr
            exact hr
          unfold NoDupPairs connPairs
          dsimp only
          rw [List.map_append, idxMap, connPairs_idxMap_conn, pairs_eq_product]
          rw [List.nodup_append]
          refine ⟨List.Nodup.sublist (List.Sublist.map _ (List.filter_sublist _))
            hND, List.Nodup.product hrowB hrowO, ?_⟩
          intro pr hpr hpr2
          obtain ⟨c, hc, rfl⟩ := List.mem_map.1 hpr
          have hcm := List.mem_of_mem_filter hc
          obtain ⟨hp1, hp2⟩ := List.mem_product.1 hpr2
          exact hskip c hcm layerBefore outputLayer hB hO hp1 hp2

theorem getInitialNetwork_DM : DMInvariant getInitialNetwork := by
  refine ⟨⟨?_, ?_, ?_, ?_, ?_⟩, ?_, ?_, ?_⟩
  · intro l hl
    simp only [getInitialNetwork, List.mem_cons, List.not_mem_nil, or_false] at hl
    rcases hl with rfl | rfl | rfl <;> simp
  · unfold LayerCountOK
    decide
  · unfold LayerIndexOK
    decide
  · unfold NeuronIndexOK
    decide
  · intro c hc
    simp only [getInitialNetwork, List.mem_cons, List.not_mem_nil, or_false] at hc
    rcases hc with rfl | rfl | rfl | rfl | rfl | rfl
    · exact ⟨0, 1, rfl, rfl, by decide⟩
    · exact ⟨0, 1, rfl, rfl, by decide⟩
    · exact ⟨0, 1, rfl, rfl, by decide⟩
    · exact ⟨0, 1, rfl, rfl, by decide⟩
    · exact ⟨1, 2, rfl, rfl, by decide⟩
    · exact ⟨1, 2, rfl, rfl, by decide⟩
  · unfold UniqueNeuronIds allNeurons
    decide
  · unfold UniqueLayerIds
    decide
  · unfold NoDupPairs connPairs
    decide

/-- Four singleton layers (neuron ids 0–3, layer ids 0–3) carrying the chain
0→1→2→3 plus a skip connection 1→3 jumping over the second-to-last layer;
relu activation, input activation 1. -/
def skipNet4 : NeuralNetwork :=
  { layers :=
      [ { id := 0, neurons := [{ mkNeuron 0 0 0 with activation := 1 }] },
        { id := 1, neurons := [mkNeuron 1 1 0] },
        { id := 2, neurons := [mkNeuron 2 2 0] },
        { id := 3, neurons := [mkNeuron 3 3 0] } ],
    connections := [mkConn 10 0 1 1, mkConn 11 1 2 1, mkConn 12 2 3 1,
      mkConn 13 1 3 1],
    activationFunction := .relu }

theorem skipNet4_DM : DMInvariant skipNet4 := by
  refine ⟨⟨?_, ?_, ?_, ?_, ?_⟩, ?_, ?_, ?_⟩
  · intro l hl
    simp only [skipNet4, List.mem_cons, List.not_mem_nil, or_false] at hl
    rcases hl with rfl | rfl | rfl | rfl <;> simp
  · unfold LayerCountOK
    decide
  · unfold LayerIndexOK
    decide
  · unfold NeuronIndexOK
    decide
  · intro c hc
    simp only [skipNet4, List.mem_cons, List.not_mem_nil, or_false] at hc
    rcases hc with rfl | rfl | rfl | rfl
    · exact ⟨0, 1, rfl, rfl, by decide⟩
    · exact ⟨1, 2, rfl, rfl, by decide⟩
    · exact ⟨2, 3, rfl, rfl, by decide⟩
    · exact ⟨1, 3, rfl, rfl, by decide⟩
  · unfold UniqueNeuronIds allNeurons
    decide
  · unfold UniqueLayerIds
    decide
  · unfold NoDupPairs connPairs
    decide

/-- C5: on any network satisfying the data-model invariants, every Graph
Editor operation preserves the five claimed structural invariants: every
layer keeps at least one neuron, the layer count stays between 2 and 10,
every neuron's layerIndex equals its layer's position, neuronIndex values
form a contiguous 0..n-1 sequence in each layer, and every connection runs
from a strictly lower-indexed layer to a strictly higher-indexed one.  The
id-generating operations are taken with collision-free fresh uuids (the
model of the source's uuid generator). -/
theorem claimC5_invariants (net : NeuralNetwork) (hDM : DMInvariant net) :
    (∀ newLayerId nid cid rand, (∀ k, FreshId net (nid k)) →
      Function.Injective nid →
      ClaimedInvariant (addLayer net newLayerId nid cid rand)) ∧
    (∀ cid rand, ClaimedInvariant (removeLayer net cid rand)) ∧
    (∀ layerIndex newId cid rand, FreshId net newId →
      ClaimedInvariant (addNeuronToLayer net layerIndex newId cid rand)) ∧
    (∀ neuronId, ClaimedInvariant (removeNeuron net neuronId)) ∧
    (∀ fromId toId newId r, ClaimedInvariant
      (createConnection net fromId toId newId r)) ∧
    (∀ connectionId, ClaimedInvariant (deleteConnection net connectionId)) :=
  ⟨fun a b c d hF hI => addLayer_claimedInvariant net hDM a b c d hF hI,
   fun a b => removeLayer_claimedInvariant net hDM a b,
   fun a b c d hF => addNeuronToLayer_claimedInvariant net hDM a b c d hF,
   fun a => removeNeuron_claimedInvariant net hDM a,
   fun a b c d => createConnection_claimedInvariant net hDM a b c d,
   fun a => deleteConnection_claimedInvariant net hDM.1 a⟩

/-- Witness for C5: the seed network satisfies the data-model invariants and
deleting a connection preserves the claimed invariants. -/
theorem claimC5_invariants_witness :
    ClaimedInvariant (deleteConnection getInitialNetwork 100) :=
  (claimC5_invariants getInitialNetwork getInitialNetwork_DM).2.2.2.2.2 100

/-- C3 (corrected): on any network satisfying the data-model invariants,
addLayer (with fresh injective neuron uuids), addNeuronToLayer (with a fresh
neuron uuid), removeNeuron, createConnection and deleteConnection keep the
ordered (fromNeuronId, toNeuronId) pairs of the connection list duplicate
free; removeLayer keeps them duplicate free ONLY under the extra hypothesis
that no surviving connection already joins the layer before the removed one
to the output layer — the source reconnects those two layers with a fresh
connection for EVERY pair, with no duplicate check, so a pre-existing skip
connection yields a duplicate pair, refuting the claim's removeLayer
clause. -/
theorem claimC3_pair_uniqueness (net : NeuralNetwork) (hDM : DMInvariant net) :
    (∀ newLayerId nid cid rand, (∀ k, FreshId net (nid k)) →
      Function.Injective nid →
      NoDupPairs (addLayer net newLayerId nid cid rand)) ∧
    (∀ cid rand, (∀ c ∈ net.connections, ∀ lB lO,
        net.layers[net.layers.length - 3]? = some lB →
        net.layers[net.layers.length - 1]? = some lO →
        c.fromNeuronId ∈ lB.neurons.map Neuron.id →
        c.toNeuronId ∉ lO.neurons.map Neuron.id) →
      NoDupPairs (removeLayer net cid rand)) ∧
    (∀ layerIndex newId cid rand, FreshId net newId →
      NoDupPairs (addNeuronToLayer net layerIndex newId cid rand)) ∧
    (∀ neuronId, NoDupPairs (removeNeuron net neuronId)) ∧
    (∀ fromId toId newId r, NoDupPairs
      (createConnection net fromId toId newId r)) ∧
    (∀ connectionId, NoDupPairs (deleteConnection net connectionId)) :=
  ⟨fun a b c d hF hI => addLayer_noDupPairs net hDM a b c d hF hI,
   fun a b hskip => removeLayer_noDupPairs net hDM a b hskip,
   fun a b c d hF => addNeuronToLayer_noDupPairs net hDM a b c d hF,
   fun a => removeNeuron_noDupPairs net hDM.2.2.2 a,
   fun a b c d => createConnection_noDupPairs net hDM.2.2.2 a b c d,
   fun a => deleteConnection_noDupPairs net hDM.2.2.2 a⟩

/-- Witness for C3: removing a neuron from the seed network keeps the
connection pairs duplicate free. -/
theorem claimC3_pair_uniqueness_witness :
    NoDupPairs (removeNeuron getInitialNetwork 2) :=
  (claimC3_pair_uniqueness getInitialNetwork getInitialNetwork_DM).2.2.2.1 2

/-- C3 counterexample: `skipNet4` satisfies all the data-model invariants,
yet removing its last hidden layer produces two connections with the same
ordered (from, to) pair (1, 3): the surviving skip connection 1→3 and the
blanket reconnection of the layer before the removed one to the output
layer.  This refutes the claim that removeLayer adds a fresh connection
only for pairs not already connected. -/
theorem claimC3_counterexample :
    DMInvariant skipNet4 ∧
      ¬ NoDupPairs (removeLayer skipNet4 (fun k => 30 + k) (fun _ => 0)) := by
  refine ⟨skipNet4_DM, ?_⟩
  unfold NoDupPairs connPairs
  decide
